import Mathlib

/-!
# memdb: a key/value store with per-key advisory locks

A shallow embedding of `src/memdb/memdb.go`.

* The three Go maps of `memDB` are finite partial functions; they are embedded as
  functions into `Option`, `m[k] = v` as `Function.update m k (some v)` and
  `delete(m, k)` as `Function.update m k none`.
* `key2Lock` holds pointers to `lock` objects.  Every key gets its own object, which
  is never replaced, so a `lock` is embedded by value under its key.
* A `sync.Mutex` is a boolean.  `Lock()` on a locked mutex does not return until the
  mutex is unlocked: the call waits, which is the outcome `Outcome.blocked`.
  `Unlock()` on an unlocked mutex is a fatal error of the Go runtime: the outcome
  `Outcome.panic`.
* Every operation is embedded as one atomic step on the store (the behaviour of the
  code when calls do not overlap); `Reachable` are the states reached by such steps.
* For calls that overlap, the two parts of `Put` before and under `mdb.Lock()` are
  given as steps of their own (`memDB.PutAcquire`, `memDB.PutCommit`), and the
  `sync.RWMutex` of `memDB` is given with the actions of `Get` and `Put` on it
  (`RWMutex`, `GetActions`, `PutActions`).
* `uint64` is `Nat` with an explicit `% 2 ^ 64`.
-/

namespace MemDB

/-- Go `type LockID string`. -/
abbrev LockID := String

/-- Go `type Key string`. -/
abbrev Key := String

/-- Go `type Value string`. -/
abbrev Value := String

/-- The two error values of the package. -/
inductive Err where
  | ErrLockIdNotFound
  | ErrKeyNotFound
  deriving DecidableEq, Repr

/-- Go `var EmptyValue = Value("")`. -/
def EmptyValue : Value := ""

/-- Go `strconv.FormatUint(n, 10)`: the decimal rendering of `n`. -/
def FormatUint (n : Nat) : String := Nat.repr n

/-- Go `type lockIdSeqGenerator struct { currentId uint64 }`. -/
structure lockIdSeqGenerator where
  currentId : Nat

/-- Go `func (g *lockIdSeqGenerator) Next() LockID`: increment the `uint64` counter
(wrapping at `2 ^ 64`) and render it in decimal.  The generator after the call is
returned next to the token. -/
def lockIdSeqGenerator.Next (g : lockIdSeqGenerator) : lockIdSeqGenerator × LockID :=
  let g1 : lockIdSeqGenerator := { currentId := (g.currentId + 1) % 2 ^ 64 }
  (g1, FormatUint g1.currentId)

/-- Go `func NewLockIDSeqGenerator() LockIDGenerator`: the counter starts at zero. -/
def NewLockIDSeqGenerator : lockIdSeqGenerator := { currentId := 0 }

/-- Go `type lock struct { sync.Mutex; lockId LockID }`; `locked` is the state of the
embedded mutex. -/
structure lock where
  locked : Bool
  lockId : LockID
  deriving DecidableEq

/-- Go `sync.Mutex.Lock`: `none` when the mutex is locked (the caller waits). -/
def lock.Lock (l : lock) : Option lock :=
  if l.locked then none else some { l with locked := true }

/-- Go `sync.Mutex.Unlock`: `none` when the mutex is not locked (fatal error
"sync: unlock of unlocked mutex"). -/
def lock.Unlock (l : lock) : Option lock :=
  if l.locked then some { l with locked := false } else none

/-- Go `type memDB struct`.  The field `lockIdGen` has the interface type
`LockIDGenerator`, whose one implementation in the package is `lockIdSeqGenerator`. -/
structure memDB where
  name : String
  lockIdGen : lockIdSeqGenerator
  storage : Key → Option Value
  key2Lock : Key → Option lock
  lockId2Key : LockID → Option Key

/-- How a call of an operation ends: it returns (with the store after the call and
the returned values), it waits on a held key lock (nothing has been written), or
the process dies in `Unlock` of an unlocked mutex. -/
inductive Outcome (α : Type) where
  | ret : memDB → α → Outcome α
  | blocked : Outcome α
  | panic : Outcome α

/-- Go `func NewMemDB(name string, lockIdGen LockIDGenerator) MemDB`. -/
def NewMemDB (name : String) (lockIdGen : lockIdSeqGenerator) : memDB :=
  { name := name
    lockIdGen := lockIdGen
    storage := fun _ => none
    key2Lock := fun _ => none
    lockId2Key := fun _ => none }

/-- Go `func (mdb *memDB) Name() string`. -/
def memDB.Name (mdb : memDB) : String := mdb.name

/-- Go `func (mdb *memDB) getLockByKey(key Key) (*lock, bool)`. -/
def memDB.getLockByKey (mdb : memDB) (key : Key) : Option lock := mdb.key2Lock key

/-- Go `func (mdb *memDB) getKeyByLockID(lockId LockID) (Key, bool)`. -/
def memDB.getKeyByLockID (mdb : memDB) (lockId : LockID) : Option Key :=
  mdb.lockId2Key lockId

/-- Go `func (mdb *memDB) Put(key Key, value Value) LockID`.  With an existing lock
the call first takes it (and waits when it is locked); without one it creates the
lock `&lock{lockId: lockId}`, whose mutex starts unlocked, and locks it. -/
def memDB.Put (mdb : memDB) (key : Key) (value : Value) : Outcome LockID :=
  match mdb.getLockByKey key with
  | some keyLock =>
    match keyLock.Lock with
    | none => Outcome.blocked
    | some held =>
      let (gen, lockId) := mdb.lockIdGen.Next
      Outcome.ret
        { mdb with
          lockIdGen := gen
          lockId2Key := Function.update mdb.lockId2Key lockId (some key)
          key2Lock := Function.update mdb.key2Lock key (some { held with lockId := lockId })
          storage := Function.update mdb.storage key (some value) }
        lockId
  | none =>
    let (gen, lockId) := mdb.lockIdGen.Next
    match ({ locked := false, lockId := lockId } : lock).Lock with
    | none => Outcome.blocked
    | some held =>
      Outcome.ret
        { mdb with
          lockIdGen := gen
          lockId2Key := Function.update mdb.lockId2Key lockId (some key)
          key2Lock := Function.update mdb.key2Lock key (some held)
          storage := Function.update mdb.storage key (some value) }
        lockId

/-- Go `func (mdb *memDB) Get(lockId LockID, key Key) (Value, error)`. -/
def memDB.Get (mdb : memDB) (lockId : LockID) (key : Key) : Outcome (Value × Option Err) :=
  match mdb.getKeyByLockID lockId with
  | none => Outcome.ret mdb (EmptyValue, some Err.ErrLockIdNotFound)
  | some lockKey =>
    if key ≠ lockKey then Outcome.ret mdb (EmptyValue, some Err.ErrKeyNotFound)
    else
      match mdb.storage key with
      | none => Outcome.ret mdb (EmptyValue, some Err.ErrKeyNotFound)
      | some value => Outcome.ret mdb (value, none)

/-- Go `func (mdb *memDB) Update(lockId LockID, key Key, value Value, releaseLock bool) error`. -/
def memDB.Update (mdb : memDB) (lockId : LockID) (key : Key) (value : Value)
    (releaseLock : Bool) : Outcome (Option Err) :=
  match mdb.getLockByKey key with
  | none => Outcome.ret mdb (some Err.ErrKeyNotFound)
  | some keyLock =>
    match mdb.getKeyByLockID lockId with
    | none => Outcome.ret mdb (some Err.ErrLockIdNotFound)
    | some lockKey =>
      if key ≠ lockKey then Outcome.ret mdb (some Err.ErrLockIdNotFound)
      else if releaseLock then
        match keyLock.Unlock with
        | none => Outcome.panic
        | some free =>
          Outcome.ret
            { mdb with
              key2Lock := Function.update mdb.key2Lock key (some free)
              lockId2Key := Function.update mdb.lockId2Key lockId none
              storage := Function.update mdb.storage key (some value) }
            none
      else
        Outcome.ret { mdb with storage := Function.update mdb.storage key (some value) } none

/-- Go `func (mdb *memDB) Release(lockId LockID) error`. -/
def memDB.Release (mdb : memDB) (lockId : LockID) : Outcome (Option Err) :=
  match mdb.getKeyByLockID lockId with
  | none => Outcome.ret mdb (some Err.ErrLockIdNotFound)
  | some key =>
    match mdb.getLockByKey key with
    | some keyLock =>
      match keyLock.Unlock with
      | none => Outcome.panic
      | some free =>
        Outcome.ret
          { mdb with
            key2Lock := Function.update mdb.key2Lock key (some free)
            lockId2Key := Function.update mdb.lockId2Key lockId none }
          none
    | none =>
      Outcome.ret { mdb with lockId2Key := Function.update mdb.lockId2Key lockId none } none

/-- Go `func (mdb *memDB) GetAndLock(key Key) (LockID, Value, error)`; reading a
missing key of `storage` gives the zero value `""`. -/
def memDB.GetAndLock (mdb : memDB) (key : Key) : Outcome (LockID × Value × Option Err) :=
  match mdb.getLockByKey key with
  | none => Outcome.ret mdb ("", EmptyValue, some Err.ErrKeyNotFound)
  | some keyLock =>
    match keyLock.Lock with
    | none => Outcome.blocked
    | some held =>
      let (gen, lockId) := mdb.lockIdGen.Next
      Outcome.ret
        { mdb with
          lockIdGen := gen
          key2Lock := Function.update mdb.key2Lock key (some { held with lockId := lockId })
          lockId2Key := Function.update mdb.lockId2Key lockId (some key) }
        (lockId, (mdb.storage key).getD "", none)

/-- Go `func (mdb *memDB) DirectGet(key Key) (Value, bool)`. -/
def memDB.DirectGet (mdb : memDB) (key : Key) : Outcome (Value × Bool) :=
  match mdb.storage key with
  | some value => Outcome.ret mdb (value, true)
  | none => Outcome.ret mdb ("", false)

/-! ## Call sequences -/

/-- One call of the public interface `MemDB`. -/
inductive Op where
  | put (key : Key) (value : Value)
  | get (lockId : LockID) (key : Key)
  | update (lockId : LockID) (key : Key) (value : Value) (releaseLock : Bool)
  | release (lockId : LockID)
  | getAndLock (key : Key)
  | directGet (key : Key)

/-- The store after one call: the store the call returns with, the store as it was
when the call waits, `none` when the process dies. -/
def memDB.after (mdb : memDB) : Op → Option memDB
  | Op.put key value =>
    match mdb.Put key value with
    | Outcome.ret s _ => some s
    | Outcome.blocked => some mdb
    | Outcome.panic => none
  | Op.get lockId key =>
    match mdb.Get lockId key with
    | Outcome.ret s _ => some s
    | Outcome.blocked => some mdb
    | Outcome.panic => none
  | Op.update lockId key value releaseLock =>
    match mdb.Update lockId key value releaseLock with
    | Outcome.ret s _ => some s
    | Outcome.blocked => some mdb
    | Outcome.panic => none
  | Op.release lockId =>
    match mdb.Release lockId with
    | Outcome.ret s _ => some s
    | Outcome.blocked => some mdb
    | Outcome.panic => none
  | Op.getAndLock key =>
    match mdb.GetAndLock key with
    | Outcome.ret s _ => some s
    | Outcome.blocked => some mdb
    | Outcome.panic => none
  | Op.directGet key =>
    match mdb.DirectGet key with
    | Outcome.ret s _ => some s
    | Outcome.blocked => some mdb
    | Outcome.panic => none

/-- The token a call hands out, if it returns one: the result of `Put`, and the
token of a `GetAndLock` that returns without error. -/
def memDB.mint (mdb : memDB) : Op → Option LockID
  | Op.put key value =>
    match mdb.Put key value with
    | Outcome.ret _ lockId => some lockId
    | _ => none
  | Op.getAndLock key =>
    match mdb.GetAndLock key with
    | Outcome.ret _ (lockId, _, none) => some lockId
    | _ => none
  | _ => none

/-- The store after a sequence of calls issued one after the other; `none` when the
process died on the way. -/
def memDB.run (mdb : memDB) : List Op → Option memDB
  | [] => some mdb
  | op :: ops =>
    match mdb.after op with
    | some s => s.run ops
    | none => none

/-- The tokens handed out during a sequence of calls, in the order of the calls. -/
def memDB.minted (mdb : memDB) : List Op → List LockID
  | [] => []
  | op :: ops =>
    match mdb.after op with
    | some s =>
      match mdb.mint op with
      | some lockId => lockId :: s.minted ops
      | none => s.minted ops
    | none => []

/-- A store state is reachable when some sequence of calls leads to it from a new
store with a new sequential generator. -/
def Reachable (s : memDB) : Prop :=
  ∃ (name : String) (ops : List Op), (NewMemDB name NewLockIDSeqGenerator).run ops = some s

/-- The value a token stands for when it is read as a decimal number. -/
def tokenNumber (t : LockID) : Nat :=
  t.data.foldl (fun acc c => acc * 10 + (c.toNat - 48)) 0

/-! ## The per-key states of the specification -/

/-- Key `k` is held by token `t`: its lock is locked, carries `t`, and `t` is
registered for `k`. -/
def HeldBy (s : memDB) (k : Key) (t : LockID) : Prop :=
  s.key2Lock k = some { locked := true, lockId := t } ∧ s.lockId2Key t = some k

/-- Key `k` has never been written: it has neither a lock nor a value. -/
def Absent (s : memDB) (k : Key) : Prop :=
  s.key2Lock k = none ∧ s.storage k = none

/-- Key `k` exists and its lock is not locked. -/
def Free (s : memDB) (k : Key) : Prop :=
  ∃ t, s.key2Lock k = some { locked := false, lockId := t }

/-- The token the generator of the store hands out next. -/
def memDB.nextToken (s : memDB) : LockID := s.lockIdGen.Next.2

/-- What holds between calls: a registered token names the locked lock of its key,
and a key has a lock exactly when it has a value. -/
def Inv (s : memDB) : Prop :=
  (∀ t k, s.lockId2Key t = some k → s.key2Lock k = some { locked := true, lockId := t }) ∧
  (∀ k, s.key2Lock k = none ↔ s.storage k = none)



/-- The value a call writes under key `k`: the value of a `Put` on `k` that returns,
the value of an `Update` on `k` that returns without error. -/
def memDB.written (mdb : memDB) (k : Key) : Op → Option Value
  | Op.put key value =>
    match mdb.Put key value with
    | Outcome.ret _ _ => if key = k then some value else none
    | _ => none
  | Op.update lockId key value releaseLock =>
    match mdb.Update lockId key value releaseLock with
    | Outcome.ret _ none => if key = k then some value else none
    | _ => none
  | _ => none

/-- The value of the most recent successful `Put` or `Update` on key `k` in a
sequence of calls; `none` when the sequence has none. -/
def memDB.lastWrite (mdb : memDB) (k : Key) : List Op → Option Value
  | [] => none
  | op :: ops =>
    match mdb.after op with
    | some s =>
      match s.lastWrite k ops with
      | some v => some v
      | none => mdb.written k op
    | none => none

/-- Every registered token is the rendering of a number up to the counter. -/
def TokensBelow (s : memDB) : Prop :=
  ∀ t k, s.lockId2Key t = some k → ∃ i, i ≤ s.lockIdGen.currentId ∧ t = FormatUint i

/-- The store after a sequence of calls on a new store with a new sequential
generator (the new store itself, had the process died on the way). -/
def storeAfter (name : String) (ops : List Op) : memDB :=
  ((NewMemDB name NewLockIDSeqGenerator).run ops).getD (NewMemDB name NewLockIDSeqGenerator)

/-- `n` rounds of `Put("k", "")` followed by the release of the token it returns, on
a store whose counter stands at `start`. -/
def churn (start : Nat) : Nat → List Op
  | 0 => []
  | n + 1 =>
    Op.put "k" "" :: Op.release (FormatUint ((start + 1) % 2 ^ 64)) :: churn (start + 1) n

/-! ## Calls, tokens and keys -/

/-- The call presents the token `t`: `t` is its lock id argument. -/
def Op.presents (t : LockID) : Op → Prop
  | Op.get lockId _ => lockId = t
  | Op.update lockId _ _ _ => lockId = t
  | Op.release lockId => lockId = t
  | _ => False

/-- The call names the key `k`: `k` is its key argument, or, for `Release`, the key
its token is registered for. -/
def memDB.names (s : memDB) (k : Key) : Op → Prop
  | Op.put key _ => key = k
  | Op.getAndLock key => key = k
  | Op.update _ key _ _ => key = k
  | Op.release lockId => s.lockId2Key lockId = some k
  | _ => False

/-- The token of every lock is the rendering of a number up to the counter. -/
def LocksBelow (s : memDB) : Prop :=
  ∀ k l, s.key2Lock k = some l → ∃ i, i ≤ s.lockIdGen.currentId ∧ l.lockId = FormatUint i

/-- The token of every locked lock is registered for the key of the lock. -/
def HeldRegistered (s : memDB) : Prop :=
  ∀ k t, s.key2Lock k = some { locked := true, lockId := t } → s.lockId2Key t = some k

/-- The token of every lock that is not locked is not registered. -/
def FreeDead (s : memDB) : Prop :=
  ∀ k t, s.key2Lock k = some { locked := false, lockId := t } → s.lockId2Key t = none

/-- What holds between calls as long as the counter has not wrapped. -/
def NoWrapInv (s : memDB) : Prop :=
  TokensBelow s ∧ LocksBelow s ∧ HeldRegistered s ∧ FreeDead s

/-! ## The HTTP adapter (`src/rest/server.go`) -/

/-- Go `http.StatusNoContent`. -/
def StatusNoContent : Nat := 204

/-- Go `http.StatusBadRequest`. -/
def StatusBadRequest : Nat := 400

/-- Go `http.StatusUnauthorized`. -/
def StatusUnauthorized : Nat := 401

/-- Go `http.StatusNotFound`. -/
def StatusNotFound : Nat := 404

/-- Go `http.StatusInternalServerError`. -/
def StatusInternalServerError : Nat := 500

/-- Go `strconv.ParseBool`: it accepts `1, t, T, TRUE, true, True` and
`0, f, F, FALSE, false, False`; `none` stands for the error result. -/
def ParseBool (str : String) : Option Bool :=
  if str = "1" ∨ str = "t" ∨ str = "T" ∨ str = "TRUE" ∨ str = "true" ∨ str = "True" then
    some true
  else if str = "0" ∨ str = "f" ∨ str = "F" ∨ str = "FALSE" ∨ str = "false" ∨
      str = "False" then
    some false
  else none

/-- What a handler reads of a request: the route variables `mux.Vars(r)` and the
result of `ioutil.ReadAll(r.Body)`, `none` when reading fails. -/
structure Request where
  vars : String → Option String
  body : Option String

/-- Go `type Server struct`; the handlers use the field `mdb` (and the logger, which
does not act on the store). -/
structure Server where
  mdb : memDB

/-- Go `func (s *Server) Update(w http.ResponseWriter, r *http.Request)`: the result
is the status written to `w`, next to the store after the call.  A missing entry of
`vars` reads as `""`, as in Go. -/
def Server.Update (s : Server) (r : Request) : Outcome Nat :=
  match r.vars "key" with
  | none => Outcome.ret s.mdb StatusBadRequest
  | some rawKey =>
    match r.vars "lock_id" with
    | none => Outcome.ret s.mdb StatusBadRequest
    | some rawLockId =>
      match ParseBool ((r.vars "release").getD "") with
      | none => Outcome.ret s.mdb StatusBadRequest
      | some release =>
        match r.body with
        | none => Outcome.ret s.mdb StatusInternalServerError
        | some body =>
          match s.mdb.Update rawLockId rawKey body release with
          | Outcome.ret mdb (some Err.ErrKeyNotFound) => Outcome.ret mdb StatusNotFound
          | Outcome.ret mdb (some Err.ErrLockIdNotFound) => Outcome.ret mdb StatusUnauthorized
          | Outcome.ret mdb none => Outcome.ret mdb StatusNoContent
          | Outcome.blocked => Outcome.blocked
          | Outcome.panic => Outcome.panic

/-- The request that the route `/values/{key}/{lock_id}` with the query
`release={release}` hands to `Update` for `POST /values/key/lockId?release=r` with
body `b`. -/
def updateRequest (key lockId r b : String) : Request :=
  { vars := fun n =>
      if n = "key" then some key
      else if n = "lock_id" then some lockId
      else if n = "release" then some r
      else none
    body := some b }

/-! ## Overlapping calls of `Put`

`Put` releases the read lock of the store after `getLockByKey` and takes the write
lock only at `mdb.Lock()`; another call can run in between.  The two parts of `Put`
are given here as steps of their own. -/

/-- The part of `Put` before `mdb.Lock()` (memdb.go:77-80): look the lock of the key
up and, when there is one, lock it.  `none` when the call waits; otherwise the store
and the value of `hasLock`. -/
def memDB.PutAcquire (mdb : memDB) (key : Key) : Option (memDB × Bool) :=
  match mdb.getLockByKey key with
  | some keyLock =>
    match keyLock.Lock with
    | none => none
    | some held =>
      some ({ mdb with key2Lock := Function.update mdb.key2Lock key (some held) }, true)
  | none => some (mdb, false)

/-- The part of `Put` under `mdb.Lock()` (memdb.go:82-99), with the value of `hasLock`
from the first part.  With `hasLock`, `keyLock` is the lock found by the first part,
the one stored under `key`. -/
def memDB.PutCommit (mdb : memDB) (key : Key) (value : Value) (hasLock : Bool) :
    Outcome LockID :=
  let (gen, lockId) := mdb.lockIdGen.Next
  if hasLock then
    Outcome.ret
      { mdb with
        lockIdGen := gen
        lockId2Key := Function.update mdb.lockId2Key lockId (some key)
        key2Lock := Function.update mdb.key2Lock key
          ((mdb.key2Lock key).map fun keyLock => { keyLock with lockId := lockId })
        storage := Function.update mdb.storage key (some value) }
      lockId
  else
    match ({ locked := false, lockId := lockId } : lock).Lock with
    | none => Outcome.blocked
    | some held =>
      Outcome.ret
        { mdb with
          lockIdGen := gen
          lockId2Key := Function.update mdb.lockId2Key lockId (some key)
          key2Lock := Function.update mdb.key2Lock key (some held)
          storage := Function.update mdb.storage key (some value) }
        lockId

/-- The store after two overlapping calls `Put("key0", "value0")` and
`Put("key0", "value1")` on a new store, both of which ran the first part of `Put`
(finding no lock) before either ran the second. -/
def overlappedPuts : memDB :=
  match (NewMemDB "TestDB" NewLockIDSeqGenerator).PutCommit "key0" "value0" false with
  | Outcome.ret s1 _ =>
    match s1.PutCommit "key0" "value1" false with
    | Outcome.ret s2 _ => s2
    | _ => s1
  | _ => NewMemDB "TestDB" NewLockIDSeqGenerator

/-! ## The lock of the store

`memDB` embeds a `sync.RWMutex`.  The atomic steps above leave it out; for calls that
overlap it is given here, with the order in which `Get` and `Put` act on it. -/

/-- Go `sync.RWMutex` as its callers see it: the number of read locks held, whether
the write lock is held, and the number of calls of `Lock()` that have announced
themselves and wait. -/
structure RWMutex where
  readers : Nat
  writer : Bool
  waiting : Nat
  deriving DecidableEq

/-- One action of a call on the lock of the store.  A call of `Lock()` is two actions:
it announces itself, and then takes the lock once no read lock is held. -/
inductive LockAction where
  | RLock
  | RUnlock
  | LockAnnounce
  | LockAcquire
  | Unlock
  deriving DecidableEq

/-- The effect of one action on the mutex, `none` when the caller has to wait.
`RLock()` waits while the write lock is held and also while a call of `Lock()` waits
(Go: a blocked `Lock` call excludes new readers, which rules out taking the read lock
twice in one call); `Lock()` waits while a read lock or the write lock is held. -/
def RWMutex.act (m : RWMutex) : LockAction → Option RWMutex
  | LockAction.RLock =>
    if m.writer = false ∧ m.waiting = 0 then some { m with readers := m.readers + 1 } else none
  | LockAction.RUnlock => some { m with readers := m.readers - 1 }
  | LockAction.LockAnnounce => some { m with waiting := m.waiting + 1 }
  | LockAction.LockAcquire =>
    if m.writer = false ∧ m.readers = 0 then
      some { m with writer := true, waiting := m.waiting - 1 }
    else none
  | LockAction.Unlock => some { m with writer := false }

/-- The actions of `getLockByKey` and of `getKeyByLockID` on the lock of the store
(memdb.go:63-64 and 70-71): `RLock()`, and `RUnlock()` on return. -/
def lookupActions : List LockAction := [LockAction.RLock, LockAction.RUnlock]

/-- The actions of `Get` on the lock of the store: `mdb.RLock()` (memdb.go:104), then,
still holding it, those of `getKeyByLockID` (memdb.go:107), then the deferred
`mdb.RUnlock()` (memdb.go:105). -/
def GetActions : List LockAction :=
  LockAction.RLock :: (lookupActions ++ [LockAction.RUnlock])

/-- The actions of `Put` on the lock of the store for a key that has no lock: those
of `getLockByKey` (memdb.go:77), then `mdb.Lock()` (memdb.go:82) and the deferred
`mdb.Unlock()` (memdb.go:83). -/
def PutActions : List LockAction :=
  lookupActions ++ [LockAction.LockAnnounce, LockAction.LockAcquire, LockAction.Unlock]

/-- A call takes the next of its remaining actions: the mutex and the actions left
afterwards, `none` when the call has to wait (or has no action left). -/
def RWMutex.advance (m : RWMutex) : List LockAction → Option (RWMutex × List LockAction)
  | [] => none
  | a :: rest => (m.act a).map fun m1 => (m1, rest)

/-- A call takes all of its remaining actions with no other call in between. -/
def RWMutex.acts (m : RWMutex) : List LockAction → Option RWMutex
  | [] => some m
  | a :: rest =>
    match m.act a with
    | some m1 => m1.acts rest
    | none => none

/-! ## Normal forms of the operations -/

theorem Put_held {s : memDB} {k : Key} {t0 : LockID} (v : Value)
    (h : s.key2Lock k = some { locked := true, lockId := t0 }) :
    s.Put k v = Outcome.blocked := by
  simp [memDB.Put, memDB.getLockByKey, lock.Lock, h]

theorem Put_not_held {s : memDB} {k : Key} (v : Value)
    (h : ∀ t0, s.key2Lock k ≠ some { locked := true, lockId := t0 }) :
    s.Put k v = Outcome.ret
      { s with
        lockIdGen := s.lockIdGen.Next.1
        lockId2Key := Function.update s.lockId2Key s.nextToken (some k)
        key2Lock := Function.update s.key2Lock k (some { locked := true, lockId := s.nextToken })
        storage := Function.update s.storage k (some v) }
      s.nextToken := by
  unfold memDB.Put memDB.getLockByKey
  cases hk : s.key2Lock k with
  | none => rfl
  | some l =>
    obtain ⟨b, t0⟩ := l
    cases b with
    | true => exact absurd hk (h t0)
    | false => rfl

theorem GetAndLock_absent {s : memDB} {k : Key} (h : s.key2Lock k = none) :
    s.GetAndLock k = Outcome.ret s ("", EmptyValue, some Err.ErrKeyNotFound) := by
  simp [memDB.GetAndLock, memDB.getLockByKey, h]

theorem GetAndLock_held {s : memDB} {k : Key} {t0 : LockID}
    (h : s.key2Lock k = some { locked := true, lockId := t0 }) :
    s.GetAndLock k = Outcome.blocked := by
  simp [memDB.GetAndLock, memDB.getLockByKey, lock.Lock, h]

theorem GetAndLock_free {s : memDB} {k : Key} {t0 : LockID}
    (h : s.key2Lock k = some { locked := false, lockId := t0 }) :
    s.GetAndLock k = Outcome.ret
      { s with
        lockIdGen := s.lockIdGen.Next.1
        key2Lock := Function.update s.key2Lock k (some { locked := true, lockId := s.nextToken })
        lockId2Key := Function.update s.lockId2Key s.nextToken (some k) }
      (s.nextToken, (s.storage k).getD "", none) := by
  unfold memDB.GetAndLock memDB.getLockByKey
  rw [h]
  rfl

theorem Get_dead {s : memDB} {t : LockID} (k : Key) (h : s.lockId2Key t = none) :
    s.Get t k = Outcome.ret s (EmptyValue, some Err.ErrLockIdNotFound) := by
  simp [memDB.Get, memDB.getKeyByLockID, h]

theorem Get_other {s : memDB} {t : LockID} {k k1 : Key} (h : s.lockId2Key t = some k1)
    (hne : k ≠ k1) : s.Get t k = Outcome.ret s (EmptyValue, some Err.ErrKeyNotFound) := by
  simp [memDB.Get, memDB.getKeyByLockID, h, hne]

theorem Get_live {s : memDB} {t : LockID} {k : Key} {v : Value} (h : s.lockId2Key t = some k)
    (hv : s.storage k = some v) : s.Get t k = Outcome.ret s (v, none) := by
  simp [memDB.Get, memDB.getKeyByLockID, h, hv]

theorem Update_absent {s : memDB} {k : Key} (t : LockID) (v : Value) (r : Bool)
    (h : s.key2Lock k = none) : s.Update t k v r = Outcome.ret s (some Err.ErrKeyNotFound) := by
  simp [memDB.Update, memDB.getLockByKey, h]

theorem Update_wrong_token {s : memDB} {k : Key} {t : LockID} (v : Value) (r : Bool)
    (h : s.key2Lock k ≠ none) (ht : s.lockId2Key t ≠ some k) :
    s.Update t k v r = Outcome.ret s (some Err.ErrLockIdNotFound) := by
  unfold memDB.Update memDB.getLockByKey memDB.getKeyByLockID
  cases hk : s.key2Lock k with
  | none => exact absurd hk h
  | some l =>
    cases hl : s.lockId2Key t with
    | none => rfl
    | some k1 =>
      have hne : k ≠ k1 := by
        intro e
        exact ht (by rw [hl, e])
      simp [hne]

theorem Update_keep {s : memDB} {k : Key} {t : LockID} (v : Value)
    (h : s.key2Lock k ≠ none) (ht : s.lockId2Key t = some k) :
    s.Update t k v false =
      Outcome.ret { s with storage := Function.update s.storage k (some v) } none := by
  unfold memDB.Update memDB.getLockByKey memDB.getKeyByLockID
  cases hk : s.key2Lock k with
  | none => exact absurd hk h
  | some l => simp [ht]

theorem Update_release {s : memDB} {k : Key} {t t0 : LockID} (v : Value)
    (h : s.key2Lock k = some { locked := true, lockId := t0 }) (ht : s.lockId2Key t = some k) :
    s.Update t k v true =
      Outcome.ret
        { s with
          key2Lock := Function.update s.key2Lock k (some { locked := false, lockId := t0 })
          lockId2Key := Function.update s.lockId2Key t none
          storage := Function.update s.storage k (some v) }
        none := by
  simp [memDB.Update, memDB.getLockByKey, memDB.getKeyByLockID, lock.Unlock, h, ht]

theorem Update_release_free {s : memDB} {k : Key} {t t0 : LockID} (v : Value)
    (h : s.key2Lock k = some { locked := false, lockId := t0 }) (ht : s.lockId2Key t = some k) :
    s.Update t k v true = Outcome.panic := by
  simp [memDB.Update, memDB.getLockByKey, memDB.getKeyByLockID, lock.Unlock, h, ht]

theorem Release_dead {s : memDB} {t : LockID} (h : s.lockId2Key t = none) :
    s.Release t = Outcome.ret s (some Err.ErrLockIdNotFound) := by
  simp [memDB.Release, memDB.getKeyByLockID, h]

theorem Release_held {s : memDB} {k : Key} {t t0 : LockID} (ht : s.lockId2Key t = some k)
    (h : s.key2Lock k = some { locked := true, lockId := t0 }) :
    s.Release t =
      Outcome.ret
        { s with
          key2Lock := Function.update s.key2Lock k (some { locked := false, lockId := t0 })
          lockId2Key := Function.update s.lockId2Key t none }
        none := by
  simp [memDB.Release, memDB.getLockByKey, memDB.getKeyByLockID, lock.Unlock, h, ht]

theorem Get_returns (s : memDB) (t : LockID) (k : Key) : ∃ r, s.Get t k = Outcome.ret s r := by
  cases ht : s.lockId2Key t with
  | none => exact ⟨_, Get_dead k ht⟩
  | some k1 =>
    by_cases hne : k = k1
    · subst hne
      cases hv : s.storage k with
      | none => exact ⟨(EmptyValue, some Err.ErrKeyNotFound), by
          simp [memDB.Get, memDB.getKeyByLockID, ht, hv]⟩
      | some v => exact ⟨_, Get_live ht hv⟩
    · exact ⟨_, Get_other ht hne⟩

theorem DirectGet_returns (s : memDB) (k : Key) : ∃ r, s.DirectGet k = Outcome.ret s r := by
  unfold memDB.DirectGet
  cases s.storage k with
  | none => exact ⟨_, rfl⟩
  | some v => exact ⟨_, rfl⟩

theorem inv_new (name : String) (g : lockIdSeqGenerator) : Inv (NewMemDB name g) := by
  constructor
  · intro t k h
    simp [NewMemDB] at h
  · intro k
    simp [NewMemDB]


theorem inv_put {s : memDB} {k : Key} (v : Value) (hs : Inv s)
    (h : ∀ t0, s.key2Lock k ≠ some { locked := true, lockId := t0 }) :
    Inv { s with
        lockIdGen := s.lockIdGen.Next.1
        lockId2Key := Function.update s.lockId2Key s.nextToken (some k)
        key2Lock := Function.update s.key2Lock k (some { locked := true, lockId := s.nextToken })
        storage := Function.update s.storage k (some v) } := by
  obtain ⟨h1, h2⟩ := hs
  constructor
  · intro t k1 ht
    simp only [Function.update_apply] at ht ⊢
    by_cases e : t = s.nextToken
    · simp only [e, if_true, Option.some.injEq] at ht
      simp [e, ← ht]
    · simp only [e, if_false] at ht
      have hk := h1 t k1 ht
      by_cases e1 : k1 = k
      · rw [e1] at hk
        exact absurd hk (h t)
      · simp [e1, hk]
  · intro k1
    simp only [Function.update_apply]
    by_cases e1 : k1 = k
    · simp [e1]
    · simp [e1, h2 k1]

theorem inv_getAndLock {s : memDB} {k : Key} {t0 : LockID} (hs : Inv s)
    (h : s.key2Lock k = some { locked := false, lockId := t0 }) :
    Inv { s with
        lockIdGen := s.lockIdGen.Next.1
        key2Lock := Function.update s.key2Lock k (some { locked := true, lockId := s.nextToken })
        lockId2Key := Function.update s.lockId2Key s.nextToken (some k) } := by
  obtain ⟨h1, h2⟩ := hs
  constructor
  · intro t k1 ht
    simp only [Function.update_apply] at ht ⊢
    by_cases e : t = s.nextToken
    · simp only [e, if_true, Option.some.injEq] at ht
      simp [e, ← ht]
    · simp only [e, if_false] at ht
      have hk := h1 t k1 ht
      by_cases e1 : k1 = k
      · rw [e1, h] at hk
        simp at hk
      · simp [e1, hk]
  · intro k1
    simp only [Function.update_apply]
    by_cases e1 : k1 = k
    · have := (h2 k).not.mp (by rw [h]; simp)
      simp [e1, this]
    · simp [e1, h2 k1]

theorem inv_update_keep {s : memDB} {k : Key} (v : Value) (hs : Inv s)
    (h : s.key2Lock k ≠ none) :
    Inv { s with storage := Function.update s.storage k (some v) } := by
  obtain ⟨h1, h2⟩ := hs
  refine ⟨h1, ?_⟩
  intro k1
  simp only [Function.update_apply]
  by_cases e1 : k1 = k
  · simp [e1, h]
  · simp [e1, h2 k1]

theorem inv_update_release {s : memDB} {k : Key} {t : LockID} (v : Value) (hs : Inv s)
    (ht : s.lockId2Key t = some k) :
    Inv { s with
        key2Lock := Function.update s.key2Lock k (some { locked := false, lockId := t })
        lockId2Key := Function.update s.lockId2Key t none
        storage := Function.update s.storage k (some v) } := by
  obtain ⟨h1, h2⟩ := hs
  constructor
  · intro t1 k1 ht1
    simp only [Function.update_apply] at ht1 ⊢
    by_cases e : t1 = t
    · simp [e] at ht1
    · simp only [e, if_false] at ht1
      have hk := h1 t1 k1 ht1
      by_cases e1 : k1 = k
      · rw [e1, h1 t k ht] at hk
        simp at hk
        exact absurd hk.symm e
      · simp [e1, hk]
  · intro k1
    simp only [Function.update_apply]
    by_cases e1 : k1 = k
    · simp [e1]
    · simp [e1, h2 k1]

theorem inv_release {s : memDB} {k : Key} {t : LockID} (hs : Inv s)
    (ht : s.lockId2Key t = some k) :
    Inv { s with
        key2Lock := Function.update s.key2Lock k (some { locked := false, lockId := t })
        lockId2Key := Function.update s.lockId2Key t none } := by
  obtain ⟨h1, h2⟩ := hs
  constructor
  · intro t1 k1 ht1
    simp only [Function.update_apply] at ht1 ⊢
    by_cases e : t1 = t
    · simp [e] at ht1
    · simp only [e, if_false] at ht1
      have hk := h1 t1 k1 ht1
      by_cases e1 : k1 = k
      · rw [e1, h1 t k ht] at hk
        simp at hk
        exact absurd hk.symm e
      · simp [e1, hk]
  · intro k1
    simp only [Function.update_apply]
    by_cases e1 : k1 = k
    · have := (h2 k).not.mp (by rw [h1 t k ht]; simp)
      simp [e1, this]
    · simp [e1, h2 k1]

/-- The lock of a key is either missing, locked, or not locked. -/
theorem lock_cases (s : memDB) (k : Key) :
    s.key2Lock k = none ∨ (∃ t0, s.key2Lock k = some { locked := true, lockId := t0 }) ∨
      ∃ t0, s.key2Lock k = some { locked := false, lockId := t0 } := by
  cases hk : s.key2Lock k with
  | none => exact Or.inl rfl
  | some l =>
    obtain ⟨b, t0⟩ := l
    cases b with
    | true => exact Or.inr (Or.inl ⟨t0, rfl⟩)
    | false => exact Or.inr (Or.inr ⟨t0, rfl⟩)

theorem not_held_of_absent {s : memDB} {k : Key} (h : s.key2Lock k = none) :
    ∀ t0, s.key2Lock k ≠ some { locked := true, lockId := t0 } := by
  intro t0 e
  rw [h] at e
  exact Option.noConfusion e

theorem not_held_of_free {s : memDB} {k : Key} {t1 : LockID}
    (h : s.key2Lock k = some { locked := false, lockId := t1 }) :
    ∀ t0, s.key2Lock k ≠ some { locked := true, lockId := t0 } := by
  intro t0 e
  rw [h] at e
  simp at e

theorem inv_after {s s1 : memDB} (op : Op) (hs : Inv s) (h : s.after op = some s1) : Inv s1 := by
  cases op with
  | put key value =>
    rcases lock_cases s key with hk | ⟨t0, hk⟩ | ⟨t0, hk⟩
    · simp only [memDB.after, Put_not_held value (not_held_of_absent hk), Option.some.injEq] at h
      rw [← h]
      exact inv_put value hs (not_held_of_absent hk)
    · simp only [memDB.after, Put_held value hk, Option.some.injEq] at h
      rw [← h]
      exact hs
    · simp only [memDB.after, Put_not_held value (not_held_of_free hk), Option.some.injEq] at h
      rw [← h]
      exact inv_put value hs (not_held_of_free hk)
  | get lockId key =>
    obtain ⟨r, hr⟩ := Get_returns s lockId key
    simp only [memDB.after, hr, Option.some.injEq] at h
    rw [← h]
    exact hs
  | update lockId key value releaseLock =>
    by_cases hk : s.key2Lock key = none
    · simp only [memDB.after, Update_absent lockId value releaseLock hk, Option.some.injEq] at h
      rw [← h]
      exact hs
    · by_cases ht : s.lockId2Key lockId = some key
      · cases releaseLock with
        | false =>
          simp only [memDB.after, Update_keep value hk ht, Option.some.injEq] at h
          rw [← h]
          exact inv_update_keep value hs hk
        | true =>
          simp only [memDB.after, Update_release value (hs.1 _ _ ht) ht, Option.some.injEq] at h
          rw [← h]
          exact inv_update_release value hs ht
      · simp only [memDB.after, Update_wrong_token value releaseLock hk ht,
          Option.some.injEq] at h
        rw [← h]
        exact hs
  | release lockId =>
    cases ht : s.lockId2Key lockId with
    | none =>
      simp only [memDB.after, Release_dead ht, Option.some.injEq] at h
      rw [← h]
      exact hs
    | some k =>
      simp only [memDB.after, Release_held ht (hs.1 _ _ ht), Option.some.injEq] at h
      rw [← h]
      exact inv_release hs ht
  | getAndLock key =>
    rcases lock_cases s key with hk | ⟨t0, hk⟩ | ⟨t0, hk⟩
    · simp only [memDB.after, GetAndLock_absent hk, Option.some.injEq] at h
      rw [← h]
      exact hs
    · simp only [memDB.after, GetAndLock_held hk, Option.some.injEq] at h
      rw [← h]
      exact hs
    · simp only [memDB.after, GetAndLock_free hk, Option.some.injEq] at h
      rw [← h]
      exact inv_getAndLock hs hk
  | directGet key =>
    obtain ⟨r, hr⟩ := DirectGet_returns s key
    simp only [memDB.after, hr, Option.some.injEq] at h
    rw [← h]
    exact hs

theorem inv_run {s s1 : memDB} (ops : List Op) (hs : Inv s) (h : s.run ops = some s1) :
    Inv s1 := by
  induction ops generalizing s with
  | nil =>
    simp only [memDB.run, Option.some.injEq] at h
    rw [← h]
    exact hs
  | cons op ops ih =>
    simp only [memDB.run] at h
    cases ha : s.after op with
    | none => simp [ha] at h
    | some s2 =>
      rw [ha] at h
      exact ih (inv_after op hs ha) h

theorem inv_reachable {s : memDB} (h : Reachable s) : Inv s := by
  obtain ⟨name, ops, hrun⟩ := h
  exact inv_run ops (inv_new name _) hrun

/-! ## Tokens -/

theorem digitChar_value (d : Nat) (h : d < 10) : (Nat.digitChar d).toNat - 48 = d := by
  interval_cases d <;> rfl

theorem foldl_toDigitsCore (fuel : Nat) : ∀ (n : Nat) (acc : List Char), n < fuel →
    (Nat.toDigitsCore 10 fuel n acc).foldl (fun a c => a * 10 + (c.toNat - 48)) 0 =
      acc.foldl (fun a c => a * 10 + (c.toNat - 48)) n := by
  induction fuel with
  | zero => intro n acc h; omega
  | succ fuel ih =>
    intro n acc h
    have hd := digitChar_value (n % 10) (Nat.mod_lt _ (by norm_num))
    simp only [Nat.toDigitsCore]
    by_cases h0 : n / 10 = 0
    · simp only [h0, if_true, List.foldl_cons, hd]
      have : n % 10 = n := by omega
      simp [this]
    · simp only [h0, if_false]
      rw [ih (n / 10) _ (by omega)]
      simp only [List.foldl_cons, hd]
      have : n / 10 * 10 + n % 10 = n := by omega
      rw [this]

/-- Reading the decimal rendering of a number gives the number back. -/
theorem tokenNumber_FormatUint (n : Nat) : tokenNumber (FormatUint n) = n := by
  simp only [tokenNumber, FormatUint, Nat.repr, Nat.toDigits, List.asString]
  rw [foldl_toDigitsCore (n + 1) n [] (by omega)]
  rfl

theorem FormatUint_injective {m n : Nat} (h : FormatUint m = FormatUint n) : m = n := by
  have := congrArg tokenNumber h
  rwa [tokenNumber_FormatUint, tokenNumber_FormatUint] at this

theorem nextToken_eq (s : memDB) :
    s.nextToken = FormatUint ((s.lockIdGen.currentId + 1) % 2 ^ 64) := rfl

theorem next_currentId (s : memDB) :
    s.lockIdGen.Next.1.currentId = (s.lockIdGen.currentId + 1) % 2 ^ 64 := rfl

/-- One call either hands out no token, leaves the generator alone and registers no
token, or hands out the next token of the generator and registers at most that one. -/
theorem after_mint_cases {s s1 : memDB} (op : Op) (hs : Inv s) (h : s.after op = some s1) :
    (s.mint op = none ∧ s1.lockIdGen = s.lockIdGen ∧
      ∀ t k, s1.lockId2Key t = some k → s.lockId2Key t = some k) ∨
    (s.mint op = some s.nextToken ∧ s1.lockIdGen = s.lockIdGen.Next.1 ∧
      ∀ t k, s1.lockId2Key t = some k → t = s.nextToken ∨ s.lockId2Key t = some k) := by
  have hput : ∀ key value, (∀ t0, s.key2Lock key ≠ some { locked := true, lockId := t0 }) →
      s.after (Op.put key value) = some s1 →
      (s.mint (Op.put key value) = some s.nextToken ∧ s1.lockIdGen = s.lockIdGen.Next.1 ∧
        ∀ t k, s1.lockId2Key t = some k → t = s.nextToken ∨ s.lockId2Key t = some k) := by
    intro key value hk h
    simp only [memDB.after, Put_not_held value hk, Option.some.injEq] at h
    subst h
    refine ⟨by simp only [memDB.mint, Put_not_held value hk], rfl, ?_⟩
    intro t k ht
    simp only [Function.update_apply] at ht
    by_cases e : t = s.nextToken
    · exact Or.inl e
    · simp only [e, if_false] at ht
      exact Or.inr ht
  have hsame : s.mint op = none → s1 = s →
      (s.mint op = none ∧ s1.lockIdGen = s.lockIdGen ∧
        ∀ t k, s1.lockId2Key t = some k → s.lockId2Key t = some k) := by
    intro hm e
    subst e
    exact ⟨hm, rfl, fun _ _ ht => ht⟩
  have hdel : ∀ (t0 : LockID) (t : LockID) (k : Key),
      Function.update s.lockId2Key t0 none t = some k → s.lockId2Key t = some k := by
    intro t0 t k ht
    simp only [Function.update_apply] at ht
    by_cases e : t = t0
    · simp [e] at ht
    · simpa [e] using ht
  cases op with
  | put key value =>
    rcases lock_cases s key with hk | ⟨t0, hk⟩ | ⟨t0, hk⟩
    · exact Or.inr (hput key value (not_held_of_absent hk) h)
    · simp only [memDB.after, Put_held value hk, Option.some.injEq] at h
      exact Or.inl (hsame (by simp only [memDB.mint, Put_held value hk]) h.symm)
    · exact Or.inr (hput key value (not_held_of_free hk) h)
  | get lockId key =>
    obtain ⟨r, hr⟩ := Get_returns s lockId key
    simp only [memDB.after, hr, Option.some.injEq] at h
    exact Or.inl (hsame rfl h.symm)
  | update lockId key value releaseLock =>
    left
    by_cases hk : s.key2Lock key = none
    · simp only [memDB.after, Update_absent lockId value releaseLock hk, Option.some.injEq] at h
      exact hsame rfl h.symm
    · by_cases ht : s.lockId2Key lockId = some key
      · cases releaseLock with
        | false =>
          simp only [memDB.after, Update_keep value hk ht, Option.some.injEq] at h
          subst h
          exact ⟨rfl, rfl, fun _ _ h1 => h1⟩
        | true =>
          simp only [memDB.after, Update_release value (hs.1 _ _ ht) ht, Option.some.injEq] at h
          subst h
          exact ⟨rfl, rfl, hdel lockId⟩
      · simp only [memDB.after, Update_wrong_token value releaseLock hk ht,
          Option.some.injEq] at h
        exact hsame rfl h.symm
  | release lockId =>
    left
    cases ht : s.lockId2Key lockId with
    | none =>
      simp only [memDB.after, Release_dead ht, Option.some.injEq] at h
      exact hsame rfl h.symm
    | some k =>
      simp only [memDB.after, Release_held ht (hs.1 _ _ ht), Option.some.injEq] at h
      subst h
      exact ⟨rfl, rfl, hdel lockId⟩
  | getAndLock key =>
    rcases lock_cases s key with hk | ⟨t0, hk⟩ | ⟨t0, hk⟩
    · simp only [memDB.after, GetAndLock_absent hk, Option.some.injEq] at h
      exact Or.inl (hsame (by simp only [memDB.mint, GetAndLock_absent hk]) h.symm)
    · simp only [memDB.after, GetAndLock_held hk, Option.some.injEq] at h
      exact Or.inl (hsame (by simp only [memDB.mint, GetAndLock_held hk]) h.symm)
    · simp only [memDB.after, GetAndLock_free hk, Option.some.injEq] at h
      subst h
      right
      refine ⟨by simp only [memDB.mint, GetAndLock_free hk], rfl, ?_⟩
      intro t k ht
      simp only [Function.update_apply] at ht
      by_cases e : t = s.nextToken
      · exact Or.inl e
      · simp only [e, if_false] at ht
        exact Or.inr ht
  | directGet key =>
    obtain ⟨r, hr⟩ := DirectGet_returns s key
    simp only [memDB.after, hr, Option.some.injEq] at h
    exact Or.inl (hsame rfl h.symm)

/-- In a state that satisfies the invariant no call makes the process die. -/
theorem after_total {s : memDB} (op : Op) (hs : Inv s) : ∃ s1, s.after op = some s1 := by
  rw [← Option.isSome_iff_exists]
  cases op with
  | put key value =>
    rcases lock_cases s key with hk | ⟨t0, hk⟩ | ⟨t0, hk⟩
    · simp only [memDB.after, Put_not_held value (not_held_of_absent hk), Option.isSome_some]
    · simp only [memDB.after, Put_held value hk, Option.isSome_some]
    · simp only [memDB.after, Put_not_held value (not_held_of_free hk), Option.isSome_some]
  | get lockId key =>
    obtain ⟨r, hr⟩ := Get_returns s lockId key
    simp only [memDB.after, hr, Option.isSome_some]
  | update lockId key value releaseLock =>
    by_cases hk : s.key2Lock key = none
    · simp only [memDB.after, Update_absent lockId value releaseLock hk, Option.isSome_some]
    · by_cases ht : s.lockId2Key lockId = some key
      · cases releaseLock with
        | false => simp only [memDB.after, Update_keep value hk ht, Option.isSome_some]
        | true =>
          simp only [memDB.after, Update_release value (hs.1 _ _ ht) ht, Option.isSome_some]
      · simp only [memDB.after, Update_wrong_token value releaseLock hk ht, Option.isSome_some]
  | release lockId =>
    cases ht : s.lockId2Key lockId with
    | none => simp only [memDB.after, Release_dead ht, Option.isSome_some]
    | some k => simp only [memDB.after, Release_held ht (hs.1 _ _ ht), Option.isSome_some]
  | getAndLock key =>
    rcases lock_cases s key with hk | ⟨t0, hk⟩ | ⟨t0, hk⟩
    · simp only [memDB.after, GetAndLock_absent hk, Option.isSome_some]
    · simp only [memDB.after, GetAndLock_held hk, Option.isSome_some]
    · simp only [memDB.after, GetAndLock_free hk, Option.isSome_some]
  | directGet key =>
    obtain ⟨r, hr⟩ := DirectGet_returns s key
    simp only [memDB.after, hr, Option.isSome_some]

theorem run_total {s : memDB} (ops : List Op) (hs : Inv s) : ∃ s1, s.run ops = some s1 := by
  induction ops generalizing s with
  | nil => exact ⟨s, rfl⟩
  | cons op ops ih =>
    obtain ⟨s2, h2⟩ := after_total op hs
    obtain ⟨s1, h1⟩ := ih (inv_after op hs h2)
    exact ⟨s1, by simp only [memDB.run, h2, h1]⟩

theorem run_cons {s s2 : memDB} {op : Op} (ops : List Op) (h : s.after op = some s2) :
    s.run (op :: ops) = s2.run ops := by
  simp only [memDB.run, h]

theorem minted_cons_none {s s2 : memDB} {op : Op} (ops : List Op) (h : s.after op = some s2)
    (hm : s.mint op = none) : s.minted (op :: ops) = s2.minted ops := by
  simp only [memDB.minted, h, hm]

theorem minted_cons_some {s s2 : memDB} {op : Op} {t : LockID} (ops : List Op)
    (h : s.after op = some s2) (hm : s.mint op = some t) :
    s.minted (op :: ops) = t :: s2.minted ops := by
  simp only [memDB.minted, h, hm]

/-- The tokens handed out along a sequence of calls are the renderings of the
successive values of the `uint64` counter. -/
theorem run_minted (ops : List Op) : ∀ {s s1 : memDB}, Inv s → s.lockIdGen.currentId < 2 ^ 64 →
    s.run ops = some s1 →
    s1.lockIdGen.currentId = (s.lockIdGen.currentId + (s.minted ops).length) % 2 ^ 64 ∧
    s.minted ops = (List.range (s.minted ops).length).map
      (fun i => FormatUint ((s.lockIdGen.currentId + i + 1) % 2 ^ 64)) := by
  induction ops with
  | nil =>
    intro s s1 _ hc h
    simp only [memDB.run, Option.some.injEq] at h
    subst h
    simp only [memDB.minted, List.length_nil, Nat.add_zero, List.range_zero, List.map_nil,
      and_true]
    exact (Nat.mod_eq_of_lt hc).symm
  | cons op ops ih =>
    intro s s1 hs hc h
    obtain ⟨s2, h2⟩ := after_total op hs
    rw [run_cons ops h2] at h
    have hs2 := inv_after op hs h2
    rcases after_mint_cases op hs h2 with ⟨hm, hg, _⟩ | ⟨hm, hg, _⟩
    · have hc2 : s2.lockIdGen.currentId < 2 ^ 64 := by rw [hg]; exact hc
      obtain ⟨ih1, ih2⟩ := ih hs2 hc2 h
      rw [minted_cons_none ops h2 hm]
      rw [hg] at ih1 ih2
      exact ⟨ih1, ih2⟩
    · have hc2 : s2.lockIdGen.currentId < 2 ^ 64 := by
        rw [hg, next_currentId]
        exact Nat.mod_lt _ (by norm_num)
      obtain ⟨ih1, ih2⟩ := ih hs2 hc2 h
      rw [minted_cons_some ops h2 hm]
      rw [hg, next_currentId] at ih1 ih2
      constructor
      · rw [ih1, List.length_cons]
        rw [Nat.add_mod, Nat.mod_mod, ← Nat.add_mod]
        congr 1
        omega
      · rw [List.length_cons, List.range_succ_eq_map, List.map_cons, List.map_map]
        congr 1
        rw [ih2, List.length_map, List.length_range]
        apply List.map_congr_left
        intro i _
        simp only [Function.comp]
        congr 1
        rw [Nat.add_mod, Nat.add_mod ((s.lockIdGen.currentId + 1) % 2 ^ 64), Nat.mod_mod,
          ← Nat.add_mod (s.lockIdGen.currentId + 1), ← Nat.add_mod]
        congr 1
        omega

/-- While the counter does not wrap, it counts the tokens handed out and every
registered token is the rendering of a number up to it. -/
theorem run_tokens_below (ops : List Op) : ∀ {s s1 : memDB}, Inv s → TokensBelow s →
    s.run ops = some s1 → s.lockIdGen.currentId + (s.minted ops).length < 2 ^ 64 →
    TokensBelow s1 ∧ s1.lockIdGen.currentId = s.lockIdGen.currentId + (s.minted ops).length := by
  induction ops with
  | nil =>
    intro s s1 _ hb h _
    simp only [memDB.run, Option.some.injEq] at h
    subst h
    exact ⟨hb, by simp [memDB.minted]⟩
  | cons op ops ih =>
    intro s s1 hs hb h hlt
    obtain ⟨s2, h2⟩ := after_total op hs
    rw [run_cons ops h2] at h
    have hs2 := inv_after op hs h2
    rcases after_mint_cases op hs h2 with ⟨hm, hg, hsub⟩ | ⟨hm, hg, hsub⟩
    · rw [minted_cons_none ops h2 hm] at hlt ⊢
      have hb2 : TokensBelow s2 := by
        intro t k ht
        rw [hg]
        exact hb t k (hsub t k ht)
      rw [← hg]
      exact ih hs2 hb2 h (by rw [hg]; exact hlt)
    · rw [minted_cons_some ops h2 hm, List.length_cons] at hlt ⊢
      have hc2 : s2.lockIdGen.currentId = s.lockIdGen.currentId + 1 := by
        rw [hg, next_currentId]
        exact Nat.mod_eq_of_lt (by omega)
      have hb2 : TokensBelow s2 := by
        intro t k ht
        rw [hc2]
        rcases hsub t k ht with e | hold
        · refine ⟨s.lockIdGen.currentId + 1, le_refl _, ?_⟩
          rw [e, nextToken_eq, Nat.mod_eq_of_lt (by omega)]
        · obtain ⟨i, hi, e⟩ := hb t k hold
          exact ⟨i, by omega, e⟩
      obtain ⟨r1, r2⟩ := ih hs2 hb2 h (by rw [hc2]; omega)
      exact ⟨r1, by rw [r2, hc2]; omega⟩

/-- While the counter does not wrap, a token that is the rendering of a number up to
the counter and is not registered stays unregistered. -/
theorem run_dead (ops : List Op) : ∀ {s s1 : memDB} (i : Nat), Inv s →
    s.run ops = some s1 → s.lockIdGen.currentId + (s.minted ops).length < 2 ^ 64 →
    i ≤ s.lockIdGen.currentId → s.lockId2Key (FormatUint i) = none →
    s1.lockId2Key (FormatUint i) = none := by
  induction ops with
  | nil =>
    intro s s1 i _ h _ _ hd
    simp only [memDB.run, Option.some.injEq] at h
    subst h
    exact hd
  | cons op ops ih =>
    intro s s1 i hs h hlt hi hd
    obtain ⟨s2, h2⟩ := after_total op hs
    rw [run_cons ops h2] at h
    have hs2 := inv_after op hs h2
    rcases after_mint_cases op hs h2 with ⟨hm, hg, hsub⟩ | ⟨hm, hg, hsub⟩
    · rw [minted_cons_none ops h2 hm] at hlt
      have hd2 : s2.lockId2Key (FormatUint i) = none := by
        cases hq : s2.lockId2Key (FormatUint i) with
        | none => rfl
        | some k => rw [hsub _ _ hq] at hd; exact Option.noConfusion hd
      exact ih i hs2 h (by rw [hg]; exact hlt) (by rw [hg]; exact hi) hd2
    · rw [minted_cons_some ops h2 hm, List.length_cons] at hlt
      have hc2 : s2.lockIdGen.currentId = s.lockIdGen.currentId + 1 := by
        rw [hg, next_currentId]
        exact Nat.mod_eq_of_lt (by omega)
      have hd2 : s2.lockId2Key (FormatUint i) = none := by
        cases hq : s2.lockId2Key (FormatUint i) with
        | none => rfl
        | some k =>
          rcases hsub _ _ hq with e | hold
          · rw [nextToken_eq, Nat.mod_eq_of_lt (by omega)] at e
            have := FormatUint_injective e
            omega
          · rw [hold] at hd; exact Option.noConfusion hd
      exact ih i hs2 h (by rw [hc2]; omega) (by rw [hc2]; omega) hd2

theorem tokensBelow_new (name : String) (g : lockIdSeqGenerator) :
    TokensBelow (NewMemDB name g) := by
  intro t k h
  simp [NewMemDB] at h

/-- Rounds of `Put` and `Release` on one key advance the counter by one each, modulo
`2 ^ 64`, and leave no token registered. -/
theorem run_churn (n : Nat) : ∀ (start : Nat) (s : memDB) (rest : List Op),
    s.lockIdGen.currentId = start % 2 ^ 64 → (∀ t, s.lockId2Key t = none) →
    (∀ t0, s.key2Lock "k" ≠ some { locked := true, lockId := t0 }) →
    ∃ s1 : memDB, s.run (churn start n ++ rest) = s1.run rest ∧
      s1.lockIdGen.currentId = (start + n) % 2 ^ 64 ∧ (∀ t, s1.lockId2Key t = none) ∧
      ∀ t0, s1.key2Lock "k" ≠ some { locked := true, lockId := t0 } := by
  induction n with
  | zero =>
    intro start s rest hc ht hk
    exact ⟨s, rfl, hc, ht, hk⟩
  | succ n ih =>
    intro start s rest hc ht hk
    have hnext : s.nextToken = FormatUint ((start + 1) % 2 ^ 64) := by
      rw [nextToken_eq, hc, Nat.add_mod, Nat.mod_mod, ← Nat.add_mod]
    have hput := Put_not_held "" hk
    have h1 : s.after (Op.put "k" "") = some
        { s with
          lockIdGen := s.lockIdGen.Next.1
          lockId2Key := Function.update s.lockId2Key s.nextToken (some "k")
          key2Lock := Function.update s.key2Lock "k"
            (some { locked := true, lockId := s.nextToken })
          storage := Function.update s.storage "k" (some "") } := by
      simp only [memDB.after, hput]
    have hrel := @Release_held
        { s with
          lockIdGen := s.lockIdGen.Next.1
          lockId2Key := Function.update s.lockId2Key s.nextToken (some "k")
          key2Lock := Function.update s.key2Lock "k"
            (some { locked := true, lockId := s.nextToken })
          storage := Function.update s.storage "k" (some "") }
        "k" s.nextToken s.nextToken (by simp) (by simp)
    obtain ⟨s1, hrun, hc1, ht1, hk1⟩ := ih (start + 1)
      { s with
        lockIdGen := s.lockIdGen.Next.1
        lockId2Key := Function.update (Function.update s.lockId2Key s.nextToken (some "k"))
          s.nextToken none
        key2Lock := Function.update (Function.update s.key2Lock "k"
            (some { locked := true, lockId := s.nextToken })) "k"
          (some { locked := false, lockId := s.nextToken })
        storage := Function.update s.storage "k" (some "") }
      rest
      (by
        show s.lockIdGen.Next.1.currentId = _
        rw [next_currentId, hc, Nat.add_mod, Nat.mod_mod, ← Nat.add_mod])
      (by
        intro t
        simp only [Function.update_apply]
        by_cases e : t = s.nextToken
        · simp [e]
        · simp [e, ht t])
      (by
        intro t0
        simp)
    refine ⟨s1, ?_, ?_, ht1, hk1⟩
    · rw [← hrun]
      simp only [churn, List.cons_append]
      rw [run_cons _ h1, ← hnext]
      exact run_cons _ (by simp only [memDB.after, hrel])
    · rw [hc1]
      congr 1
      omega

/-- The `uint64` counter wraps: "1" is handed out by the first `Put` and released;
after `2 ^ 64 - 1` further rounds of `Put` and `Release` the next `Put` hands out "1"
again, and `Get("1", "k")` succeeds. -/
theorem dead_token_reissued_after_wrap :
    (NewMemDB "TestDB" NewLockIDSeqGenerator).Put "k" "" =
      Outcome.ret (storeAfter "TestDB" [Op.put "k" ""]) "1" ∧
    (storeAfter "TestDB" [Op.put "k" ""]).Release "1" =
      Outcome.ret (storeAfter "TestDB" [Op.put "k" "", Op.release "1"]) none ∧
    ∃ s2, (storeAfter "TestDB" [Op.put "k" "", Op.release "1"]).run
        (churn 1 (2 ^ 64 - 1) ++ [Op.put "k" "v"]) = some s2 ∧
      s2.Get "1" "k" = Outcome.ret s2 ("v", none) := by
  refine ⟨rfl, rfl, ?_⟩
  have hfree : (storeAfter "TestDB" [Op.put "k" "", Op.release "1"]).key2Lock "k" =
      some { locked := false, lockId := "1" } := by decide
  have hnone : ∀ t, (storeAfter "TestDB" [Op.put "k" "", Op.release "1"]).lockId2Key t = none := by
    intro t
    show Function.update (Function.update (fun _ => none) "1" (some "k")) "1" none t = none
    simp only [Function.update_apply]
    by_cases e : t = "1"
    · simp [e]
    · simp [e]
  obtain ⟨s1, hrun, hc, ht, hk⟩ := run_churn (2 ^ 64 - 1) 1
    (storeAfter "TestDB" [Op.put "k" "", Op.release "1"]) [Op.put "k" "v"] rfl hnone
    (not_held_of_free hfree)
  have hc0 : s1.lockIdGen.currentId = 0 := by
    rw [hc]
    norm_num
  have hnext : s1.nextToken = "1" := by
    rw [nextToken_eq, hc0]
    decide
  have hlast : s1.run [Op.put "k" "v"] = some
      { s1 with
        lockIdGen := s1.lockIdGen.Next.1
        lockId2Key := Function.update s1.lockId2Key s1.nextToken (some "k")
        key2Lock := Function.update s1.key2Lock "k"
          (some { locked := true, lockId := s1.nextToken })
        storage := Function.update s1.storage "k" (some "v") } := by
    simp only [memDB.run, memDB.after, Put_not_held "v" hk]
  exact ⟨_, hrun.trans hlast, Get_live (by rw [hnext]; simp) (by simp)⟩

/-! ## Values -/

/-- One call changes the value of a key exactly when it writes that key. -/
theorem after_storage {s s1 : memDB} (op : Op) (k : Key) (hs : Inv s)
    (h : s.after op = some s1) :
    s1.storage k = (match s.written k op with
      | some v => some v
      | none => s.storage k) := by
  have hput : ∀ key value, (∀ t0, s.key2Lock key ≠ some { locked := true, lockId := t0 }) →
      s.after (Op.put key value) = some s1 →
      s1.storage k = (match s.written k (Op.put key value) with
        | some v => some v
        | none => s.storage k) := by
    intro key value hk h
    simp only [memDB.after, Put_not_held value hk, Option.some.injEq] at h
    subst h
    simp only [memDB.written, Put_not_held value hk, Function.update_apply]
    by_cases e : k = key
    · simp [e]
    · simp [e, Ne.symm e]
  cases op with
  | put key value =>
    rcases lock_cases s key with hk | ⟨t0, hk⟩ | ⟨t0, hk⟩
    · exact hput key value (not_held_of_absent hk) h
    · simp only [memDB.after, Put_held value hk, Option.some.injEq] at h
      subst h
      simp only [memDB.written, Put_held value hk]
    · exact hput key value (not_held_of_free hk) h
  | get lockId key =>
    obtain ⟨r, hr⟩ := Get_returns s lockId key
    simp only [memDB.after, hr, Option.some.injEq] at h
    subst h
    rfl
  | update lockId key value releaseLock =>
    by_cases hk : s.key2Lock key = none
    · simp only [memDB.after, Update_absent lockId value releaseLock hk, Option.some.injEq] at h
      subst h
      simp only [memDB.written, Update_absent lockId value releaseLock hk]
    · by_cases ht : s.lockId2Key lockId = some key
      · cases releaseLock with
        | false =>
          simp only [memDB.after, Update_keep value hk ht, Option.some.injEq] at h
          subst h
          simp only [memDB.written, Update_keep value hk ht, Function.update_apply]
          by_cases e : k = key
          · simp [e]
          · simp [e, Ne.symm e]
        | true =>
          simp only [memDB.after, Update_release value (hs.1 _ _ ht) ht, Option.some.injEq] at h
          subst h
          simp only [memDB.written, Update_release value (hs.1 _ _ ht) ht,
            Function.update_apply]
          by_cases e : k = key
          · simp [e]
          · simp [e, Ne.symm e]
      · simp only [memDB.after, Update_wrong_token value releaseLock hk ht,
          Option.some.injEq] at h
        subst h
        simp only [memDB.written, Update_wrong_token value releaseLock hk ht]
  | release lockId =>
    cases ht : s.lockId2Key lockId with
    | none =>
      simp only [memDB.after, Release_dead ht, Option.some.injEq] at h
      subst h
      rfl
    | some k0 =>
      simp only [memDB.after, Release_held ht (hs.1 _ _ ht), Option.some.injEq] at h
      subst h
      rfl
  | getAndLock key =>
    rcases lock_cases s key with hk | ⟨t0, hk⟩ | ⟨t0, hk⟩
    · simp only [memDB.after, GetAndLock_absent hk, Option.some.injEq] at h
      subst h
      rfl
    · simp only [memDB.after, GetAndLock_held hk, Option.some.injEq] at h
      subst h
      rfl
    · simp only [memDB.after, GetAndLock_free hk, Option.some.injEq] at h
      subst h
      rfl
  | directGet key =>
    obtain ⟨r, hr⟩ := DirectGet_returns s key
    simp only [memDB.after, hr, Option.some.injEq] at h
    subst h
    rfl

/-- After a sequence of calls the value of a key is the one of the most recent
successful write of the key in the sequence, or the value before the sequence when
the sequence does not write the key. -/
theorem run_storage (ops : List Op) : ∀ {s s1 : memDB} (k : Key), Inv s →
    s.run ops = some s1 →
    s1.storage k = (match s.lastWrite k ops with
      | some v => some v
      | none => s.storage k) := by
  induction ops with
  | nil =>
    intro s s1 k _ h
    simp only [memDB.run, Option.some.injEq] at h
    subst h
    rfl
  | cons op ops ih =>
    intro s s1 k hs h
    obtain ⟨s2, h2⟩ := after_total op hs
    rw [run_cons ops h2] at h
    have e1 := ih k (inv_after op hs h2) h
    have e2 := after_storage op k hs h2
    simp only [memDB.lastWrite, h2]
    cases hl : s2.lastWrite k ops with
    | some v => rw [hl] at e1; exact e1
    | none =>
      rw [hl] at e1
      rw [e1, e2]

/-- On a store reached from a new one, the value of a key is the one of the most
recent successful write, and a key has a lock exactly when it has been written. -/
theorem fresh_storage {name : String} {ops : List Op} {s : memDB} (k : Key)
    (h : (NewMemDB name NewLockIDSeqGenerator).run ops = some s) :
    s.storage k = (NewMemDB name NewLockIDSeqGenerator).lastWrite k ops := by
  rw [run_storage ops k (inv_new name _) h]
  cases (NewMemDB name NewLockIDSeqGenerator).lastWrite k ops with
  | some v => rfl
  | none => rfl

/-- On a store reached from a new one by calls that handed out fewer than
`2 ^ 64 - 1` tokens, the next token is the rendering of the number of tokens handed
out plus one; it has not been handed out and is not registered. -/
theorem nextToken_new {name : String} {ops : List Op} {s : memDB}
    (hrun : (NewMemDB name NewLockIDSeqGenerator).run ops = some s)
    (hlen : ((NewMemDB name NewLockIDSeqGenerator).minted ops).length + 1 < 2 ^ 64) :
    s.nextToken =
      FormatUint (((NewMemDB name NewLockIDSeqGenerator).minted ops).length + 1) ∧
    s.nextToken ∉ (NewMemDB name NewLockIDSeqGenerator).minted ops ∧
    s.lockId2Key s.nextToken = none := by
  have hi := inv_new name NewLockIDSeqGenerator
  have h0 : (NewMemDB name NewLockIDSeqGenerator).lockIdGen.currentId = 0 := rfl
  obtain ⟨hb, hc⟩ := run_tokens_below ops hi (tokensBelow_new name _) hrun (by rw [h0]; omega)
  obtain ⟨_, hm⟩ := run_minted ops hi (by rw [h0]; norm_num) hrun
  rw [h0, Nat.zero_add] at hc
  have hnext : s.nextToken =
      FormatUint (((NewMemDB name NewLockIDSeqGenerator).minted ops).length + 1) := by
    rw [nextToken_eq, hc, Nat.mod_eq_of_lt hlen]
  refine ⟨hnext, ?_, ?_⟩
  · intro hmem
    rw [hm, hnext, List.mem_map] at hmem
    obtain ⟨i, hi1, hi2⟩ := hmem
    rw [List.mem_range] at hi1
    have := FormatUint_injective hi2
    rw [h0, Nat.zero_add, Nat.mod_eq_of_lt (by omega)] at this
    omega
  · cases hq : s.lockId2Key s.nextToken with
    | none => rfl
    | some k1 =>
      obtain ⟨i, hi1, hi2⟩ := hb _ _ hq
      rw [hnext] at hi2
      have := FormatUint_injective hi2
      omega

/-! ## Waiting -/

theorem Update_not_blocked (s : memDB) (t : LockID) (k : Key) (v : Value) (r : Bool) :
    s.Update t k v r ≠ Outcome.blocked := by
  unfold memDB.Update
  intro h
  split at h
  · exact Outcome.noConfusion h
  · split at h
    · exact Outcome.noConfusion h
    · split at h
      · exact Outcome.noConfusion h
      · split at h
        · split at h <;> exact Outcome.noConfusion h
        · exact Outcome.noConfusion h

theorem Release_not_blocked (s : memDB) (t : LockID) : s.Release t ≠ Outcome.blocked := by
  unfold memDB.Release
  intro h
  split at h
  · exact Outcome.noConfusion h
  · split at h
    · split at h <;> exact Outcome.noConfusion h
    · exact Outcome.noConfusion h

theorem Put_blocked_iff (s : memDB) (k : Key) (v : Value) :
    s.Put k v = Outcome.blocked ↔ ∃ t0, s.key2Lock k = some { locked := true, lockId := t0 } := by
  constructor
  · intro h
    rcases lock_cases s k with hk | ⟨t0, hk⟩ | ⟨t0, hk⟩
    · rw [Put_not_held v (not_held_of_absent hk)] at h
      exact Outcome.noConfusion h
    · exact ⟨t0, hk⟩
    · rw [Put_not_held v (not_held_of_free hk)] at h
      exact Outcome.noConfusion h
  · rintro ⟨t0, hk⟩
    exact Put_held v hk

theorem GetAndLock_blocked_iff (s : memDB) (k : Key) :
    s.GetAndLock k = Outcome.blocked ↔
      ∃ t0, s.key2Lock k = some { locked := true, lockId := t0 } := by
  constructor
  · intro h
    rcases lock_cases s k with hk | ⟨t0, hk⟩ | ⟨t0, hk⟩
    · rw [GetAndLock_absent hk] at h
      exact Outcome.noConfusion h
    · exact ⟨t0, hk⟩
    · rw [GetAndLock_free hk] at h
      exact Outcome.noConfusion h
  · rintro ⟨t0, hk⟩
    exact GetAndLock_held hk

theorem reachable_storeAfter (name : String) (ops : List Op) :
    Reachable (storeAfter name ops) := by
  obtain ⟨s, h⟩ := run_total ops (inv_new name NewLockIDSeqGenerator)
  exact ⟨name, ops, by simp only [storeAfter, h, Option.getD_some]⟩

/-! ## The shape of one step -/

/-- The store after one call, in a state that satisfies the invariant: the store as it
was (the call waits, fails, or only reads), or the store written by a `Put`, by a
`GetAndLock`, by an `Update` that keeps or releases the lock, or by a `Release`. -/
theorem after_shape {s s1 : memDB} (op : Op) (hs : Inv s) (h : s.after op = some s1) :
    (s1 = s ∧ s.mint op = none) ∨
    (∃ k v, op = Op.put k v ∧ (∀ t0, s.key2Lock k ≠ some { locked := true, lockId := t0 }) ∧
      s.mint op = some s.nextToken ∧
      s1 = { s with
        lockIdGen := s.lockIdGen.Next.1
        lockId2Key := Function.update s.lockId2Key s.nextToken (some k)
        key2Lock := Function.update s.key2Lock k (some { locked := true, lockId := s.nextToken })
        storage := Function.update s.storage k (some v) }) ∨
    (∃ k t0, op = Op.getAndLock k ∧ s.key2Lock k = some { locked := false, lockId := t0 } ∧
      s.mint op = some s.nextToken ∧
      s1 = { s with
        lockIdGen := s.lockIdGen.Next.1
        key2Lock := Function.update s.key2Lock k (some { locked := true, lockId := s.nextToken })
        lockId2Key := Function.update s.lockId2Key s.nextToken (some k) }) ∨
    (∃ t k v, op = Op.update t k v false ∧ s.lockId2Key t = some k ∧ s.mint op = none ∧
      s1 = { s with storage := Function.update s.storage k (some v) }) ∨
    (∃ t k v, op = Op.update t k v true ∧ s.lockId2Key t = some k ∧ s.mint op = none ∧
      s1 = { s with
        key2Lock := Function.update s.key2Lock k (some { locked := false, lockId := t })
        lockId2Key := Function.update s.lockId2Key t none
        storage := Function.update s.storage k (some v) }) ∨
    (∃ t k, op = Op.release t ∧ s.lockId2Key t = some k ∧ s.mint op = none ∧
      s1 = { s with
        key2Lock := Function.update s.key2Lock k (some { locked := false, lockId := t })
        lockId2Key := Function.update s.lockId2Key t none }) := by
  cases op with
  | put key value =>
    rcases lock_cases s key with hk | ⟨t0, hk⟩ | ⟨t0, hk⟩
    · have hn := not_held_of_absent hk
      simp only [memDB.after, Put_not_held value hn, Option.some.injEq] at h
      exact Or.inr (Or.inl ⟨key, value, rfl, hn,
        by simp only [memDB.mint, Put_not_held value hn], h.symm⟩)
    · simp only [memDB.after, Put_held value hk, Option.some.injEq] at h
      exact Or.inl ⟨h.symm, by simp only [memDB.mint, Put_held value hk]⟩
    · have hn := not_held_of_free hk
      simp only [memDB.after, Put_not_held value hn, Option.some.injEq] at h
      exact Or.inr (Or.inl ⟨key, value, rfl, hn,
        by simp only [memDB.mint, Put_not_held value hn], h.symm⟩)
  | get lockId key =>
    obtain ⟨r, hr⟩ := Get_returns s lockId key
    simp only [memDB.after, hr, Option.some.injEq] at h
    exact Or.inl ⟨h.symm, rfl⟩
  | update lockId key value releaseLock =>
    by_cases hk : s.key2Lock key = none
    · simp only [memDB.after, Update_absent lockId value releaseLock hk, Option.some.injEq] at h
      exact Or.inl ⟨h.symm, rfl⟩
    · by_cases ht : s.lockId2Key lockId = some key
      · cases releaseLock with
        | false =>
          simp only [memDB.after, Update_keep value hk ht, Option.some.injEq] at h
          exact Or.inr (Or.inr (Or.inr (Or.inl ⟨lockId, key, value, rfl, ht, rfl, h.symm⟩)))
        | true =>
          simp only [memDB.after, Update_release value (hs.1 _ _ ht) ht, Option.some.injEq] at h
          exact Or.inr (Or.inr (Or.inr (Or.inr (Or.inl
            ⟨lockId, key, value, rfl, ht, rfl, h.symm⟩))))
      · simp only [memDB.after, Update_wrong_token value releaseLock hk ht,
          Option.some.injEq] at h
        exact Or.inl ⟨h.symm, rfl⟩
  | release lockId =>
    cases ht : s.lockId2Key lockId with
    | none =>
      simp only [memDB.after, Release_dead ht, Option.some.injEq] at h
      exact Or.inl ⟨h.symm, rfl⟩
    | some k =>
      simp only [memDB.after, Release_held ht (hs.1 _ _ ht), Option.some.injEq] at h
      exact Or.inr (Or.inr (Or.inr (Or.inr (Or.inr ⟨lockId, k, rfl, ht, rfl, h.symm⟩))))
  | getAndLock key =>
    rcases lock_cases s key with hk | ⟨t0, hk⟩ | ⟨t0, hk⟩
    · simp only [memDB.after, GetAndLock_absent hk, Option.some.injEq] at h
      exact Or.inl ⟨h.symm, by simp only [memDB.mint, GetAndLock_absent hk]⟩
    · simp only [memDB.after, GetAndLock_held hk, Option.some.injEq] at h
      exact Or.inl ⟨h.symm, by simp only [memDB.mint, GetAndLock_held hk]⟩
    · simp only [memDB.after, GetAndLock_free hk, Option.some.injEq] at h
      exact Or.inr (Or.inr (Or.inl ⟨key, t0, rfl, hk,
        by simp only [memDB.mint, GetAndLock_free hk], h.symm⟩))
  | directGet key =>
    obtain ⟨r, hr⟩ := DirectGet_returns s key
    simp only [memDB.after, hr, Option.some.injEq] at h
    exact Or.inl ⟨h.symm, rfl⟩

/-! ## The two parts of `Put` -/

/-- A call of `Put` that no other call overlaps is its first part followed by its
second part. -/
theorem Put_eq_acquire_commit (s : memDB) (k : Key) (v : Value) :
    s.Put k v = (match s.PutAcquire k with
      | none => Outcome.blocked
      | some (s1, hasLock) => s1.PutCommit k v hasLock) := by
  unfold memDB.Put memDB.PutAcquire memDB.getLockByKey
  cases hk : s.key2Lock k with
  | none => rfl
  | some l =>
    obtain ⟨b, t0⟩ := l
    cases b with
    | true => rfl
    | false =>
      simp [lock.Lock, memDB.PutCommit]

/-! ## The registry while the counter has not wrapped -/

theorem noWrapInv_new (name : String) (g : lockIdSeqGenerator) :
    NoWrapInv (NewMemDB name g) := by
  refine ⟨tokensBelow_new name g, ?_, ?_, ?_⟩
  · intro k l h
    simp [NewMemDB] at h
  · intro k t h
    simp [NewMemDB] at h
  · intro k t h
    simp [NewMemDB] at h

/-- Taking the lock of a key with the next token keeps the registry exact, as long as
the counter does not wrap. -/
theorem noWrapInv_acquire {s s1 : memDB} {k : Key} (hn : NoWrapInv s)
    (hc : s.lockIdGen.currentId + 1 < 2 ^ 64)
    (hg : s1.lockIdGen = s.lockIdGen.Next.1)
    (hl : s1.lockId2Key = Function.update s.lockId2Key s.nextToken (some k))
    (hk : s1.key2Lock =
      Function.update s.key2Lock k (some { locked := true, lockId := s.nextToken })) :
    NoWrapInv s1 := by
  obtain ⟨hb, hlb, hhr, hfd⟩ := hn
  have hc1 : s1.lockIdGen.currentId = s.lockIdGen.currentId + 1 := by
    rw [hg, next_currentId]
    exact Nat.mod_eq_of_lt hc
  have hnext : s.nextToken = FormatUint (s.lockIdGen.currentId + 1) := by
    rw [nextToken_eq, Nat.mod_eq_of_lt hc]
  have hold : ∀ k1 l, s.key2Lock k1 = some l → l.lockId ≠ s.nextToken := by
    intro k1 l h1 e
    obtain ⟨i, hi, hi2⟩ := hlb k1 l h1
    rw [hnext, hi2] at e
    have := FormatUint_injective e
    omega
  refine ⟨?_, ?_, ?_, ?_⟩
  · intro t k1 ht
    rw [hl, Function.update_apply] at ht
    rw [hc1]
    by_cases e : t = s.nextToken
    · exact ⟨s.lockIdGen.currentId + 1, le_refl _, by rw [e, hnext]⟩
    · simp only [e, if_false] at ht
      obtain ⟨i, hi, hi2⟩ := hb t k1 ht
      exact ⟨i, by omega, hi2⟩
  · intro k1 l h1
    rw [hk, Function.update_apply] at h1
    rw [hc1]
    by_cases e : k1 = k
    · simp only [e, if_true, Option.some.injEq] at h1
      exact ⟨s.lockIdGen.currentId + 1, le_refl _, by rw [← h1, hnext]⟩
    · simp only [e, if_false] at h1
      obtain ⟨i, hi, hi2⟩ := hlb k1 l h1
      exact ⟨i, by omega, hi2⟩
  · intro k1 t h1
    rw [hk, Function.update_apply] at h1
    rw [hl, Function.update_apply]
    by_cases e : k1 = k
    · simp only [e, if_true, Option.some.injEq, lock.mk.injEq, true_and] at h1
      simp [e, ← h1]
    · simp only [e, if_false] at h1
      have hne : t ≠ s.nextToken := hold k1 _ h1
      simp only [hne, if_false]
      exact hhr k1 t h1
  · intro k1 t h1
    rw [hk, Function.update_apply] at h1
    rw [hl, Function.update_apply]
    by_cases e : k1 = k
    · simp [e] at h1
    · simp only [e, if_false] at h1
      have hne : t ≠ s.nextToken := hold k1 _ h1
      simp only [hne, if_false]
      exact hfd k1 t h1

/-- Unlocking the lock of a key and removing its token keeps the registry exact. -/
theorem noWrapInv_release {s s1 : memDB} {k : Key} {t : LockID} (hn : NoWrapInv s)
    (ht : s.lockId2Key t = some k)
    (hg : s1.lockIdGen = s.lockIdGen)
    (hl : s1.lockId2Key = Function.update s.lockId2Key t none)
    (hk : s1.key2Lock = Function.update s.key2Lock k (some { locked := false, lockId := t })) :
    NoWrapInv s1 := by
  obtain ⟨hb, hlb, hhr, hfd⟩ := hn
  refine ⟨?_, ?_, ?_, ?_⟩
  · intro t1 k1 h1
    rw [hl, Function.update_apply] at h1
    rw [hg]
    by_cases e : t1 = t
    · simp [e] at h1
    · simp only [e, if_false] at h1
      exact hb t1 k1 h1
  · intro k1 l h1
    rw [hk, Function.update_apply] at h1
    rw [hg]
    by_cases e : k1 = k
    · simp only [e, if_true, Option.some.injEq] at h1
      obtain ⟨i, hi, hi2⟩ := hb t k ht
      exact ⟨i, hi, by rw [← h1]; exact hi2⟩
    · simp only [e, if_false] at h1
      exact hlb k1 l h1
  · intro k1 t1 h1
    rw [hk, Function.update_apply] at h1
    rw [hl, Function.update_apply]
    by_cases e : k1 = k
    · simp [e] at h1
    · simp only [e, if_false] at h1
      have h2 := hhr k1 t1 h1
      have hne : t1 ≠ t := by
        intro e1
        rw [e1, ht] at h2
        exact e (Option.some.inj h2).symm
      simp only [hne, if_false]
      exact h2
  · intro k1 t1 h1
    rw [hk, Function.update_apply] at h1
    rw [hl, Function.update_apply]
    by_cases e : k1 = k
    · simp only [e, if_true, Option.some.injEq, lock.mk.injEq, true_and] at h1
      simp [h1]
    · simp only [e, if_false] at h1
      by_cases e1 : t1 = t
      · simp [e1]
      · simp only [e1, if_false]
        exact hfd k1 t1 h1

/-- One call keeps the registry exact, as long as the counter does not wrap. -/
theorem noWrapInv_after {s s1 : memDB} (op : Op) (hs : Inv s) (hn : NoWrapInv s)
    (h : s.after op = some s1)
    (hc : ∀ t, s.mint op = some t → s.lockIdGen.currentId + 1 < 2 ^ 64) : NoWrapInv s1 := by
  rcases after_shape op hs h with ⟨e, _⟩ | ⟨k, v, _, _, hm, e⟩ | ⟨k, t0, _, _, hm, e⟩ |
    ⟨t, k, v, _, _, _, e⟩ | ⟨t, k, v, _, ht, _, e⟩ | ⟨t, k, _, ht, _, e⟩
  · rw [e]
    exact hn
  · subst e
    exact noWrapInv_acquire hn (hc _ hm) rfl rfl rfl
  · subst e
    exact noWrapInv_acquire hn (hc _ hm) rfl rfl rfl
  · subst e
    exact hn
  · subst e
    exact noWrapInv_release hn ht rfl rfl rfl
  · subst e
    exact noWrapInv_release hn ht rfl rfl rfl

/-- A sequence of calls keeps the registry exact, as long as the counter does not
wrap. -/
theorem noWrapInv_run (ops : List Op) : ∀ {s s1 : memDB}, Inv s → NoWrapInv s →
    s.run ops = some s1 → s.lockIdGen.currentId + (s.minted ops).length < 2 ^ 64 →
    NoWrapInv s1 := by
  induction ops with
  | nil =>
    intro s s1 _ hn h _
    simp only [memDB.run, Option.some.injEq] at h
    subst h
    exact hn
  | cons op ops ih =>
    intro s s1 hs hn h hlt
    obtain ⟨s2, h2⟩ := after_total op hs
    rw [run_cons ops h2] at h
    have hs2 := inv_after op hs h2
    rcases after_mint_cases op hs h2 with ⟨hm, hg, _⟩ | ⟨hm, hg, _⟩
    · rw [minted_cons_none ops h2 hm] at hlt
      have hn2 := noWrapInv_after op hs hn h2 (by
        intro t ht
        rw [hm] at ht
        exact Option.noConfusion ht)
      exact ih hs2 hn2 h (by rw [hg]; exact hlt)
    · rw [minted_cons_some ops h2 hm, List.length_cons] at hlt
      have hn2 := noWrapInv_after op hs hn h2 (fun _ _ => by omega)
      have hc2 : s2.lockIdGen.currentId = s.lockIdGen.currentId + 1 := by
        rw [hg, next_currentId]
        exact Nat.mod_eq_of_lt (by omega)
      exact ih hs2 hn2 h (by rw [hc2]; omega)

/-- On a store reached from a new one by calls that handed out fewer than `2 ^ 64`
tokens, the registry is exact. -/
theorem noWrapInv_fresh {name : String} {ops : List Op} {s : memDB}
    (hrun : (NewMemDB name NewLockIDSeqGenerator).run ops = some s)
    (hlen : ((NewMemDB name NewLockIDSeqGenerator).minted ops).length < 2 ^ 64) :
    NoWrapInv s := by
  have h0 : (NewMemDB name NewLockIDSeqGenerator).lockIdGen.currentId = 0 := rfl
  exact noWrapInv_run ops (inv_new name _) (noWrapInv_new name _) hrun (by rw [h0]; omega)

theorem Put_ret {s s1 : memDB} {k : Key} {v : Value} {t : LockID}
    (h : s.Put k v = Outcome.ret s1 t) :
    (∀ t0, s.key2Lock k ≠ some { locked := true, lockId := t0 }) ∧ t = s.nextToken ∧
    s1 = { s with
      lockIdGen := s.lockIdGen.Next.1
      lockId2Key := Function.update s.lockId2Key s.nextToken (some k)
      key2Lock := Function.update s.key2Lock k (some { locked := true, lockId := s.nextToken })
      storage := Function.update s.storage k (some v) } := by
  have hn : ∀ t0, s.key2Lock k ≠ some { locked := true, lockId := t0 } := by
    intro t0 hk
    rw [Put_held v hk] at h
    exact Outcome.noConfusion h
  rw [Put_not_held v hn] at h
  injection h with h1 h2
  exact ⟨hn, h2.symm, h1.symm⟩

theorem GetAndLock_ret {s s1 : memDB} {k : Key} {v : Value} {t : LockID}
    (h : s.GetAndLock k = Outcome.ret s1 (t, v, none)) :
    (∃ t0, s.key2Lock k = some { locked := false, lockId := t0 }) ∧ t = s.nextToken ∧
    s1 = { s with
      lockIdGen := s.lockIdGen.Next.1
      key2Lock := Function.update s.key2Lock k (some { locked := true, lockId := s.nextToken })
      lockId2Key := Function.update s.lockId2Key s.nextToken (some k) } := by
  rcases lock_cases s k with hk | ⟨t0, hk⟩ | ⟨t0, hk⟩
  · rw [GetAndLock_absent hk] at h
    injection h with _ e
    simp at e
  · rw [GetAndLock_held hk] at h
    exact Outcome.noConfusion h
  · rw [GetAndLock_free hk] at h
    injection h with h1 h2
    simp only [Prod.mk.injEq, and_true] at h2
    exact ⟨⟨t0, hk⟩, h2.1.symm, h1.symm⟩

/-! ## Frame lemmas -/

/-- A call that does not present the token of a held key leaves the value and the
lock of that key alone, and the token registered unless the call hands out that very
token. -/
theorem after_holder {s s1 : memDB} {k : Key} {t : LockID} (op : Op) (hs : Inv s)
    (h : s.after op = some s1) (hk : s.key2Lock k = some { locked := true, lockId := t })
    (hp : ¬ op.presents t) :
    s1.storage k = s.storage k ∧ s1.key2Lock k = s.key2Lock k ∧
    ((s.lockId2Key t).isSome → (s1.lockId2Key t).isSome) ∧
    (s.lockId2Key t = some k → s.mint op ≠ some t → s1.lockId2Key t = some k) := by
  have hother : ∀ t1 k1, s.lockId2Key t1 = some k1 → t1 ≠ t → k ≠ k1 := by
    intro t1 k1 h1 hne e
    have h2 := hs.1 _ _ h1
    rw [← e, hk] at h2
    simp only [Option.some.injEq, lock.mk.injEq, true_and] at h2
    exact hne h2.symm
  rcases after_shape op hs h with ⟨e, _⟩ | ⟨k1, v, _, hn, hm, e⟩ | ⟨k1, t0, _, hf, hm, e⟩ |
    ⟨t1, k1, v, eo, ht1, _, e⟩ | ⟨t1, k1, v, eo, ht1, _, e⟩ | ⟨t1, k1, eo, ht1, _, e⟩
  · subst e
    exact ⟨rfl, rfl, fun h1 => h1, fun h1 _ => h1⟩
  · have hne : k ≠ k1 := by
      intro e1
      rw [e1] at hk
      exact hn t hk
    subst e
    refine ⟨by simp [hne], by simp [hne], ?_, ?_⟩
    · intro h1
      simp only [Function.update_apply]
      by_cases e1 : t = s.nextToken
      · simp [e1]
      · simpa [e1] using h1
    · intro h1 hmt
      have e1 : t ≠ s.nextToken := by
        intro e1
        rw [hm, e1] at hmt
        exact hmt rfl
      simpa [Function.update_apply, e1] using h1
  · have hne : k ≠ k1 := by
      intro e1
      rw [e1, hf] at hk
      simp at hk
    subst e
    refine ⟨rfl, by simp [hne], ?_, ?_⟩
    · intro h1
      simp only [Function.update_apply]
      by_cases e1 : t = s.nextToken
      · simp [e1]
      · simpa [e1] using h1
    · intro h1 hmt
      have e1 : t ≠ s.nextToken := by
        intro e1
        rw [hm, e1] at hmt
        exact hmt rfl
      simpa [Function.update_apply, e1] using h1
  · subst eo
    have hne1 : t1 ≠ t := fun e1 => hp e1
    have hne := hother t1 k1 ht1 hne1
    subst e
    exact ⟨by simp [hne], rfl, fun h1 => h1, fun h1 _ => h1⟩
  · subst eo
    have hne1 : t1 ≠ t := fun e1 => hp e1
    have hne := hother t1 k1 ht1 hne1
    subst e
    refine ⟨by simp [hne], by simp [hne], by simp [Ne.symm hne1], ?_⟩
    intro h1 _
    simpa [Function.update_apply, Ne.symm hne1] using h1
  · subst eo
    have hne1 : t1 ≠ t := fun e1 => hp e1
    have hne := hother t1 k1 ht1 hne1
    subst e
    refine ⟨rfl, by simp [hne], by simp [Ne.symm hne1], ?_⟩
    intro h1 _
    simpa [Function.update_apply, Ne.symm hne1] using h1

/-- Calls that do not present the token of a held key leave the value and the lock of
that key alone, and the token registered. -/
theorem run_holder (ops : List Op) : ∀ {s s1 : memDB} {k : Key} {t : LockID}, Inv s →
    s.run ops = some s1 → s.key2Lock k = some { locked := true, lockId := t } →
    (s.lockId2Key t).isSome → (∀ op ∈ ops, ¬ Op.presents t op) →
    s1.storage k = s.storage k ∧ s1.key2Lock k = some { locked := true, lockId := t } ∧
    (s1.lockId2Key t).isSome := by
  induction ops with
  | nil =>
    intro s s1 k t _ h hk hl _
    simp only [memDB.run, Option.some.injEq] at h
    subst h
    exact ⟨rfl, hk, hl⟩
  | cons op ops ih =>
    intro s s1 k t hs h hk hl hp
    obtain ⟨s2, h2⟩ := after_total op hs
    rw [run_cons ops h2] at h
    obtain ⟨f1, f2, f3, _⟩ := after_holder op hs h2 hk (hp op (List.mem_cons_self _ _))
    obtain ⟨r1, r2, r3⟩ := ih (inv_after op hs h2) h (by rw [f2]; exact hk) (f3 hl)
      (fun o ho => hp o (List.mem_cons_of_mem _ ho))
    exact ⟨by rw [r1, f1], r2, r3⟩

/-- While the counter does not wrap, calls that do not present the token of a held key
leave the token registered for that key. -/
theorem run_holder_registered (ops : List Op) : ∀ {s s1 : memDB} {k : Key} {t : LockID},
    Inv s → TokensBelow s → s.run ops = some s1 →
    s.lockIdGen.currentId + (s.minted ops).length < 2 ^ 64 →
    s.key2Lock k = some { locked := true, lockId := t } → s.lockId2Key t = some k →
    (∀ op ∈ ops, ¬ Op.presents t op) → s1.lockId2Key t = some k := by
  induction ops with
  | nil =>
    intro s s1 k t _ _ h _ _ hl _
    simp only [memDB.run, Option.some.injEq] at h
    subst h
    exact hl
  | cons op ops ih =>
    intro s s1 k t hs hb h hlt hk hl hp
    obtain ⟨s2, h2⟩ := after_total op hs
    have hrun1 : s.run [op] = some s2 := by rw [run_cons [] h2]; rfl
    rw [run_cons ops h2] at h
    obtain ⟨_, f2, _, f4⟩ := after_holder op hs h2 hk (hp op (List.mem_cons_self _ _))
    obtain ⟨i, hi, hi2⟩ := hb t k hl
    rcases after_mint_cases op hs h2 with ⟨hm, hg, _⟩ | ⟨hm, hg, _⟩
    · rw [minted_cons_none ops h2 hm] at hlt
      obtain ⟨hb2, _⟩ := run_tokens_below [op] hs hb hrun1
        (by rw [minted_cons_none [] h2 hm]; simp [memDB.minted]; omega)
      exact ih (inv_after op hs h2) hb2 h (by rw [hg]; exact hlt) (by rw [f2]; exact hk)
        (f4 hl (by rw [hm]; simp)) (fun o ho => hp o (List.mem_cons_of_mem _ ho))
    · rw [minted_cons_some ops h2 hm, List.length_cons] at hlt
      obtain ⟨hb2, hc2⟩ := run_tokens_below [op] hs hb hrun1
        (by rw [minted_cons_some [] h2 hm]; simp [memDB.minted]; omega)
      rw [minted_cons_some [] h2 hm] at hc2
      simp only [memDB.minted, List.length_cons, List.length_nil] at hc2
      have hne : s.mint op ≠ some t := by
        rw [hm, nextToken_eq, Nat.mod_eq_of_lt (by omega), hi2]
        intro e
        have := FormatUint_injective (Option.some.inj e)
        omega
      exact ih (inv_after op hs h2) hb2 h (by rw [hc2]; omega) (by rw [f2]; exact hk)
        (f4 hl hne) (fun o ho => hp o (List.mem_cons_of_mem _ ho))

/-- A call that names one key leaves the value and the lock of every other key alone,
registers no token for it, and leaves its registered token registered unless the call
hands out that very token. -/
theorem after_other_key {s s1 : memDB} {k1 k2 : Key} (op : Op) (hs : Inv s)
    (h : s.after op = some s1) (hop : s.names k1 op) (hne : k1 ≠ k2) :
    s1.storage k2 = s.storage k2 ∧ s1.key2Lock k2 = s.key2Lock k2 ∧
    (∀ t, s1.lockId2Key t = some k2 → s.lockId2Key t = some k2) ∧
    (∀ t, s.lockId2Key t = some k2 → s.mint op ≠ some t → s1.lockId2Key t = some k2) := by
  have hne2 : k2 ≠ k1 := Ne.symm hne
  rcases after_shape op hs h with ⟨e, _⟩ | ⟨k, v, eo, _, hm, e⟩ | ⟨k, t0, eo, _, hm, e⟩ |
    ⟨t1, k, v, eo, ht1, _, e⟩ | ⟨t1, k, v, eo, ht1, _, e⟩ | ⟨t1, k, eo, ht1, _, e⟩
  · subst e
    exact ⟨rfl, rfl, fun _ h1 => h1, fun _ h1 _ => h1⟩
  · subst eo
    have ek : k = k1 := hop
    subst ek
    subst e
    refine ⟨by simp [hne2], by simp [hne2], ?_, ?_⟩
    · intro t h1
      simp only [Function.update_apply] at h1
      by_cases e1 : t = s.nextToken
      · simp only [e1, if_true, Option.some.injEq] at h1
        exact absurd h1 hne
      · simpa [e1] using h1
    · intro t h1 hmt
      have e1 : t ≠ s.nextToken := by
        intro e1
        rw [hm, e1] at hmt
        exact hmt rfl
      simpa [Function.update_apply, e1] using h1
  · subst eo
    have ek : k = k1 := hop
    subst ek
    subst e
    refine ⟨rfl, by simp [hne2], ?_, ?_⟩
    · intro t h1
      simp only [Function.update_apply] at h1
      by_cases e1 : t = s.nextToken
      · simp only [e1, if_true, Option.some.injEq] at h1
        exact absurd h1 hne
      · simpa [e1] using h1
    · intro t h1 hmt
      have e1 : t ≠ s.nextToken := by
        intro e1
        rw [hm, e1] at hmt
        exact hmt rfl
      simpa [Function.update_apply, e1] using h1
  · subst eo
    have ek : k = k1 := hop
    subst ek
    subst e
    exact ⟨by simp [hne2], rfl, fun _ h1 => h1, fun _ h1 _ => h1⟩
  · subst eo
    have ek : k = k1 := hop
    subst ek
    subst e
    refine ⟨by simp [hne2], by simp [hne2], ?_, ?_⟩
    · intro t h1
      simp only [Function.update_apply] at h1
      by_cases e1 : t = t1
      · simp [e1] at h1
      · simpa [e1] using h1
    · intro t h1 _
      have e1 : t ≠ t1 := by
        intro e1
        rw [e1, ht1] at h1
        exact hne (Option.some.inj h1)
      simpa [Function.update_apply, e1] using h1
  · subst eo
    have ek : k = k1 := by
      have h2 : s.lockId2Key t1 = some k1 := hop
      rw [ht1] at h2
      exact Option.some.inj h2
    subst ek
    subst e
    refine ⟨rfl, by simp [hne2], ?_, ?_⟩
    · intro t h1
      simp only [Function.update_apply] at h1
      by_cases e1 : t = t1
      · simp [e1] at h1
      · simpa [e1] using h1
    · intro t h1 _
      have e1 : t ≠ t1 := by
        intro e1
        rw [e1, ht1] at h1
        exact hne (Option.some.inj h1)
      simpa [Function.update_apply, e1] using h1

theorem run_append {s s1 : memDB} (a b : List Op) (h : s.run a = some s1) :
    s.run (a ++ b) = s1.run b := by
  induction a generalizing s with
  | nil =>
    simp only [memDB.run, Option.some.injEq] at h
    subst h
    rfl
  | cons op a ih =>
    cases h2 : s.after op with
    | none => simp [memDB.run, h2] at h
    | some s2 =>
      rw [run_cons a h2] at h
      rw [List.cons_append, run_cons (a ++ b) h2]
      exact ih h

/-! ## Claims on single operations -/

/-- C1: `Update` checks its preconditions in a fixed order.  In every store state it
returns `ErrKeyNotFound` when the key has no lock, whatever the token is; otherwise
`ErrLockIdNotFound` when the token is not registered or registered for another key;
otherwise it returns without error (the lock of the key is then locked in every
reachable state, and also without release it succeeds in every state). -/
theorem update_checks_in_order (s : memDB) (token : LockID) (key : Key) (value : Value)
    (releaseLock : Bool) :
    (s.key2Lock key = none →
      s.Update token key value releaseLock = Outcome.ret s (some Err.ErrKeyNotFound)) ∧
    (s.key2Lock key ≠ none → s.lockId2Key token ≠ some key →
      s.Update token key value releaseLock = Outcome.ret s (some Err.ErrLockIdNotFound)) ∧
    (s.key2Lock key ≠ none → s.lockId2Key token = some key → Reachable s →
      ∃ s1, s.Update token key value releaseLock = Outcome.ret s1 none) ∧
    (s.key2Lock key ≠ none → s.lockId2Key token = some key →
      ∃ s1, s.Update token key value false = Outcome.ret s1 none) ∧
    (∀ t0, s.key2Lock key = some { locked := true, lockId := t0 } →
      s.lockId2Key token = some key →
      ∃ s1, s.Update token key value releaseLock = Outcome.ret s1 none) := by
  refine ⟨fun hk => Update_absent token value releaseLock hk,
    fun hk ht => Update_wrong_token value releaseLock hk ht, ?_, ?_, ?_⟩
  · intro hk ht hr
    cases releaseLock with
    | false => exact ⟨_, Update_keep value hk ht⟩
    | true => exact ⟨_, Update_release value ((inv_reachable hr).1 _ _ ht) ht⟩
  · intro hk ht
    exact ⟨_, Update_keep value hk ht⟩
  · intro t0 hk ht
    cases releaseLock with
    | false => exact ⟨_, Update_keep value (by rw [hk]; simp) ht⟩
    | true => exact ⟨_, Update_release value hk ht⟩

/-- C1, at concrete inputs: after `Put("key0", "value0")` on a new store, the live
token "1" with the never-written key "wrongkey" gives `ErrKeyNotFound`, the unknown
token "7" with "key0" gives `ErrLockIdNotFound`, and "1" with "key0" succeeds. -/
theorem update_checks_in_order_witness :
    (storeAfter "TestDB" [Op.put "key0" "value0"]).Update "1" "wrongkey" "value2" true =
      Outcome.ret (storeAfter "TestDB" [Op.put "key0" "value0"]) (some Err.ErrKeyNotFound) ∧
    (storeAfter "TestDB" [Op.put "key0" "value0"]).Update "7" "key0" "value2" true =
      Outcome.ret (storeAfter "TestDB" [Op.put "key0" "value0"]) (some Err.ErrLockIdNotFound) ∧
    ∃ s1, (storeAfter "TestDB" [Op.put "key0" "value0"]).Update "1" "key0" "value2" true =
      Outcome.ret s1 none :=
  ⟨(update_checks_in_order _ "1" "wrongkey" "value2" true).1 (by decide),
    (update_checks_in_order _ "7" "key0" "value2" true).2.1 (by decide) (by decide),
    (update_checks_in_order _ "1" "key0" "value2" true).2.2.1 (by decide) (by decide)
      (reachable_storeAfter _ _)⟩

/-- C2: when key `k` is held by token `t`, `Update(t, k, v, false)` succeeds and only
sets the value of `k` (the lock, the token registry and the generator are as before,
`k` is still held by `t` and `Get(t, k)` returns `v`); `Update(t, k, v, true)`
succeeds, sets the value of `k`, unlocks the lock of `k` and removes `t` from the
registry, so that `Get(t, k)` fails with `ErrLockIdNotFound` and `DirectGet(k)`
returns `(v, true)`. -/
theorem update_effect (s : memDB) (k : Key) (t : LockID) (v : Value) (h : HeldBy s k t) :
    (∃ s1, s.Update t k v false = Outcome.ret s1 none ∧
      s1.storage = Function.update s.storage k (some v) ∧
      s1.key2Lock = s.key2Lock ∧ s1.lockId2Key = s.lockId2Key ∧
      s1.lockIdGen = s.lockIdGen ∧ s1.name = s.name ∧
      HeldBy s1 k t ∧ s1.Get t k = Outcome.ret s1 (v, none)) ∧
    (∃ s1, s.Update t k v true = Outcome.ret s1 none ∧
      s1.storage = Function.update s.storage k (some v) ∧
      s1.key2Lock = Function.update s.key2Lock k (some { locked := false, lockId := t }) ∧
      s1.lockId2Key = Function.update s.lockId2Key t none ∧
      s1.lockIdGen = s.lockIdGen ∧ s1.name = s.name ∧
      Free s1 k ∧ s1.lockId2Key t = none ∧
      s1.Get t k = Outcome.ret s1 (EmptyValue, some Err.ErrLockIdNotFound) ∧
      s1.DirectGet k = Outcome.ret s1 (v, true)) := by
  obtain ⟨hk, ht⟩ := h
  have hk1 : s.key2Lock k ≠ none := by rw [hk]; simp
  constructor
  · refine ⟨_, Update_keep v hk1 ht, rfl, rfl, rfl, rfl, rfl, ⟨hk, ht⟩, ?_⟩
    exact Get_live ht (by simp)
  · refine ⟨_, Update_release v hk ht, rfl, rfl, rfl, rfl, rfl, ⟨t, by simp⟩, by simp, ?_, ?_⟩
    · exact Get_dead k (by simp)
    · simp [memDB.DirectGet]

/-- C2, at concrete inputs: after `Put("key0", "value0")` on a new store, key "key0"
is held by token "1"; `Update("1", "key0", "value1", false)` succeeds and `Get` then
returns "value1"; `Update("1", "key0", "value2", true)` succeeds, `Get` then fails with
`ErrLockIdNotFound` and `DirectGet` returns `("value2", true)`. -/
theorem update_effect_witness :
    HeldBy (storeAfter "TestDB" [Op.put "key0" "value0"]) "key0" "1" ∧
    (∃ s1, (storeAfter "TestDB" [Op.put "key0" "value0"]).Update "1" "key0" "value1" false =
        Outcome.ret s1 none ∧
      s1.Get "1" "key0" = Outcome.ret s1 ("value1", none)) ∧
    (∃ s1, (storeAfter "TestDB" [Op.put "key0" "value0"]).Update "1" "key0" "value2" true =
        Outcome.ret s1 none ∧
      s1.Get "1" "key0" = Outcome.ret s1 (EmptyValue, some Err.ErrLockIdNotFound) ∧
      s1.DirectGet "key0" = Outcome.ret s1 ("value2", true)) := by
  have hheld : HeldBy (storeAfter "TestDB" [Op.put "key0" "value0"]) "key0" "1" :=
    ⟨by decide, by decide⟩
  refine ⟨hheld, ?_, ?_⟩
  · obtain ⟨s1, h1, _, _, _, _, _, _, h2⟩ := (update_effect _ "key0" "1" "value1" hheld).1
    exact ⟨s1, h1, h2⟩
  · obtain ⟨s1, h1, _, _, _, _, _, _, _, h2, h3⟩ := (update_effect _ "key0" "1" "value2" hheld).2
    exact ⟨s1, h1, h2, h3⟩

/-- C3: `Get` returns `ErrLockIdNotFound` when the token is not registered; otherwise
`ErrKeyNotFound` when the token is registered for another key (whether or not the
key named in the call exists); otherwise the value stored under the key, without
error (in a reachable state that value always exists).  `Get` always returns and
returns the store as it was. -/
theorem get_result (s : memDB) (token : LockID) (key : Key) :
    (s.lockId2Key token = none →
      s.Get token key = Outcome.ret s (EmptyValue, some Err.ErrLockIdNotFound)) ∧
    (∀ k1, s.lockId2Key token = some k1 → k1 ≠ key →
      s.Get token key = Outcome.ret s (EmptyValue, some Err.ErrKeyNotFound)) ∧
    (∀ v, s.lockId2Key token = some key → s.storage key = some v →
      s.Get token key = Outcome.ret s (v, none)) ∧
    (Reachable s → s.lockId2Key token = some key →
      ∃ v, s.storage key = some v ∧ s.Get token key = Outcome.ret s (v, none)) ∧
    (∃ r, s.Get token key = Outcome.ret s r) := by
  refine ⟨fun h => Get_dead key h, fun k1 h hne => Get_other h (Ne.symm hne),
    fun v h hv => Get_live h hv, ?_, Get_returns s token key⟩
  intro hr ht
  have hinv := inv_reachable hr
  cases hv : s.storage key with
  | none =>
    have hk := (hinv.2 key).mpr hv
    rw [hinv.1 _ _ ht] at hk
    exact Option.noConfusion hk
  | some v => exact ⟨v, rfl, Get_live ht hv⟩

/-- C3, at concrete inputs: after `Put("key0", "value0")` and `Put("key1", "value1")`
on a new store, `Get("9", "key0")` gives `ErrLockIdNotFound`, `Get("1", "key1")` gives
`ErrKeyNotFound` although "key1" exists, and `Get("1", "key0")` gives "value0". -/
theorem get_result_witness :
    (storeAfter "TestDB" [Op.put "key0" "value0", Op.put "key1" "value1"]).Get "9" "key0" =
      Outcome.ret (storeAfter "TestDB" [Op.put "key0" "value0", Op.put "key1" "value1"])
        (EmptyValue, some Err.ErrLockIdNotFound) ∧
    (storeAfter "TestDB" [Op.put "key0" "value0", Op.put "key1" "value1"]).storage "key1" =
      some "value1" ∧
    (storeAfter "TestDB" [Op.put "key0" "value0", Op.put "key1" "value1"]).Get "1" "key1" =
      Outcome.ret (storeAfter "TestDB" [Op.put "key0" "value0", Op.put "key1" "value1"])
        (EmptyValue, some Err.ErrKeyNotFound) ∧
    (storeAfter "TestDB" [Op.put "key0" "value0", Op.put "key1" "value1"]).Get "1" "key0" =
      Outcome.ret (storeAfter "TestDB" [Op.put "key0" "value0", Op.put "key1" "value1"])
        ("value0", none) :=
  ⟨(get_result _ "9" "key0").1 (by decide), by decide,
    (get_result _ "1" "key1").2.1 "key0" (by decide) (by decide),
    (get_result _ "1" "key0").2.2.1 "value0" (by decide) (by decide)⟩

/-- C4: when key `k` has no lock or a lock that is not locked, `Put(k, v)` returns
(it neither waits nor fails) with the next token `t` of the generator; afterwards the
value of `k` is `v`, the lock of `k` is locked and carries `t`, `t` is registered for
`k`, and `Get(t, k)` returns `v`.  In a state reached from a new store by calls that
handed out fewer than `2 ^ 64 - 1` tokens, `t` is new: the rendering of the number of
tokens handed out plus one, not handed out before and not registered. -/
theorem put_and_lock_effect (s : memDB) (k : Key) (v : Value)
    (h : s.key2Lock k = none ∨ Free s k) :
    ∃ s1, s.Put k v = Outcome.ret s1 s.nextToken ∧
      s.nextToken = FormatUint ((s.lockIdGen.currentId + 1) % 2 ^ 64) ∧
      s1.storage k = some v ∧
      s1.key2Lock k = some { locked := true, lockId := s.nextToken } ∧
      s1.lockId2Key s.nextToken = some k ∧
      HeldBy s1 k s.nextToken ∧
      s1.Get s.nextToken k = Outcome.ret s1 (v, none) ∧
      ∀ name ops, (NewMemDB name NewLockIDSeqGenerator).run ops = some s →
        ((NewMemDB name NewLockIDSeqGenerator).minted ops).length + 1 < 2 ^ 64 →
        s.nextToken =
          FormatUint (((NewMemDB name NewLockIDSeqGenerator).minted ops).length + 1) ∧
        s.nextToken ∉ (NewMemDB name NewLockIDSeqGenerator).minted ops ∧
        s.lockId2Key s.nextToken = none := by
  have hnh : ∀ t0, s.key2Lock k ≠ some { locked := true, lockId := t0 } := by
    rcases h with h | ⟨t1, h⟩
    · exact not_held_of_absent h
    · exact not_held_of_free h
  refine ⟨_, Put_not_held v hnh, rfl, by simp, by simp, by simp, ⟨by simp, by simp⟩,
    Get_live (by simp) (by simp), ?_⟩
  intro name ops hrun hlen
  exact nextToken_new hrun hlen

/-- C4, at concrete inputs: on a new store `Put("key", "value")` returns "1" (the key
was absent) and `Get("1", "key")` returns "value"; after `Release("1")` the key is
free and `Put("key", "other")` returns "2". -/
theorem put_and_lock_effect_witness :
    (∃ s1, (NewMemDB "TestDB" NewLockIDSeqGenerator).Put "key" "value" = Outcome.ret s1 "1" ∧
      s1.Get "1" "key" = Outcome.ret s1 ("value", none)) ∧
    Free (storeAfter "TestDB" [Op.put "key" "value", Op.release "1"]) "key" ∧
    ∃ s1, (storeAfter "TestDB" [Op.put "key" "value", Op.release "1"]).Put "key" "other" =
        Outcome.ret s1 "2" ∧
      s1.Get "2" "key" = Outcome.ret s1 ("other", none) := by
  have hfree : Free (storeAfter "TestDB" [Op.put "key" "value", Op.release "1"]) "key" :=
    ⟨"1", by decide⟩
  refine ⟨?_, hfree, ?_⟩
  · obtain ⟨s1, h1, _, _, _, _, _, h2, _⟩ :=
      put_and_lock_effect (NewMemDB "TestDB" NewLockIDSeqGenerator) "key" "value" (Or.inl rfl)
    exact ⟨s1, h1, h2⟩
  · obtain ⟨s1, h1, _, _, _, _, _, h2, _⟩ := put_and_lock_effect _ "key" "other" (Or.inr hfree)
    exact ⟨s1, h1, h2⟩

/-- C5 as stated fails: after `Put("key0", "value0")` returned "1" and `Release("1")`
succeeded, `Update("1", "wrongkey", "x", true)` with the never-written key "wrongkey"
fails with `ErrKeyNotFound`, not with `ErrLockIdNotFound`. -/
theorem dead_token_update_unwritten_key :
    ∃ s0 s, (NewMemDB "TestDB" NewLockIDSeqGenerator).Put "key0" "value0" = Outcome.ret s0 "1" ∧
      s0.Release "1" = Outcome.ret s none ∧
      s.Update "1" "wrongkey" "x" true = Outcome.ret s (some Err.ErrKeyNotFound) ∧
      s.Update "1" "wrongkey" "x" true ≠ Outcome.ret s (some Err.ErrLockIdNotFound) := by
  refine ⟨_, _, rfl, rfl, rfl, ?_⟩
  intro h
  have h1 : Outcome.ret _ (some Err.ErrKeyNotFound) = Outcome.ret _ (some Err.ErrLockIdNotFound) :=
    Eq.trans (Eq.symm (by rfl)) h
  injection h1 with _ h2
  exact absurd h2 (by decide)

/-- C5, amended: on a store reached from a new one, after `Release(t)` or
`Update(t, k, _, true)` has succeeded and after any further calls, as long as fewer
than `2 ^ 64` tokens have been handed out in all, `t` is not registered, every
`Get(t, k1)` and `Release(t)` fails with `ErrLockIdNotFound`, and `Update(t, k1, v1, r)`
fails with `ErrLockIdNotFound` when `k1` has a lock and with `ErrKeyNotFound` when it
has none. -/
theorem release_invalidates (name : String) (ops1 ops2 : List Op) (s s1 s2 : memDB)
    (t : LockID) (k : Key) (v : Value)
    (h1 : (NewMemDB name NewLockIDSeqGenerator).run ops1 = some s)
    (hrel : s.Release t = Outcome.ret s1 none ∨ s.Update t k v true = Outcome.ret s1 none)
    (h2 : s1.run ops2 = some s2)
    (hlt : ((NewMemDB name NewLockIDSeqGenerator).minted ops1).length +
      (s1.minted ops2).length < 2 ^ 64) :
    s2.lockId2Key t = none ∧
    ∀ (k1 : Key) (v1 : Value) (r : Bool),
      s2.Get t k1 = Outcome.ret s2 (EmptyValue, some Err.ErrLockIdNotFound) ∧
      s2.Release t = Outcome.ret s2 (some Err.ErrLockIdNotFound) ∧
      (s2.key2Lock k1 ≠ none →
        s2.Update t k1 v1 r = Outcome.ret s2 (some Err.ErrLockIdNotFound)) ∧
      (s2.key2Lock k1 = none →
        s2.Update t k1 v1 r = Outcome.ret s2 (some Err.ErrKeyNotFound)) := by
  have hi := inv_new name NewLockIDSeqGenerator
  have h0 : (NewMemDB name NewLockIDSeqGenerator).lockIdGen.currentId = 0 := rfl
  have hs := inv_run ops1 hi h1
  obtain ⟨hb, hc⟩ := run_tokens_below ops1 hi (tokensBelow_new name _) h1 (by rw [h0]; omega)
  rw [h0, Nat.zero_add] at hc
  -- the released token was registered, and the store after the release
  have hstep : ∃ k0, s.lockId2Key t = some k0 ∧ s1.lockId2Key t = none ∧
      s1.lockIdGen = s.lockIdGen ∧ Inv s1 := by
    rcases hrel with hrel | hrel
    · cases ht : s.lockId2Key t with
      | none =>
        rw [Release_dead ht] at hrel
        injection hrel with _ e
        exact Option.noConfusion e
      | some k0 =>
        rw [Release_held ht (hs.1 _ _ ht)] at hrel
        injection hrel with e _
        subst e
        exact ⟨k0, rfl, by simp, rfl, inv_release hs ht⟩
    · by_cases hk : s.key2Lock k = none
      · rw [Update_absent t v true hk] at hrel
        injection hrel with _ e
        exact Option.noConfusion e
      · by_cases ht : s.lockId2Key t = some k
        · rw [Update_release v (hs.1 _ _ ht) ht] at hrel
          injection hrel with e _
          subst e
          exact ⟨k, ht, by simp, rfl, inv_update_release v hs ht⟩
        · rw [Update_wrong_token v true hk ht] at hrel
          injection hrel with _ e
          exact Option.noConfusion e
  obtain ⟨k0, hlive, hdead, hgen, hs1⟩ := hstep
  obtain ⟨i, hi1, hi2⟩ := hb t k0 hlive
  have hd2 : s2.lockId2Key t = none := by
    rw [hi2] at hdead ⊢
    exact run_dead ops2 i hs1 h2 (by rw [hgen, hc]; exact hlt) (by rw [hgen]; exact hi1) hdead
  refine ⟨hd2, fun k1 v1 r => ⟨Get_dead k1 hd2, Release_dead hd2, ?_, ?_⟩⟩
  · intro hk
    exact Update_wrong_token v1 r hk (by rw [hd2]; simp)
  · intro hk
    exact Update_absent t v1 r hk

/-- C5 amended, at concrete inputs: `Put("key0", "value0")` returns "1", `Release("1")`
succeeds, `Put("key0", "value1")` returns "2"; then "1" is refused by `Get`, `Release`
and `Update` on "key0" with `ErrLockIdNotFound`. -/
theorem release_invalidates_witness :
    ∃ s s1 s2, (NewMemDB "TestDB" NewLockIDSeqGenerator).run [Op.put "key0" "value0"] = some s ∧
      s.Release "1" = Outcome.ret s1 none ∧
      s1.run [Op.put "key0" "value1"] = some s2 ∧
      s2.Get "1" "key0" = Outcome.ret s2 (EmptyValue, some Err.ErrLockIdNotFound) ∧
      s2.Release "1" = Outcome.ret s2 (some Err.ErrLockIdNotFound) ∧
      s2.Update "1" "key0" "doesntmatter" true =
        Outcome.ret s2 (some Err.ErrLockIdNotFound) := by
  refine ⟨_, _, _, rfl, rfl, rfl, ?_⟩
  have h := (release_invalidates "TestDB" [Op.put "key0" "value0"] [Op.put "key0" "value1"]
    _ _ _ "1" "key0" "" rfl (Or.inl rfl) rfl (by decide)).2 "key0" "doesntmatter" true
  exact ⟨h.1, h.2.1, h.2.2.1 (by decide)⟩

/-- Calls that do not overlap: in a state reached by atomic calls `Release(t)` fails with `ErrLockIdNotFound` when `t` is
not registered; when `t` is registered for `k`, the key `k` is held by `t` and has a
value, `Release(t)` succeeds, unlocks the lock of `k`, removes `t` from the registry
and leaves the values (and the generator) as they were, and a second `Release(t)`
fails with `ErrLockIdNotFound`. -/
theorem release_effect (s : memDB) (t : LockID) (hr : Reachable s) :
    (s.lockId2Key t = none → s.Release t = Outcome.ret s (some Err.ErrLockIdNotFound)) ∧
    (∀ k, s.lockId2Key t = some k →
      HeldBy s k t ∧ (∃ v, s.storage k = some v) ∧
      ∃ s1, s.Release t = Outcome.ret s1 none ∧
        s1.key2Lock = Function.update s.key2Lock k (some { locked := false, lockId := t }) ∧
        Free s1 k ∧
        s1.lockId2Key = Function.update s.lockId2Key t none ∧
        s1.lockId2Key t = none ∧
        s1.storage = s.storage ∧ s1.lockIdGen = s.lockIdGen ∧ s1.name = s.name ∧
        s1.Release t = Outcome.ret s1 (some Err.ErrLockIdNotFound)) := by
  have hs := inv_reachable hr
  refine ⟨fun h => Release_dead h, ?_⟩
  intro k ht
  have hk := hs.1 _ _ ht
  refine ⟨⟨hk, ht⟩, ?_, _, Release_held ht hk, rfl, ⟨t, by simp⟩, rfl, by simp, rfl, rfl, rfl,
    Release_dead (by simp)⟩
  cases hv : s.storage k with
  | none =>
    rw [(hs.2 k).mpr hv] at hk
    exact Option.noConfusion hk
  | some v => exact ⟨v, rfl⟩

/-- The effect of `Release` at concrete inputs: on a new store `Release("WrongLockId")` fails with
`ErrLockIdNotFound`; after `Put("k", "v")` returned "1", `Release("1")` succeeds, the
value of "k" is still "v", and a second `Release("1")` fails with `ErrLockIdNotFound`. -/
theorem release_effect_witness :
    (NewMemDB "TestDB" NewLockIDSeqGenerator).Release "WrongLockId" =
      Outcome.ret (NewMemDB "TestDB" NewLockIDSeqGenerator) (some Err.ErrLockIdNotFound) ∧
    ∃ s1, (storeAfter "TestDB" [Op.put "k" "v"]).Release "1" = Outcome.ret s1 none ∧
      s1.storage "k" = some "v" ∧
      s1.Release "1" = Outcome.ret s1 (some Err.ErrLockIdNotFound) := by
  constructor
  · exact (release_effect _ "WrongLockId" ⟨"TestDB", [], rfl⟩).1 rfl
  · obtain ⟨_, _, s1, h1, _, _, _, _, h2, _, _, h3⟩ :=
      (release_effect _ "1" (reachable_storeAfter "TestDB" [Op.put "k" "v"])).2 "k" (by decide)
    exact ⟨s1, h1, by rw [h2]; decide, h3⟩

/-! ## Claims on call sequences -/

/-- C7: after any sequence of calls on a new store, a `GetAndLock(k)` that returns
without error returns the next token `t` of the generator together with the value of
the most recent successful `Put` or `Update` on `k` in the sequence; afterwards `k` is
held by `t`, `t` is registered for `k`, and the values are as before.  When fewer than
`2 ^ 64 - 1` tokens have been handed out, `t` is new: the rendering of their number
plus one, not handed out before and not registered before. -/
theorem get_and_lock_reads_last_write (name : String) (ops : List Op) (s s1 : memDB)
    (k : Key) (t : LockID) (v : Value)
    (hrun : (NewMemDB name NewLockIDSeqGenerator).run ops = some s)
    (hget : s.GetAndLock k = Outcome.ret s1 (t, v, none)) :
    t = s.nextToken ∧
    (NewMemDB name NewLockIDSeqGenerator).lastWrite k ops = some v ∧
    HeldBy s1 k t ∧ s1.lockId2Key t = some k ∧
    s1.storage = s.storage ∧ s1.storage k = some v ∧
    (((NewMemDB name NewLockIDSeqGenerator).minted ops).length + 1 < 2 ^ 64 →
      t = FormatUint (((NewMemDB name NewLockIDSeqGenerator).minted ops).length + 1) ∧
      t ∉ (NewMemDB name NewLockIDSeqGenerator).minted ops ∧
      s.lockId2Key t = none) := by
  have hs := inv_run ops (inv_new name _) hrun
  rcases lock_cases s k with hk | ⟨t0, hk⟩ | ⟨t0, hk⟩
  · rw [GetAndLock_absent hk] at hget
    injection hget with _ e
    simp at e
  · rw [GetAndLock_held hk] at hget
    exact Outcome.noConfusion hget
  · rw [GetAndLock_free hk] at hget
    injection hget with e1 e2
    simp only [Prod.mk.injEq, and_true] at e2
    obtain ⟨et, ev⟩ := e2
    subst e1
    subst et
    have hv : s.storage k = some v := by
      cases hq : s.storage k with
      | none =>
        rw [(hs.2 k).mpr hq] at hk
        exact Option.noConfusion hk
      | some v0 =>
        rw [hq] at ev
        simp only [Option.getD_some] at ev
        rw [ev]
    refine ⟨rfl, ?_, ⟨by simp, by simp⟩, by simp, rfl, hv, ?_⟩
    · rw [← fresh_storage k hrun]
      exact hv
    · intro hlen
      exact nextToken_new hrun hlen

/-- C7, at concrete inputs: after `Put("key0", "value")` (token "1") and
`Update("1", "key0", "newValue", true)` on a new store, `GetAndLock("key0")` returns
`("2", "newValue")`. -/
theorem get_and_lock_reads_last_write_witness :
    ∃ s s1, (NewMemDB "RestDB" NewLockIDSeqGenerator).run
        [Op.put "key0" "value", Op.update "1" "key0" "newValue" true] = some s ∧
      s.GetAndLock "key0" = Outcome.ret s1 ("2", "newValue", none) ∧
      (NewMemDB "RestDB" NewLockIDSeqGenerator).lastWrite "key0"
        [Op.put "key0" "value", Op.update "1" "key0" "newValue" true] = some "newValue" ∧
      HeldBy s1 "key0" "2" := by
  refine ⟨_, _, rfl, rfl, ?_⟩
  have h := get_and_lock_reads_last_write "RestDB"
    [Op.put "key0" "value", Op.update "1" "key0" "newValue" true] _ _ "key0" "2" "newValue"
    rfl rfl
  exact ⟨h.2.1, h.2.2.1⟩

/-- C8: in every store state, `GetAndLock(k)` on a key without a lock returns at once
with the empty token, the empty value and `ErrKeyNotFound`, and returns the store as it
was, so `k` still has no lock; when `k` has no value either, `DirectGet(k)` reports it
as not present.  On a store reached from a new one, a key that no successful `Put` or
`Update` of the sequence has written has neither a lock nor a value. -/
theorem get_and_lock_unwritten_key (s : memDB) (k : Key) :
    (s.key2Lock k = none →
      s.GetAndLock k = Outcome.ret s ("", EmptyValue, some Err.ErrKeyNotFound) ∧
      s.after (Op.getAndLock k) = some s ∧ s.mint (Op.getAndLock k) = none) ∧
    (Absent s k → s.DirectGet k = Outcome.ret s ("", false)) ∧
    (∀ name ops, (NewMemDB name NewLockIDSeqGenerator).run ops = some s →
      (NewMemDB name NewLockIDSeqGenerator).lastWrite k ops = none → Absent s k) := by
  refine ⟨?_, ?_, ?_⟩
  · intro hk
    exact ⟨GetAndLock_absent hk, by simp only [memDB.after, GetAndLock_absent hk],
      by simp only [memDB.mint, GetAndLock_absent hk]⟩
  · intro h
    simp [memDB.DirectGet, h.2]
  · intro name ops hrun hl
    have hs := inv_run ops (inv_new name _) hrun
    have hv : s.storage k = none := by rw [fresh_storage k hrun, hl]
    exact ⟨(hs.2 k).mpr hv, hv⟩

/-- C8, at concrete inputs: after `Put("key0", "value0")` on a new store, the key
"WrongKey" has never been written; `GetAndLock("WrongKey")` fails with
`ErrKeyNotFound` and `DirectGet("WrongKey")` reports it as not present. -/
theorem get_and_lock_unwritten_key_witness :
    Absent (storeAfter "TestDB" [Op.put "key0" "value0"]) "WrongKey" ∧
    (storeAfter "TestDB" [Op.put "key0" "value0"]).GetAndLock "WrongKey" =
      Outcome.ret (storeAfter "TestDB" [Op.put "key0" "value0"])
        ("", EmptyValue, some Err.ErrKeyNotFound) ∧
    (storeAfter "TestDB" [Op.put "key0" "value0"]).DirectGet "WrongKey" =
      Outcome.ret (storeAfter "TestDB" [Op.put "key0" "value0"]) ("", false) := by
  have h := get_and_lock_unwritten_key (storeAfter "TestDB" [Op.put "key0" "value0"]) "WrongKey"
  have habs := h.2.2 "TestDB" [Op.put "key0" "value0"] rfl (by decide)
  exact ⟨habs, (h.1 habs.1).1, h.2.1 habs⟩

/-- C9: over any sequence of calls on a new store with a new sequential generator, the
tokens handed out are, in order, the decimal renderings of the successive values of
the `uint64` counter, `(i + 1) % 2 ^ 64` for the token at position `i` counted from
zero; so when fewer than `2 ^ 64` tokens are handed out, the token at position `i` is
the rendering of `i + 1` (the first one is "1"), no token occurs twice, and read as
numbers the tokens increase strictly. -/
theorem minted_sequential (name : String) (ops : List Op) :
    (NewMemDB name NewLockIDSeqGenerator).minted ops =
      (List.range ((NewMemDB name NewLockIDSeqGenerator).minted ops).length).map
        (fun i => FormatUint ((i + 1) % 2 ^ 64)) ∧
    (((NewMemDB name NewLockIDSeqGenerator).minted ops).length < 2 ^ 64 →
      (∀ i, i < ((NewMemDB name NewLockIDSeqGenerator).minted ops).length →
        ((NewMemDB name NewLockIDSeqGenerator).minted ops)[i]? = some (FormatUint (i + 1))) ∧
      ((NewMemDB name NewLockIDSeqGenerator).minted ops).Nodup ∧
      (((NewMemDB name NewLockIDSeqGenerator).minted ops).map tokenNumber).Pairwise
        (fun a b => a < b)) := by
  have hi := inv_new name NewLockIDSeqGenerator
  have h0 : (NewMemDB name NewLockIDSeqGenerator).lockIdGen.currentId = 0 := rfl
  obtain ⟨s, hrun⟩ := run_total ops hi
  obtain ⟨_, hm⟩ := run_minted ops hi (by rw [h0]; norm_num) hrun
  simp only [h0, Nat.zero_add] at hm
  refine ⟨hm, ?_⟩
  intro hlen
  have hm1 : (NewMemDB name NewLockIDSeqGenerator).minted ops =
      (List.range ((NewMemDB name NewLockIDSeqGenerator).minted ops).length).map
        (fun i => FormatUint (i + 1)) := by
    conv_lhs => rw [hm]
    apply List.map_congr_left
    intro i hi1
    rw [List.mem_range] at hi1
    rw [Nat.mod_eq_of_lt (by omega)]
  have hnum : ((NewMemDB name NewLockIDSeqGenerator).minted ops).map tokenNumber =
      (List.range ((NewMemDB name NewLockIDSeqGenerator).minted ops).length).map
        (fun i => i + 1) := by
    conv_lhs => rw [hm1]
    rw [List.map_map]
    apply List.map_congr_left
    intro i _
    simp only [Function.comp, tokenNumber_FormatUint]
  have hpw : (((NewMemDB name NewLockIDSeqGenerator).minted ops).map tokenNumber).Pairwise
      (fun a b => a < b) := by
    rw [hnum]
    exact List.Pairwise.map _ (fun a b hab => Nat.succ_lt_succ hab) (List.pairwise_lt_range _)
  refine ⟨?_, ?_, hpw⟩
  · intro i hi1
    conv_lhs => rw [hm1]
    simp [hi1]
  · have hnd : (((NewMemDB name NewLockIDSeqGenerator).minted ops).map tokenNumber).Nodup :=
      hpw.imp (fun hab => Nat.ne_of_lt hab)
    exact List.Nodup.of_map _ hnd

/-- C9, at concrete inputs: three successive `Put` calls on new keys of a new store
return "1", "2" and "3". -/
theorem minted_sequential_witness :
    (NewMemDB "TestDB" NewLockIDSeqGenerator).minted
        [Op.put "key1" "value1", Op.put "key2" "value2", Op.put "key3" "value3"] =
      ["1", "2", "3"] ∧
    ((NewMemDB "TestDB" NewLockIDSeqGenerator).minted
      [Op.put "key1" "value1", Op.put "key2" "value2", Op.put "key3" "value3"]).Nodup ∧
    (((NewMemDB "TestDB" NewLockIDSeqGenerator).minted
      [Op.put "key1" "value1", Op.put "key2" "value2", Op.put "key3" "value3"]).map
        tokenNumber).Pairwise (fun a b => a < b) := by
  have h := (minted_sequential "TestDB"
    [Op.put "key1" "value1", Op.put "key2" "value2", Op.put "key3" "value3"]).2 (by decide)
  exact ⟨by decide, h.2.1, h.2.2⟩

/-- Calls that do not overlap: with waiting on a key lock as an outcome of its own, in every reachable state
`Put(k, _)` waits exactly when `k` has a lock that is locked, and so does
`GetAndLock(k)`; `Get`, `Update`, `Release`, `DirectGet`, and `Put` on a key without a
lock never wait; a call that waits leaves the store as it was and hands out no token;
and once the holder `t` of `k` has released (by `Release(t)` or by
`Update(t, k, _, true)`), the same `Put(k, _)` or `GetAndLock(k)` returns, with the next
token of the generator. -/
theorem waits_iff_held (s : memDB) (hr : Reachable s) :
    (∀ k v, s.Put k v = Outcome.blocked ↔
      ∃ t0, s.key2Lock k = some { locked := true, lockId := t0 }) ∧
    (∀ k, s.GetAndLock k = Outcome.blocked ↔
      ∃ t0, s.key2Lock k = some { locked := true, lockId := t0 }) ∧
    (∀ t k, s.Get t k ≠ Outcome.blocked) ∧
    (∀ t k v r, s.Update t k v r ≠ Outcome.blocked) ∧
    (∀ t, s.Release t ≠ Outcome.blocked) ∧
    (∀ k, s.DirectGet k ≠ Outcome.blocked) ∧
    (∀ k v, s.key2Lock k = none → s.Put k v ≠ Outcome.blocked) ∧
    (∀ k v, s.Put k v = Outcome.blocked →
      s.after (Op.put k v) = some s ∧ s.mint (Op.put k v) = none) ∧
    (∀ k, s.GetAndLock k = Outcome.blocked →
      s.after (Op.getAndLock k) = some s ∧ s.mint (Op.getAndLock k) = none) ∧
    (∀ k t v1 s1, s.lockId2Key t = some k →
      s.Release t = Outcome.ret s1 none ∨ s.Update t k v1 true = Outcome.ret s1 none →
      (∀ v, s.Put k v = Outcome.blocked ∧ ∃ s2, s1.Put k v = Outcome.ret s2 s.nextToken) ∧
      s.GetAndLock k = Outcome.blocked ∧
      ∃ s2 v2, s1.GetAndLock k = Outcome.ret s2 (s.nextToken, v2, none)) := by
  have hs := inv_reachable hr
  refine ⟨Put_blocked_iff s, GetAndLock_blocked_iff s, ?_, Update_not_blocked s,
    Release_not_blocked s, ?_, ?_, ?_, ?_, ?_⟩
  · intro t k h
    obtain ⟨r, hr⟩ := Get_returns s t k
    rw [hr] at h
    exact Outcome.noConfusion h
  · intro k h
    obtain ⟨r, hr⟩ := DirectGet_returns s k
    rw [hr] at h
    exact Outcome.noConfusion h
  · intro k v hk h
    rw [Put_not_held v (not_held_of_absent hk)] at h
    exact Outcome.noConfusion h
  · intro k v h
    exact ⟨by simp only [memDB.after, h], by simp only [memDB.mint, h]⟩
  · intro k h
    exact ⟨by simp only [memDB.after, h], by simp only [memDB.mint, h]⟩
  · intro k t v1 s1 ht hrel
    have hk := hs.1 _ _ ht
    have hfree : s1.key2Lock k = some { locked := false, lockId := t } ∧
        s1.lockIdGen = s.lockIdGen := by
      rcases hrel with hrel | hrel
      · rw [Release_held ht hk] at hrel
        injection hrel with e _
        subst e
        exact ⟨by simp, rfl⟩
      · rw [Update_release v1 hk ht] at hrel
        injection hrel with e _
        subst e
        exact ⟨by simp, rfl⟩
    obtain ⟨hk1, hg⟩ := hfree
    have hnext : s1.nextToken = s.nextToken := by
      simp only [memDB.nextToken, hg]
    refine ⟨fun v => ⟨Put_held v hk, ?_⟩, GetAndLock_held hk, ?_⟩
    · exact ⟨_, by rw [Put_not_held v (not_held_of_free hk1), hnext]⟩
    · exact ⟨_, _, by rw [GetAndLock_free hk1, hnext]⟩

/-- Waiting on a key lock at concrete inputs: after `Put("key", "value")` returned "1" on a new store,
`Put("key", "b")` and `GetAndLock("key")` wait while `Put("other", "b")` does not; after
`Release("1")` the same `Put` and `GetAndLock` return with the token "2". -/
theorem waits_iff_held_witness :
    (storeAfter "TestDB" [Op.put "key" "value"]).Put "key" "b" = Outcome.blocked ∧
    (storeAfter "TestDB" [Op.put "key" "value"]).GetAndLock "key" = Outcome.blocked ∧
    (storeAfter "TestDB" [Op.put "key" "value"]).Put "other" "b" ≠ Outcome.blocked ∧
    (storeAfter "TestDB" [Op.put "key" "value"]).Release "1" =
      Outcome.ret (storeAfter "TestDB" [Op.put "key" "value", Op.release "1"]) none ∧
    (∃ s2, (storeAfter "TestDB" [Op.put "key" "value", Op.release "1"]).Put "key" "b" =
      Outcome.ret s2 "2") ∧
    ∃ s2 v2, (storeAfter "TestDB" [Op.put "key" "value", Op.release "1"]).GetAndLock "key" =
      Outcome.ret s2 ("2", v2, none) := by
  have h := waits_iff_held (storeAfter "TestDB" [Op.put "key" "value"])
    (reachable_storeAfter _ _)
  have hrel : (storeAfter "TestDB" [Op.put "key" "value"]).Release "1" =
      Outcome.ret (storeAfter "TestDB" [Op.put "key" "value", Op.release "1"]) none := rfl
  have h10 := h.2.2.2.2.2.2.2.2.2 "key" "1" ""
    (storeAfter "TestDB" [Op.put "key" "value", Op.release "1"]) (by decide) (Or.inl hrel)
  exact ⟨(h10.1 "b").1, h10.2.1, h.2.2.2.2.2.2.1 "other" "b" (by decide), hrel,
    (h10.1 "b").2, h10.2.2⟩

/-! ## Claims on errors -/

/-- C11: in every store state, a call of `Get`, `Update`, `Release` or `GetAndLock`
that returns an error returns the store as it was (values, locks with their state and
token, registry, generator), and hands out no token. -/
theorem error_leaves_store (s : memDB) :
    (∀ t k s1 v e, s.Get t k = Outcome.ret s1 (v, some e) → s1 = s) ∧
    (∀ t k v r s1 e, s.Update t k v r = Outcome.ret s1 (some e) →
      s1 = s ∧ s.after (Op.update t k v r) = some s) ∧
    (∀ t s1 e, s.Release t = Outcome.ret s1 (some e) →
      s1 = s ∧ s.after (Op.release t) = some s) ∧
    (∀ k s1 t v e, s.GetAndLock k = Outcome.ret s1 (t, v, some e) →
      s1 = s ∧ s.after (Op.getAndLock k) = some s ∧ s.mint (Op.getAndLock k) = none) := by
  refine ⟨?_, ?_, ?_, ?_⟩
  · intro t k s1 v e h
    obtain ⟨r, hr⟩ := Get_returns s t k
    rw [hr] at h
    injection h with h1 _
    exact h1.symm
  · intro t k v r s1 e h
    have h0 := h
    unfold memDB.Update at h
    have e1 : s1 = s := by
      split at h
      · injection h with h1 _
        exact h1.symm
      · split at h
        · injection h with h1 _
          exact h1.symm
        · split at h
          · injection h with h1 _
            exact h1.symm
          · split at h
            · split at h
              · exact Outcome.noConfusion h
              · injection h with _ h2
                exact Option.noConfusion h2
            · injection h with _ h2
              exact Option.noConfusion h2
    subst e1
    exact ⟨rfl, by simp only [memDB.after, h0]⟩
  · intro t s1 e h
    have h0 := h
    unfold memDB.Release at h
    have e1 : s1 = s := by
      split at h
      · injection h with h1 _
        exact h1.symm
      · split at h
        · split at h
          · exact Outcome.noConfusion h
          · injection h with _ h2
            exact Option.noConfusion h2
        · injection h with _ h2
          exact Option.noConfusion h2
    subst e1
    exact ⟨rfl, by simp only [memDB.after, h0]⟩
  · intro k s1 t v e h
    have h0 := h
    unfold memDB.GetAndLock at h
    have e1 : s1 = s := by
      split at h
      · injection h with h1 _
        exact h1.symm
      · split at h
        · exact Outcome.noConfusion h
        · injection h with _ h2
          simp at h2
    subst e1
    exact ⟨rfl, by simp only [memDB.after, h0], by simp only [memDB.mint, h0]⟩

/-- C11, at concrete inputs: after `Put("key0", "value")` on a new store, the failing
calls `Get("2", "key0")`, `Update("2", "key0", "", true)`, `Release("2")` and
`GetAndLock("missing")` all return the store as it was. -/
theorem error_leaves_store_witness :
    (storeAfter "RestDB" [Op.put "key0" "value"]).Get "2" "key0" =
      Outcome.ret (storeAfter "RestDB" [Op.put "key0" "value"])
        (EmptyValue, some Err.ErrLockIdNotFound) ∧
    (storeAfter "RestDB" [Op.put "key0" "value"]).after (Op.update "2" "key0" "" true) =
      some (storeAfter "RestDB" [Op.put "key0" "value"]) ∧
    (storeAfter "RestDB" [Op.put "key0" "value"]).after (Op.release "2") =
      some (storeAfter "RestDB" [Op.put "key0" "value"]) ∧
    (storeAfter "RestDB" [Op.put "key0" "value"]).after (Op.getAndLock "missing") =
      some (storeAfter "RestDB" [Op.put "key0" "value"]) ∧
    (storeAfter "RestDB" [Op.put "key0" "value"]).mint (Op.getAndLock "missing") = none := by
  have h := error_leaves_store (storeAfter "RestDB" [Op.put "key0" "value"])
  have hu : (storeAfter "RestDB" [Op.put "key0" "value"]).Update "2" "key0" "" true =
      Outcome.ret (storeAfter "RestDB" [Op.put "key0" "value"]) (some Err.ErrLockIdNotFound) :=
    rfl
  have hrel : (storeAfter "RestDB" [Op.put "key0" "value"]).Release "2" =
      Outcome.ret (storeAfter "RestDB" [Op.put "key0" "value"]) (some Err.ErrLockIdNotFound) :=
    rfl
  have hg : (storeAfter "RestDB" [Op.put "key0" "value"]).GetAndLock "missing" =
      Outcome.ret (storeAfter "RestDB" [Op.put "key0" "value"])
        ("", EmptyValue, some Err.ErrKeyNotFound) := rfl
  exact ⟨rfl, (h.2.1 _ _ _ _ _ _ hu).2, (h.2.2.1 _ _ _ hrel).2, (h.2.2.2 _ _ _ _ _ hg).2.1,
    (h.2.2.2 _ _ _ _ _ hg).2.2⟩

/-- C12 as stated fails: after `Put("key0", "value0")` (token "1") and
`Put("key1", "value1")` on a new store, `Get("1", "key1")` fails with `ErrKeyNotFound`
although "key1" has been written: it has a value and a lock. -/
theorem key_not_found_for_written_key :
    (storeAfter "TestDB" [Op.put "key0" "value0", Op.put "key1" "value1"]).Get "1" "key1" =
      Outcome.ret (storeAfter "TestDB" [Op.put "key0" "value0", Op.put "key1" "value1"])
        (EmptyValue, some Err.ErrKeyNotFound) ∧
    (storeAfter "TestDB" [Op.put "key0" "value0", Op.put "key1" "value1"]).storage "key1" =
      some "value1" ∧
    (storeAfter "TestDB" [Op.put "key0" "value0", Op.put "key1" "value1"]).key2Lock "key1" =
      some { locked := true, lockId := "2" } ∧
    ¬ Absent (storeAfter "TestDB" [Op.put "key0" "value0", Op.put "key1" "value1"]) "key1" := by
  refine ⟨rfl, by decide, by decide, ?_⟩
  intro h
  exact absurd h.2 (by decide)

/-- C12, amended: in a reachable state, when `GetAndLock(k)` or `Update(_, k, _, _)`
fails with `ErrKeyNotFound`, the key `k` has never been written (it has neither a
lock nor a value); when `Get(t, k)` fails with `ErrKeyNotFound`, the token `t` is
registered for a key other than `k`. -/
theorem key_not_found_meaning (s : memDB) (hr : Reachable s) :
    (∀ k s1 t v, s.GetAndLock k = Outcome.ret s1 (t, v, some Err.ErrKeyNotFound) →
      Absent s k) ∧
    (∀ t k v r s1, s.Update t k v r = Outcome.ret s1 (some Err.ErrKeyNotFound) →
      Absent s k) ∧
    (∀ t k s1 v, s.Get t k = Outcome.ret s1 (v, some Err.ErrKeyNotFound) →
      ∃ k1, s.lockId2Key t = some k1 ∧ k1 ≠ k) := by
  have hs := inv_reachable hr
  refine ⟨?_, ?_, ?_⟩
  · intro k s1 t v h
    rcases lock_cases s k with hk | ⟨t0, hk⟩ | ⟨t0, hk⟩
    · exact ⟨hk, (hs.2 k).mp hk⟩
    · rw [GetAndLock_held hk] at h
      exact Outcome.noConfusion h
    · rw [GetAndLock_free hk] at h
      injection h with _ h2
      simp at h2
  · intro t k v r s1 h
    by_cases hk : s.key2Lock k = none
    · exact ⟨hk, (hs.2 k).mp hk⟩
    · by_cases ht : s.lockId2Key t = some k
      · cases r with
        | false =>
          rw [Update_keep v hk ht] at h
          injection h with _ h2
          exact Option.noConfusion h2
        | true =>
          rw [Update_release v (hs.1 _ _ ht) ht] at h
          injection h with _ h2
          exact Option.noConfusion h2
      · rw [Update_wrong_token v r hk ht] at h
        injection h with _ h2
        simp at h2
  · intro t k s1 v h
    cases ht : s.lockId2Key t with
    | none =>
      rw [Get_dead k ht] at h
      injection h with _ h2
      simp at h2
    | some k1 =>
      by_cases e : k1 = k
      · subst e
        cases hv : s.storage k1 with
        | none =>
          have hk := (hs.2 k1).mpr hv
          rw [hs.1 _ _ ht] at hk
          exact Option.noConfusion hk
        | some v0 =>
          rw [Get_live ht hv] at h
          injection h with _ h2
          simp at h2
      · exact ⟨k1, rfl, e⟩

/-- C12 amended, at concrete inputs: after `Put("key0", "value0")` on a new store,
`GetAndLock("WrongKey")` and `Update("1", "wrongkey", "value2", true)` fail with
`ErrKeyNotFound` and both keys are absent; `Get("1", "unexistskey")` fails with
`ErrKeyNotFound` and "1" is registered for another key. -/
theorem key_not_found_meaning_witness :
    Absent (storeAfter "TestDB" [Op.put "key0" "value0"]) "WrongKey" ∧
    Absent (storeAfter "TestDB" [Op.put "key0" "value0"]) "wrongkey" ∧
    ∃ k1, (storeAfter "TestDB" [Op.put "key0" "value0"]).lockId2Key "1" = some k1 ∧
      k1 ≠ "unexistskey" := by
  have h := key_not_found_meaning (storeAfter "TestDB" [Op.put "key0" "value0"])
    (reachable_storeAfter _ _)
  have hg : (storeAfter "TestDB" [Op.put "key0" "value0"]).GetAndLock "WrongKey" =
      Outcome.ret (storeAfter "TestDB" [Op.put "key0" "value0"])
        ("", EmptyValue, some Err.ErrKeyNotFound) := rfl
  have hu : (storeAfter "TestDB" [Op.put "key0" "value0"]).Update "1" "wrongkey" "value2" true =
      Outcome.ret (storeAfter "TestDB" [Op.put "key0" "value0"]) (some Err.ErrKeyNotFound) :=
    rfl
  have hget : (storeAfter "TestDB" [Op.put "key0" "value0"]).Get "1" "unexistskey" =
      Outcome.ret (storeAfter "TestDB" [Op.put "key0" "value0"])
        (EmptyValue, some Err.ErrKeyNotFound) := rfl
  exact ⟨h.1 _ _ _ _ hg, h.2.1 _ _ _ _ _ hu, h.2.2 _ _ _ _ hget⟩

/-- C13 as stated fails: on a new store the key "key" is absent, yet
`Get("WrongLockId", "key")` fails with `ErrLockIdNotFound`, not `ErrKeyNotFound`. -/
theorem absent_key_get_unknown_token :
    Reachable (NewMemDB "TestDB" NewLockIDSeqGenerator) ∧
    Absent (NewMemDB "TestDB" NewLockIDSeqGenerator) "key" ∧
    (NewMemDB "TestDB" NewLockIDSeqGenerator).Get "WrongLockId" "key" =
      Outcome.ret (NewMemDB "TestDB" NewLockIDSeqGenerator)
        (EmptyValue, some Err.ErrLockIdNotFound) ∧
    (NewMemDB "TestDB" NewLockIDSeqGenerator).Get "WrongLockId" "key" ≠
      Outcome.ret (NewMemDB "TestDB" NewLockIDSeqGenerator)
        (EmptyValue, some Err.ErrKeyNotFound) := by
  refine ⟨⟨"TestDB", [], rfl⟩, ⟨rfl, rfl⟩, rfl, ?_⟩
  intro h
  have h1 : Outcome.ret (NewMemDB "TestDB" NewLockIDSeqGenerator)
      (EmptyValue, some Err.ErrLockIdNotFound) =
      Outcome.ret (NewMemDB "TestDB" NewLockIDSeqGenerator)
        (EmptyValue, some Err.ErrKeyNotFound) := Eq.trans (Eq.symm (by rfl)) h
  injection h1 with _ h2
  simp at h2

/-- C13, amended: in a reachable state with key `k` absent, `GetAndLock(k)` and every
`Update(t, k, v, r)` return `ErrKeyNotFound`, `Get(t, k)` returns `ErrKeyNotFound` when
`t` is registered and `ErrLockIdNotFound` when it is not, and all of them return the
store as it was. -/
theorem absent_key_calls (s : memDB) (k : Key) (hr : Reachable s) (ha : Absent s k) :
    s.GetAndLock k = Outcome.ret s ("", EmptyValue, some Err.ErrKeyNotFound) ∧
    (∀ t v r, s.Update t k v r = Outcome.ret s (some Err.ErrKeyNotFound)) ∧
    (∀ t, s.lockId2Key t ≠ none →
      s.Get t k = Outcome.ret s (EmptyValue, some Err.ErrKeyNotFound)) ∧
    (∀ t, s.lockId2Key t = none →
      s.Get t k = Outcome.ret s (EmptyValue, some Err.ErrLockIdNotFound)) := by
  have hs := inv_reachable hr
  refine ⟨GetAndLock_absent ha.1, fun t v r => Update_absent t v r ha.1, ?_,
    fun t ht => Get_dead k ht⟩
  intro t ht
  cases hq : s.lockId2Key t with
  | none => exact absurd hq ht
  | some k1 =>
    have hne : k ≠ k1 := by
      intro e
      have hk := hs.1 _ _ hq
      rw [← e, ha.1] at hk
      exact Option.noConfusion hk
    exact Get_other hq hne

/-- C13 amended, at concrete inputs: after `Put("key0", "value0")` on a new store the
key "unexistskey" is absent; `GetAndLock`, `Update` and `Get` with the live token "1"
return `ErrKeyNotFound`, `Get` with the unknown token "9" returns `ErrLockIdNotFound`. -/
theorem absent_key_calls_witness :
    Absent (storeAfter "TestDB" [Op.put "key0" "value0"]) "unexistskey" ∧
    (storeAfter "TestDB" [Op.put "key0" "value0"]).GetAndLock "unexistskey" =
      Outcome.ret (storeAfter "TestDB" [Op.put "key0" "value0"])
        ("", EmptyValue, some Err.ErrKeyNotFound) ∧
    (storeAfter "TestDB" [Op.put "key0" "value0"]).Update "1" "unexistskey" "x" false =
      Outcome.ret (storeAfter "TestDB" [Op.put "key0" "value0"]) (some Err.ErrKeyNotFound) ∧
    (storeAfter "TestDB" [Op.put "key0" "value0"]).Get "1" "unexistskey" =
      Outcome.ret (storeAfter "TestDB" [Op.put "key0" "value0"])
        (EmptyValue, some Err.ErrKeyNotFound) ∧
    (storeAfter "TestDB" [Op.put "key0" "value0"]).Get "9" "unexistskey" =
      Outcome.ret (storeAfter "TestDB" [Op.put "key0" "value0"])
        (EmptyValue, some Err.ErrLockIdNotFound) := by
  have ha : Absent (storeAfter "TestDB" [Op.put "key0" "value0"]) "unexistskey" :=
    ⟨by decide, by decide⟩
  have h := absent_key_calls (storeAfter "TestDB" [Op.put "key0" "value0"]) "unexistskey"
    (reachable_storeAfter _ _) ha
  exact ⟨ha, h.1, h.2.1 "1" "x" false, h.2.2.1 "1" (by decide), h.2.2.2 "9" (by decide)⟩

/-! ## Claims on the HTTP adapter -/

/-- Calls that do not overlap: in a state reached by atomic calls, for `POST /values/{key}/{lock_id}?release=r` with body
`b`: when `r` is not accepted by `ParseBool` the status is 400 and the store is as it
was; otherwise the status is 404 exactly when the key is absent, 401 exactly when the
key exists and is not held by `lock_id` (both with the store as it was), and 204
exactly when the key is held by `lock_id`; with 204 the value of the key is `b`, and
the lock is released and `lock_id` removed when `r` parses to true, while the key stays
held by `lock_id` when `r` parses to false. -/
theorem http_update_status (s : memDB) (hr : Reachable s) (key lockId r b : String) :
    (ParseBool r = none →
      Server.Update { mdb := s } (updateRequest key lockId r b) =
        Outcome.ret s StatusBadRequest) ∧
    (∀ rel, ParseBool r = some rel →
      (∃ s1 code, Server.Update { mdb := s } (updateRequest key lockId r b) =
          Outcome.ret s1 code ∧
        (code = StatusNotFound ↔ Absent s key) ∧
        (code = StatusUnauthorized ↔ ¬ Absent s key ∧ ¬ HeldBy s key lockId) ∧
        (code = StatusNoContent ↔ HeldBy s key lockId) ∧
        (code ≠ StatusNoContent → s1 = s)) ∧
      (HeldBy s key lockId →
        ∃ s1, Server.Update { mdb := s } (updateRequest key lockId r b) =
            Outcome.ret s1 StatusNoContent ∧
          s.Update lockId key b rel = Outcome.ret s1 none ∧
          s1.storage key = some b ∧
          (rel = true → Free s1 key ∧ s1.lockId2Key lockId = none ∧
            s1.Get lockId key = Outcome.ret s1 (EmptyValue, some Err.ErrLockIdNotFound)) ∧
          (rel = false → HeldBy s1 key lockId))) := by
  have hs := inv_reachable hr
  have hsrv : ∀ rel, ParseBool r = some rel →
      Server.Update { mdb := s } (updateRequest key lockId r b) =
        (match s.Update lockId key b rel with
          | Outcome.ret mdb (some Err.ErrKeyNotFound) => Outcome.ret mdb StatusNotFound
          | Outcome.ret mdb (some Err.ErrLockIdNotFound) => Outcome.ret mdb StatusUnauthorized
          | Outcome.ret mdb none => Outcome.ret mdb StatusNoContent
          | Outcome.blocked => Outcome.blocked
          | Outcome.panic => Outcome.panic) := by
    intro rel hp
    simp [Server.Update, updateRequest, hp]
  have hheld : HeldBy s key lockId ↔ s.lockId2Key lockId = some key :=
    ⟨fun h => h.2, fun h => ⟨hs.1 _ _ h, h⟩⟩
  have habs : Absent s key ↔ s.key2Lock key = none :=
    ⟨fun h => h.1, fun h => ⟨h, (hs.2 key).mp h⟩⟩
  constructor
  · intro hp
    simp [Server.Update, updateRequest, hp]
  · intro rel hp
    have hgood : HeldBy s key lockId →
        ∃ s1, Server.Update { mdb := s } (updateRequest key lockId r b) =
            Outcome.ret s1 StatusNoContent ∧
          s.Update lockId key b rel = Outcome.ret s1 none ∧
          s1.storage key = some b ∧
          (rel = true → Free s1 key ∧ s1.lockId2Key lockId = none ∧
            s1.Get lockId key = Outcome.ret s1 (EmptyValue, some Err.ErrLockIdNotFound)) ∧
          (rel = false → HeldBy s1 key lockId) := by
      intro hh
      have hk1 : s.key2Lock key ≠ none := by rw [hh.1]; simp
      cases rel with
      | false =>
        refine ⟨_, ?_, Update_keep b hk1 hh.2, by simp, ?_, fun _ => ⟨hh.1, hh.2⟩⟩
        · rw [hsrv false hp, Update_keep b hk1 hh.2]
        · intro e
          exact absurd e (by decide)
      | true =>
        refine ⟨_, ?_, Update_release b hh.1 hh.2, by simp, ?_, ?_⟩
        · rw [hsrv true hp, Update_release b hh.1 hh.2]
        · intro _
          exact ⟨⟨lockId, by simp⟩, by simp, Get_dead key (by simp)⟩
        · intro e
          exact absurd e (by decide)
    refine ⟨?_, hgood⟩
    by_cases hk : s.key2Lock key = none
    · refine ⟨s, StatusNotFound, ?_, ?_, ?_, ?_, fun _ => rfl⟩
      · rw [hsrv rel hp, Update_absent lockId b rel hk]
      · exact ⟨fun _ => habs.mpr hk, fun _ => rfl⟩
      · constructor
        · intro e
          exact absurd e (by decide)
        · intro h
          exact absurd (habs.mpr hk) h.1
      · constructor
        · intro e
          exact absurd e (by decide)
        · intro h
          rw [h.1] at hk
          exact Option.noConfusion hk
    · by_cases ht : s.lockId2Key lockId = some key
      · obtain ⟨s1, h1, _, _, _, _⟩ := hgood (hheld.mpr ht)
        refine ⟨s1, StatusNoContent, h1, ?_, ?_, ?_, fun h => absurd rfl h⟩
        · constructor
          · intro e
            exact absurd e (by decide)
          · intro h
            exact absurd (habs.mp h) hk
        · constructor
          · intro e
            exact absurd e (by decide)
          · intro h
            exact absurd (hheld.mpr ht) h.2
        · exact ⟨fun _ => hheld.mpr ht, fun _ => rfl⟩
      · refine ⟨s, StatusUnauthorized, ?_, ?_, ?_, ?_, fun _ => rfl⟩
        · rw [hsrv rel hp, Update_wrong_token b rel hk ht]
        · constructor
          · intro e
            exact absurd e (by decide)
          · intro h
            exact absurd (habs.mp h) hk
        · exact ⟨fun _ => ⟨fun h => hk (habs.mp h), fun h => ht (hheld.mp h)⟩, fun _ => rfl⟩
        · constructor
          · intro e
            exact absurd e (by decide)
          · intro h
            exact absurd (hheld.mp h) ht

/-- The statuses of `Update` at concrete inputs (the steps of `TestRestServerUpdate`): on a new store
`POST /values/key0/1?release=true` gives 404; after `PUT /values/key0` with body
"value" (token "1"), `POST /values/key0/2?release=true` gives 401,
`POST /values/key0/1?release=maybe` gives 400, and
`POST /values/key0/1?release=true` with body "newValue" gives 204, after which
`DirectGet("key0")` returns `("newValue", true)`. -/
theorem http_update_status_witness :
    Server.Update { mdb := NewMemDB "RestDB" NewLockIDSeqGenerator }
        (updateRequest "key0" "1" "true" "") =
      Outcome.ret (NewMemDB "RestDB" NewLockIDSeqGenerator) StatusNotFound ∧
    Server.Update { mdb := storeAfter "RestDB" [Op.put "key0" "value"] }
        (updateRequest "key0" "2" "true" "") =
      Outcome.ret (storeAfter "RestDB" [Op.put "key0" "value"]) StatusUnauthorized ∧
    Server.Update { mdb := storeAfter "RestDB" [Op.put "key0" "value"] }
        (updateRequest "key0" "1" "maybe" "") =
      Outcome.ret (storeAfter "RestDB" [Op.put "key0" "value"]) StatusBadRequest ∧
    ∃ s1, Server.Update { mdb := storeAfter "RestDB" [Op.put "key0" "value"] }
          (updateRequest "key0" "1" "true" "newValue") = Outcome.ret s1 StatusNoContent ∧
      s1.DirectGet "key0" = Outcome.ret s1 ("newValue", true) := by
  refine ⟨rfl, rfl, ?_, ?_⟩
  · exact (http_update_status (storeAfter "RestDB" [Op.put "key0" "value"])
      (reachable_storeAfter _ _) "key0" "1" "maybe" "").1 (by decide)
  · obtain ⟨s1, h1, _, h2, _, _⟩ := (http_update_status
      (storeAfter "RestDB" [Op.put "key0" "value"]) (reachable_storeAfter _ _)
      "key0" "1" "true" "newValue").2 true (by decide) |>.2 ⟨by decide, by decide⟩
    exact ⟨s1, h1, by simp [memDB.DirectGet, h2]⟩

/-! ## Claims on overlapping calls -/

/-- C15, the code at two overlapping calls `Put("key0", "value0")` and
`Put("key0", "value1")` on a new store: both calls run the first part of `Put` before
either runs the second, so both find no lock (`hasLock = false`) and nothing to wait
for.  The first call returns "1"; the second then returns "2" although "1" has not
been released (a `Put` started after the first had returned would wait).  Afterwards
both tokens are registered for "key0", the lock created by the first call has been
replaced, `Get("1", "key0")` returns the value of the second call, and after
`Release("1")` the call `Release("2")` unlocks an unlocked mutex. -/
theorem overlapping_puts_on_absent_key :
    (NewMemDB "TestDB" NewLockIDSeqGenerator).PutAcquire "key0" =
      some (NewMemDB "TestDB" NewLockIDSeqGenerator, false) ∧
    ∃ s1 s2 s3,
      (NewMemDB "TestDB" NewLockIDSeqGenerator).PutCommit "key0" "value0" false =
        Outcome.ret s1 "1" ∧
      s1.PutAcquire "key0" = none ∧
      s1.PutCommit "key0" "value1" false = Outcome.ret s2 "2" ∧
      s1.lockId2Key "1" = some "key0" ∧
      s2.lockId2Key "1" = some "key0" ∧
      s2.lockId2Key "2" = some "key0" ∧
      s2.key2Lock "key0" = some { locked := true, lockId := "2" } ∧
      s2.Get "1" "key0" = Outcome.ret s2 ("value1", none) ∧
      ¬ Inv s2 ∧
      s2.Release "1" = Outcome.ret s3 none ∧
      s3.Release "2" = Outcome.panic := by
  refine ⟨rfl, _, _, _, rfl, rfl, rfl, by decide, by decide, by decide, by decide, rfl, ?_,
    rfl, rfl⟩
  intro h
  have h1 := h.1 "1" "key0" (by decide)
  exact absurd h1 (by decide)

/-! ## Claims on reachable states -/

/-- Calls that do not overlap: in a state reached by atomic calls a token is registered exactly when it is registered for
a key whose lock exists, is locked and carries that token; so a key has at most one
registered token, and after a `Put` or `GetAndLock` on an existing key has returned,
the key is held by the new token and no other token is registered for it.  On a store
reached by calls that handed out fewer than `2 ^ 64` tokens the match is exact in the
other direction too: the token of a locked lock is registered for its key, the token
of an unlocked lock (the previous holder) is not registered, and it stays unregistered
when a `Put` or `GetAndLock` takes the lock. -/
theorem registry_matches_locks (s : memDB) (hr : Reachable s) :
    (∀ t k, s.lockId2Key t = some k → HeldBy s k t) ∧
    (∀ t, (∃ k, s.lockId2Key t = some k) ↔
      ∃ k, s.lockId2Key t = some k ∧ s.key2Lock k = some { locked := true, lockId := t }) ∧
    (∀ k t1 t2, s.lockId2Key t1 = some k → s.lockId2Key t2 = some k → t1 = t2) ∧
    (∀ k v s1 t, s.key2Lock k ≠ none → s.Put k v = Outcome.ret s1 t →
      HeldBy s1 k t ∧ ∀ t1, s1.lockId2Key t1 = some k → t1 = t) ∧
    (∀ k v s1 t, s.GetAndLock k = Outcome.ret s1 (t, v, none) →
      HeldBy s1 k t ∧ ∀ t1, s1.lockId2Key t1 = some k → t1 = t) ∧
    (∀ name ops, (NewMemDB name NewLockIDSeqGenerator).run ops = some s →
      ((NewMemDB name NewLockIDSeqGenerator).minted ops).length + 1 < 2 ^ 64 →
      (∀ k t, s.key2Lock k = some { locked := true, lockId := t } → s.lockId2Key t = some k) ∧
      (∀ k t0, s.key2Lock k = some { locked := false, lockId := t0 } →
        s.lockId2Key t0 = none ∧
        (∀ v s1 t, s.Put k v = Outcome.ret s1 t → t0 ≠ t ∧ s1.lockId2Key t0 = none) ∧
        (∀ v s1 t, s.GetAndLock k = Outcome.ret s1 (t, v, none) →
          t0 ≠ t ∧ s1.lockId2Key t0 = none))) := by
  have hs := inv_reachable hr
  have hone : ∀ (s1 : memDB) (k : Key) (t : LockID), Inv s1 →
      s1.key2Lock k = some { locked := true, lockId := t } →
      ∀ t1, s1.lockId2Key t1 = some k → t1 = t := by
    intro s1 k t hs1 hk t1 ht1
    have h1 := hs1.1 _ _ ht1
    rw [hk] at h1
    simp only [Option.some.injEq, lock.mk.injEq, true_and] at h1
    exact h1.symm
  refine ⟨fun t k ht => ⟨hs.1 _ _ ht, ht⟩, ?_, ?_, ?_, ?_, ?_⟩
  · intro t
    constructor
    · rintro ⟨k, ht⟩
      exact ⟨k, ht, hs.1 _ _ ht⟩
    · rintro ⟨k, ht, _⟩
      exact ⟨k, ht⟩
  · intro k t1 t2 h1 h2
    exact hone s k t2 hs (hs.1 _ _ h2) t1 h1
  · intro k v s1 t _ hput
    obtain ⟨hn, et, es⟩ := Put_ret hput
    have hs1 : Inv s1 := by rw [es]; exact inv_put v hs hn
    have hk1 : s1.key2Lock k = some { locked := true, lockId := t } := by
      rw [es, et]; simp
    have ht1 : s1.lockId2Key t = some k := by
      rw [es, et]; simp
    exact ⟨⟨hk1, ht1⟩, hone s1 k t hs1 hk1⟩
  · intro k v s1 t hget
    obtain ⟨⟨t0, hk⟩, et, es⟩ := GetAndLock_ret hget
    have hs1 : Inv s1 := by rw [es]; exact inv_getAndLock hs hk
    have hk1 : s1.key2Lock k = some { locked := true, lockId := t } := by
      rw [es, et]; simp
    have ht1 : s1.lockId2Key t = some k := by
      rw [es, et]; simp
    exact ⟨⟨hk1, ht1⟩, hone s1 k t hs1 hk1⟩
  · intro name ops hrun hlen
    obtain ⟨_, hlb, hhr, hfd⟩ := noWrapInv_fresh hrun (by omega)
    obtain ⟨hnext, _, _⟩ := nextToken_new hrun hlen
    have h0 : (NewMemDB name NewLockIDSeqGenerator).lockIdGen.currentId = 0 := rfl
    obtain ⟨_, hc⟩ := run_tokens_below ops (inv_new name _) (tokensBelow_new name _) hrun
      (by rw [h0]; omega)
    rw [h0, Nat.zero_add] at hc
    refine ⟨hhr, ?_⟩
    intro k t0 hk
    have hd := hfd k t0 hk
    have hne : t0 ≠ s.nextToken := by
      intro e
      obtain ⟨i, hi, hi2⟩ := hlb k _ hk
      simp only at hi2
      rw [e, hnext] at hi2
      have := FormatUint_injective hi2
      omega
    refine ⟨hd, ?_, ?_⟩
    · intro v s1 t hput
      obtain ⟨_, et, es⟩ := Put_ret hput
      refine ⟨by rw [et]; exact hne, ?_⟩
      rw [es]
      simp only [Function.update_apply, hne, if_false]
      exact hd
    · intro v s1 t hget
      obtain ⟨_, et, es⟩ := GetAndLock_ret hget
      refine ⟨by rw [et]; exact hne, ?_⟩
      rw [es]
      simp only [Function.update_apply, hne, if_false]
      exact hd

/-- The registry at concrete inputs: after `Put("key0", "value0")` (token "1"), `Release("1")`
and `Put("key0", "value1")` (token "2") on a new store, "key0" is held by "2", "2" is
the only token registered for "key0", and the previous holder "1" is not registered. -/
theorem registry_matches_locks_witness :
    (storeAfter "TestDB" [Op.put "key0" "value0", Op.release "1"]).key2Lock "key0" =
      some { locked := false, lockId := "1" } ∧
    ∃ s1, (storeAfter "TestDB" [Op.put "key0" "value0", Op.release "1"]).Put "key0" "value1" =
        Outcome.ret s1 "2" ∧
      HeldBy s1 "key0" "2" ∧ (∀ t1, s1.lockId2Key t1 = some "key0" → t1 = "2") ∧
      s1.lockId2Key "1" = none := by
  have h := registry_matches_locks (storeAfter "TestDB" [Op.put "key0" "value0", Op.release "1"])
    (reachable_storeAfter _ _)
  have hput : (storeAfter "TestDB" [Op.put "key0" "value0", Op.release "1"]).Put "key0"
      "value1" = Outcome.ret (storeAfter "TestDB"
        [Op.put "key0" "value0", Op.release "1", Op.put "key0" "value1"]) "2" := rfl
  have h4 := h.2.2.2.1 "key0" "value1" _ "2" (by decide) hput
  have h6 := (h.2.2.2.2.2 "TestDB" [Op.put "key0" "value0", Op.release "1"] rfl
    (by decide)).2 "key0" "1" (by decide)
  exact ⟨by decide, _, hput, h4.1, h4.2, (h6.2.1 "value1" _ "2" hput).2⟩

/-- Calls that do not overlap: in a state reached by atomic calls no call makes the process die, whatever its arguments,
and neither does any sequence of calls; when `Update(t, k, v, true)` or `Release(t)`
reaches `keyLock.Unlock()` (the key has a lock and `t` is registered for it), the lock
of the key exists and is locked, so `Unlock` succeeds. -/
theorem no_panic (s : memDB) (hr : Reachable s) :
    (∀ k v, s.Put k v ≠ Outcome.panic) ∧
    (∀ t k, s.Get t k ≠ Outcome.panic) ∧
    (∀ t k v r, s.Update t k v r ≠ Outcome.panic) ∧
    (∀ t, s.Release t ≠ Outcome.panic) ∧
    (∀ k, s.GetAndLock k ≠ Outcome.panic) ∧
    (∀ k, s.DirectGet k ≠ Outcome.panic) ∧
    (∀ ops, ∃ s1, s.run ops = some s1) ∧
    (∀ t k, s.lockId2Key t = some k →
      ∃ keyLock, s.getLockByKey k = some keyLock ∧ keyLock.locked = true ∧
        keyLock.Unlock = some { locked := false, lockId := t }) := by
  have hs := inv_reachable hr
  refine ⟨?_, ?_, ?_, ?_, ?_, ?_, fun ops => run_total ops hs, ?_⟩
  · intro k v h
    obtain ⟨s1, h1⟩ := after_total (Op.put k v) hs
    simp [memDB.after, h] at h1
  · intro t k h
    obtain ⟨s1, h1⟩ := after_total (Op.get t k) hs
    simp [memDB.after, h] at h1
  · intro t k v r h
    obtain ⟨s1, h1⟩ := after_total (Op.update t k v r) hs
    simp [memDB.after, h] at h1
  · intro t h
    obtain ⟨s1, h1⟩ := after_total (Op.release t) hs
    simp [memDB.after, h] at h1
  · intro k h
    obtain ⟨s1, h1⟩ := after_total (Op.getAndLock k) hs
    simp [memDB.after, h] at h1
  · intro k h
    obtain ⟨s1, h1⟩ := after_total (Op.directGet k) hs
    simp [memDB.after, h] at h1
  · intro t k ht
    exact ⟨_, hs.1 _ _ ht, rfl, rfl⟩

/-- No fatal error at concrete inputs: after `Put("key0", "value0")` and `Release("1")` on a new
store, a second `Release("1")` and `Update("1", "key0", "x", true)` return an error
instead of unlocking the unlocked mutex. -/
theorem no_panic_witness :
    (storeAfter "TestDB" [Op.put "key0" "value0", Op.release "1"]).Release "1" ≠
      Outcome.panic ∧
    (storeAfter "TestDB" [Op.put "key0" "value0", Op.release "1"]).Update "1" "key0" "x" true ≠
      Outcome.panic ∧
    ∃ keyLock, (storeAfter "TestDB" [Op.put "key0" "value0"]).getLockByKey "key0" =
        some keyLock ∧ keyLock.locked = true := by
  have h := no_panic (storeAfter "TestDB" [Op.put "key0" "value0", Op.release "1"])
    (reachable_storeAfter _ _)
  obtain ⟨l, h1, h2, _⟩ := (no_panic (storeAfter "TestDB" [Op.put "key0" "value0"])
    (reachable_storeAfter _ _)).2.2.2.2.2.2.2 "1" "key0" (by decide)
  exact ⟨h.2.2.2.1 "1", h.2.2.1 "1" "key0" "x" true, l, h1, h2⟩

/-- C18: in a reachable state every key with a lock has a value, every key a token is
registered for has a lock and a value, and so `Get` never reaches its last branch
(token found, key matches, value missing): with the token registered for the key it
returns the value without error. -/
theorem value_presence (s : memDB) (hr : Reachable s) :
    (∀ k, s.key2Lock k ≠ none → s.storage k ≠ none) ∧
    (∀ t k, s.lockId2Key t = some k → s.key2Lock k ≠ none ∧ s.storage k ≠ none) ∧
    (¬ ∃ t k, s.getKeyByLockID t = some k ∧ s.storage k = none) ∧
    (∀ t k, s.lockId2Key t = some k →
      ∃ v, s.storage k = some v ∧ s.Get t k = Outcome.ret s (v, none)) := by
  have hs := inv_reachable hr
  have h1 : ∀ k, s.key2Lock k ≠ none → s.storage k ≠ none :=
    fun k hk hv => hk ((hs.2 k).mpr hv)
  have h2 : ∀ t k, s.lockId2Key t = some k → s.key2Lock k ≠ none := by
    intro t k ht
    rw [hs.1 _ _ ht]
    simp
  refine ⟨h1, fun t k ht => ⟨h2 t k ht, h1 k (h2 t k ht)⟩, ?_, ?_⟩
  · rintro ⟨t, k, ht, hv⟩
    exact h1 k (h2 t k ht) hv
  · intro t k ht
    cases hv : s.storage k with
    | none => exact absurd hv (h1 k (h2 t k ht))
    | some v => exact ⟨v, rfl, Get_live ht hv⟩

/-- C18, at concrete inputs: after `Put("key", "value")` on a new store the token "1"
is registered for "key", which has a lock and a value, and `Get("1", "key")` returns
"value". -/
theorem value_presence_witness :
    (storeAfter "TestDB" [Op.put "key" "value"]).key2Lock "key" ≠ none ∧
    (storeAfter "TestDB" [Op.put "key" "value"]).storage "key" ≠ none ∧
    ∃ v, (storeAfter "TestDB" [Op.put "key" "value"]).storage "key" = some v ∧
      (storeAfter "TestDB" [Op.put "key" "value"]).Get "1" "key" =
        Outcome.ret (storeAfter "TestDB" [Op.put "key" "value"]) (v, none) := by
  have h := value_presence (storeAfter "TestDB" [Op.put "key" "value"])
    (reachable_storeAfter _ _)
  exact ⟨(h.2.1 "1" "key" (by decide)).1, (h.2.1 "1" "key" (by decide)).2,
    h.2.2.2 "1" "key" (by decide)⟩

/-! ## Claims on frames -/

/-- Calls that do not overlap: in a state reached by atomic calls where key `k` is held by token `t` and has the value
`v`, after any calls that do not present `t` (whether they return or wait) the value
of `k` is still `v`, the lock of `k` is still locked with token `t`, and `t` is still
registered; as long as fewer than `2 ^ 64` tokens have been handed out in all, `t` is
still registered for `k`, so `Get(t, k)` still returns `v`. -/
theorem holder_undisturbed (s : memDB) (hr : Reachable s) (k : Key) (t : LockID) (v : Value)
    (hh : HeldBy s k t) (hv : s.storage k = some v) (ops : List Op)
    (hp : ∀ op ∈ ops, ¬ Op.presents t op) :
    ∃ s1, s.run ops = some s1 ∧
      s1.storage k = some v ∧
      s1.key2Lock k = some { locked := true, lockId := t } ∧
      (s1.lockId2Key t).isSome ∧
      ∀ name ops0, (NewMemDB name NewLockIDSeqGenerator).run ops0 = some s →
        ((NewMemDB name NewLockIDSeqGenerator).minted ops0).length +
          (s.minted ops).length < 2 ^ 64 →
        HeldBy s1 k t ∧ s1.Get t k = Outcome.ret s1 (v, none) := by
  have hs := inv_reachable hr
  obtain ⟨s1, hrun⟩ := run_total ops hs
  obtain ⟨r1, r2, r3⟩ := run_holder ops hs hrun hh.1 (by rw [hh.2]; rfl) hp
  refine ⟨s1, hrun, by rw [r1, hv], r2, r3, ?_⟩
  intro name ops0 hrun0 hlt
  have h0 : (NewMemDB name NewLockIDSeqGenerator).lockIdGen.currentId = 0 := rfl
  obtain ⟨hb, hc⟩ := run_tokens_below ops0 (inv_new name _) (tokensBelow_new name _) hrun0
    (by rw [h0]; omega)
  rw [h0, Nat.zero_add] at hc
  have hreg := run_holder_registered ops hs hb hrun (by rw [hc]; exact hlt) hh.1 hh.2 hp
  exact ⟨⟨r2, hreg⟩, Get_live hreg (by rw [r1, hv])⟩

/-- The holder of a key at concrete inputs: after `Put("key0", "value0")` (token "1") on a new store,
the calls `Put("key1", "value1")`, `Update("2", "key1", "x", true)`, `Release("7")`,
`Put("key0", "b")` (which waits) and `GetAndLock("key1")` leave "key0" held by "1",
and `Get("1", "key0")` returns "value0". -/
theorem holder_undisturbed_witness :
    HeldBy (storeAfter "TestDB" [Op.put "key0" "value0"]) "key0" "1" ∧
    ∃ s1, (storeAfter "TestDB" [Op.put "key0" "value0"]).run
        [Op.put "key1" "value1", Op.update "2" "key1" "x" true, Op.release "7",
          Op.put "key0" "b", Op.getAndLock "key1"] = some s1 ∧
      HeldBy s1 "key0" "1" ∧ s1.Get "1" "key0" = Outcome.ret s1 ("value0", none) := by
  have hh : HeldBy (storeAfter "TestDB" [Op.put "key0" "value0"]) "key0" "1" :=
    ⟨by decide, by decide⟩
  obtain ⟨s1, h1, _, _, _, h2⟩ := holder_undisturbed (storeAfter "TestDB" [Op.put "key0" "value0"])
    (reachable_storeAfter _ _) "key0" "1" "value0" hh (by decide)
    [Op.put "key1" "value1", Op.update "2" "key1" "x" true, Op.release "7",
      Op.put "key0" "b", Op.getAndLock "key1"]
    (by
      intro op hop
      simp only [List.mem_cons, List.mem_singleton, List.not_mem_nil, or_false] at hop
      rcases hop with e | e | e | e | e <;> subst e <;> simp [Op.presents])
  exact ⟨hh, s1, h1, h2 "TestDB" [Op.put "key0" "value0"] rfl (by decide)⟩

/-- Calls that do not overlap: in a state reached by atomic calls, for keys `k1 ≠ k2`, a `Put`, `GetAndLock` or `Update`
on `k1`, or the `Release` of a token registered for `k1`, leaves the value and the
lock (state and token) of `k2` as they were, registers no token for `k2`, and leaves
the token registered for `k2` registered unless the call hands out that very token,
which does not happen while fewer than `2 ^ 64 - 1` tokens have been handed out.
Whether `Put` or `GetAndLock` on `k2` waits is decided by the lock of `k2` alone, so
it is the same before and after the call, and a `Put` on a key without a lock never
waits. -/
theorem distinct_keys_independent (s : memDB) (hr : Reachable s) (k1 k2 : Key)
    (hne : k1 ≠ k2) (op : Op) (hop : s.names k1 op) :
    ∃ s1, s.after op = some s1 ∧
      s1.storage k2 = s.storage k2 ∧
      s1.key2Lock k2 = s.key2Lock k2 ∧
      (∀ t, s1.lockId2Key t = some k2 → s.lockId2Key t = some k2) ∧
      (∀ t, s.lockId2Key t = some k2 → s.mint op ≠ some t → s1.lockId2Key t = some k2) ∧
      (∀ name ops, (NewMemDB name NewLockIDSeqGenerator).run ops = some s →
        ((NewMemDB name NewLockIDSeqGenerator).minted ops).length + 1 < 2 ^ 64 →
        ∀ t, s1.lockId2Key t = some k2 ↔ s.lockId2Key t = some k2) ∧
      (∀ v, s.Put k2 v = Outcome.blocked ↔
        ∃ t0, s.key2Lock k2 = some { locked := true, lockId := t0 }) ∧
      (∀ v, s1.Put k2 v = Outcome.blocked ↔ s.Put k2 v = Outcome.blocked) ∧
      (s1.GetAndLock k2 = Outcome.blocked ↔ s.GetAndLock k2 = Outcome.blocked) ∧
      (∀ v, s.key2Lock k2 = none →
        s.Put k2 v ≠ Outcome.blocked ∧ s1.Put k2 v ≠ Outcome.blocked) := by
  have hs := inv_reachable hr
  obtain ⟨s1, h1⟩ := after_total op hs
  obtain ⟨f1, f2, f3, f4⟩ := after_other_key op hs h1 hop hne
  refine ⟨s1, h1, f1, f2, f3, f4, ?_, Put_blocked_iff s k2, ?_, ?_, ?_⟩
  · intro name ops hrun hlen t
    constructor
    · exact f3 t
    · intro ht
      apply f4 t ht
      intro hm
      obtain ⟨_, _, hdead⟩ := nextToken_new hrun hlen
      rcases after_mint_cases op hs h1 with ⟨hm0, _, _⟩ | ⟨hm1, _, _⟩
      · rw [hm0] at hm
        exact Option.noConfusion hm
      · rw [hm1] at hm
        rw [Option.some.inj hm, ht] at hdead
        exact Option.noConfusion hdead
  · intro v
    rw [Put_blocked_iff, Put_blocked_iff, f2]
  · rw [GetAndLock_blocked_iff, GetAndLock_blocked_iff, f2]
  · intro v hk
    constructor
    · intro hb
      obtain ⟨t0, h2⟩ := (Put_blocked_iff s k2 v).mp hb
      rw [hk] at h2
      exact Option.noConfusion h2
    · intro hb
      obtain ⟨t0, h2⟩ := (Put_blocked_iff s1 k2 v).mp hb
      rw [f2, hk] at h2
      exact Option.noConfusion h2

/-- Distinct keys at concrete inputs (the steps of `TestMemDBPutDifferentKey`): after
`Put("key0", "value0")` on a new store, `Put("key1", "value1")` returns at once although
"key0" is held, and the `Release("1")` of the token of "key0" leaves the value and the
lock of "key1" as they were. -/
theorem distinct_keys_independent_witness :
    (storeAfter "TestDB" [Op.put "key0" "value0"]).Put "key1" "value1" ≠ Outcome.blocked ∧
    ∃ s1, (storeAfter "TestDB" [Op.put "key0" "value0", Op.put "key1" "value1"]).after
        (Op.release "1") = some s1 ∧
      s1.storage "key1" = some "value1" ∧
      s1.key2Lock "key1" = some { locked := true, lockId := "2" } ∧
      s1.lockId2Key "2" = some "key1" := by
  constructor
  · obtain ⟨s1, _, _, _, _, _, _, _, _, _, h⟩ := distinct_keys_independent
      (storeAfter "TestDB" [Op.put "key0" "value0"]) (reachable_storeAfter _ _) "key0" "key1"
      (by decide) (Op.put "key0" "value00") rfl
    exact (h "value1" (by decide)).1
  · obtain ⟨s1, h1, f1, f2, _, f4, _⟩ := distinct_keys_independent
      (storeAfter "TestDB" [Op.put "key0" "value0", Op.put "key1" "value1"])
      (reachable_storeAfter _ _) "key0" "key1" (by decide) (Op.release "1")
      (by show _ = some "key0"; decide)
    refine ⟨s1, h1, ?_, ?_, ?_⟩
    · rw [f1]
      decide
    · rw [f2]
      decide
    · exact f4 "2" (by decide) (fun h => Option.noConfusion h)

/-! ## Claims on the life of a key -/

/-- C21: on a store reached from a new one, once `Put(k, v)` has returned, after every
further sequence of calls the key `k` still has its lock and its value (it is not
absent), `DirectGet(k)` reports it as present, and the value it reports is the one of
the most recent successful `Put` or `Update` on `k` in the whole sequence of calls,
which is `v` when the further calls do not write `k`. -/
theorem keys_never_destroyed (name : String) (pre post : List Op) (k : Key) (v : Value)
    (s s1 : memDB) (t : LockID)
    (hpre : (NewMemDB name NewLockIDSeqGenerator).run pre = some s)
    (hput : s.Put k v = Outcome.ret s1 t) :
    ∃ s2 v1, s1.run post = some s2 ∧
      (NewMemDB name NewLockIDSeqGenerator).run (pre ++ Op.put k v :: post) = some s2 ∧
      s2.key2Lock k ≠ none ∧ ¬ Absent s2 k ∧
      s2.DirectGet k = Outcome.ret s2 (v1, true) ∧
      (NewMemDB name NewLockIDSeqGenerator).lastWrite k (pre ++ Op.put k v :: post) =
        some v1 ∧
      (s1.lastWrite k post = none → v1 = v) := by
  have hs := inv_run pre (inv_new name _) hpre
  obtain ⟨hn, _, es⟩ := Put_ret hput
  have hs1 : Inv s1 := by rw [es]; exact inv_put v hs hn
  have hv1 : s1.storage k = some v := by rw [es]; simp
  obtain ⟨s2, hpost⟩ := run_total post hs1
  have hs2 := inv_run post hs1 hpost
  have hafter : s.after (Op.put k v) = some s1 := by simp only [memDB.after, hput]
  have hall : (NewMemDB name NewLockIDSeqGenerator).run (pre ++ Op.put k v :: post) =
      some s2 := by
    rw [run_append pre _ hpre, run_cons post hafter]
    exact hpost
  have hst := run_storage post k hs1 hpost
  have hsome : ∃ v1, s2.storage k = some v1 ∧ (s1.lastWrite k post = none → v1 = v) := by
    cases hl : s1.lastWrite k post with
    | some v1 =>
      rw [hl] at hst
      exact ⟨v1, hst, fun h => Option.noConfusion h⟩
    | none =>
      rw [hl] at hst
      exact ⟨v, by rw [hst, hv1], fun _ => rfl⟩
  obtain ⟨v1, hv2, hlast⟩ := hsome
  have hk2 : s2.key2Lock k ≠ none := by
    intro hk
    rw [(hs2.2 k).mp hk] at hv2
    exact Option.noConfusion hv2
  refine ⟨s2, v1, hpost, hall, hk2, fun ha => hk2 ha.1, ?_, ?_, hlast⟩
  · simp [memDB.DirectGet, hv2]
  · rw [← fresh_storage k hall]
    exact hv2

/-- C21, at concrete inputs (the steps of `TestRestServerUpdate`): after
`Put("key0", "value")` on a new store, the calls `Update("2", "key0", "", true)` (which
fails), `Update("1", "key0", "newValue", true)`, `GetAndLock("key0")` and
`Release("2")` leave "key0" present, and `DirectGet("key0")` reports "newValue". -/
theorem keys_never_destroyed_witness :
    ∃ s2, (NewMemDB "RestDB" NewLockIDSeqGenerator).run
        ([] ++ Op.put "key0" "value" ::
          [Op.update "2" "key0" "" true, Op.update "1" "key0" "newValue" true,
            Op.getAndLock "key0", Op.release "2"]) = some s2 ∧
      s2.key2Lock "key0" ≠ none ∧
      s2.DirectGet "key0" = Outcome.ret s2 ("newValue", true) := by
  obtain ⟨s2, v1, _, h1, h2, _, h3, h4, _⟩ := keys_never_destroyed "RestDB" []
    [Op.update "2" "key0" "" true, Op.update "1" "key0" "newValue" true,
      Op.getAndLock "key0", Op.release "2"] "key0" "value"
    (NewMemDB "RestDB" NewLockIDSeqGenerator)
    (storeAfter "RestDB" [Op.put "key0" "value"]) "1" rfl rfl
  have hv : v1 = "newValue" := by
    have h5 : (NewMemDB "RestDB" NewLockIDSeqGenerator).lastWrite "key0"
        ([] ++ Op.put "key0" "value" ::
          [Op.update "2" "key0" "" true, Op.update "1" "key0" "newValue" true,
            Op.getAndLock "key0", Op.release "2"]) = some "newValue" := by decide
    rw [h5] at h4
    exact (Option.some.inj h4).symm
  rw [hv] at h3
  exact ⟨s2, h1, h2, h3⟩

/-! ## Claims that overlapping calls break -/

/-- C6, the code after two overlapping calls `Put("key0", "value0")` and
`Put("key0", "value1")` on a new store (both find no lock and return "1" and "2"):
the token "1" is registered for "key0" while the lock of "key0" carries "2";
`Release("1")` succeeds and unlocks that lock; the token "2" is then still registered
for "key0", yet `Release("2")` does not succeed: it unlocks an unlocked mutex. -/
theorem release_after_overlapping_puts :
    (NewMemDB "TestDB" NewLockIDSeqGenerator).PutAcquire "key0" =
      some (NewMemDB "TestDB" NewLockIDSeqGenerator, false) ∧
    ∃ s1 s3,
      (NewMemDB "TestDB" NewLockIDSeqGenerator).PutCommit "key0" "value0" false =
        Outcome.ret s1 "1" ∧
      s1.PutCommit "key0" "value1" false = Outcome.ret overlappedPuts "2" ∧
      overlappedPuts.lockId2Key "1" = some "key0" ∧
      overlappedPuts.key2Lock "key0" = some { locked := true, lockId := "2" } ∧
      ¬ HeldBy overlappedPuts "key0" "1" ∧
      overlappedPuts.Release "1" = Outcome.ret s3 none ∧
      s3.key2Lock "key0" = some { locked := false, lockId := "2" } ∧
      s3.lockId2Key "2" = some "key0" ∧
      s3.Release "2" = Outcome.panic := by
  refine ⟨rfl, _, _, rfl, rfl, by decide, by decide, ?_, rfl, by decide, by decide, rfl⟩
  intro h
  exact absurd h.1 (by decide)

/-- C10, the code at the overlapping calls `Get("1", "held")` and `Put("k0", "x")` on
the store after `Put("held", "v")`: taken alone neither call waits on a key lock ("k0"
has no lock).  `Get` takes the read lock of the store; `Put` looks the key up and
announces `mdb.Lock()`; then `Get` cannot take the read lock a second time in
`getKeyByLockID`, and `Put` cannot take the write lock while `Get` holds the read
lock: both calls wait, and no action of either can end the wait. -/
theorem get_blocks_put_on_new_key :
    (storeAfter "TestDB" [Op.put "held" "v"]).Get "1" "held" =
      Outcome.ret (storeAfter "TestDB" [Op.put "held" "v"]) ("v", none) ∧
    (storeAfter "TestDB" [Op.put "held" "v"]).key2Lock "k0" = none ∧
    (storeAfter "TestDB" [Op.put "held" "v"]).Put "k0" "x" ≠ Outcome.blocked ∧
    RWMutex.advance { readers := 0, writer := false, waiting := 0 } GetActions =
      some ({ readers := 1, writer := false, waiting := 0 },
        [LockAction.RLock, LockAction.RUnlock, LockAction.RUnlock]) ∧
    RWMutex.advance { readers := 1, writer := false, waiting := 0 } PutActions =
      some ({ readers := 2, writer := false, waiting := 0 },
        [LockAction.RUnlock, LockAction.LockAnnounce, LockAction.LockAcquire,
          LockAction.Unlock]) ∧
    RWMutex.advance { readers := 2, writer := false, waiting := 0 }
        [LockAction.RUnlock, LockAction.LockAnnounce, LockAction.LockAcquire,
          LockAction.Unlock] =
      some ({ readers := 1, writer := false, waiting := 0 },
        [LockAction.LockAnnounce, LockAction.LockAcquire, LockAction.Unlock]) ∧
    RWMutex.advance { readers := 1, writer := false, waiting := 0 }
        [LockAction.LockAnnounce, LockAction.LockAcquire, LockAction.Unlock] =
      some ({ readers := 1, writer := false, waiting := 1 },
        [LockAction.LockAcquire, LockAction.Unlock]) ∧
    RWMutex.advance { readers := 1, writer := false, waiting := 1 }
        [LockAction.RLock, LockAction.RUnlock, LockAction.RUnlock] = none ∧
    RWMutex.advance { readers := 1, writer := false, waiting := 1 }
        [LockAction.LockAcquire, LockAction.Unlock] = none := by
  refine ⟨rfl, by decide, ?_, by decide, by decide, by decide, by decide, by decide, by decide⟩
  rw [Put_not_held "x" (not_held_of_absent (by decide))]
  exact fun h => Outcome.noConfusion h

/-- C14, the code after two overlapping `PUT /values/key0` on a new store (tokens "1"
and "2", the lock of "key0" carries "2"): `POST /values/key0/1?release=true` with body
"x" is answered 204 although "1" does not identify the lock currently held; the body
is written and the lock carrying "2" is unlocked. -/
theorem http_update_after_overlapping_puts :
    (NewMemDB "TestDB" NewLockIDSeqGenerator).PutAcquire "key0" =
      some (NewMemDB "TestDB" NewLockIDSeqGenerator, false) ∧
    ∃ s1 s3,
      (NewMemDB "TestDB" NewLockIDSeqGenerator).PutCommit "key0" "value0" false =
        Outcome.ret s1 "1" ∧
      s1.PutCommit "key0" "value1" false = Outcome.ret overlappedPuts "2" ∧
      overlappedPuts.key2Lock "key0" = some { locked := true, lockId := "2" } ∧
      ¬ HeldBy overlappedPuts "key0" "1" ∧
      Server.Update { mdb := overlappedPuts } (updateRequest "key0" "1" "true" "x") =
        Outcome.ret s3 StatusNoContent ∧
      s3.storage "key0" = some "x" ∧
      s3.key2Lock "key0" = some { locked := false, lockId := "2" } ∧
      s3.lockId2Key "2" = some "key0" := by
  refine ⟨rfl, _, _, rfl, rfl, by decide, ?_, rfl, by decide, by decide, by decide⟩
  intro h
  exact absurd h.1 (by decide)

/-- C16, the code after two overlapping calls `Put("key0", "value0")` and
`Put("key0", "value1")` on a new store: both calls have returned, and the tokens "1"
and "2" are both registered for "key0"; the lock of "key0" carries "2", so the
registered token "1" does not name the holder of the lock of its key. -/
theorem registry_after_overlapping_puts :
    (NewMemDB "TestDB" NewLockIDSeqGenerator).PutAcquire "key0" =
      some (NewMemDB "TestDB" NewLockIDSeqGenerator, false) ∧
    ∃ s1,
      (NewMemDB "TestDB" NewLockIDSeqGenerator).PutCommit "key0" "value0" false =
        Outcome.ret s1 "1" ∧
      s1.PutCommit "key0" "value1" false = Outcome.ret overlappedPuts "2" ∧
      overlappedPuts.lockId2Key "1" = some "key0" ∧
      overlappedPuts.lockId2Key "2" = some "key0" ∧
      overlappedPuts.key2Lock "key0" = some { locked := true, lockId := "2" } ∧
      ¬ HeldBy overlappedPuts "key0" "1" ∧
      ¬ Inv overlappedPuts := by
  refine ⟨rfl, _, rfl, rfl, by decide, by decide, by decide, ?_, ?_⟩
  · intro h
    exact absurd h.1 (by decide)
  · intro h
    exact absurd (h.1 "1" "key0" (by decide)) (by decide)

/-- C17, the code after two overlapping calls `Put("key0", "value0")` and
`Put("key0", "value1")` on a new store, followed by `Release("1")`: the token "2" is
registered for "key0", so `Release("2")` and `Update("2", "key0", "x", true)` pass
their tests and reach `keyLock.Unlock()`, but the lock of "key0" is not locked: the
process dies. -/
theorem panic_after_overlapping_puts :
    (NewMemDB "TestDB" NewLockIDSeqGenerator).PutAcquire "key0" =
      some (NewMemDB "TestDB" NewLockIDSeqGenerator, false) ∧
    ∃ s1 s3 keyLock,
      (NewMemDB "TestDB" NewLockIDSeqGenerator).PutCommit "key0" "value0" false =
        Outcome.ret s1 "1" ∧
      s1.PutCommit "key0" "value1" false = Outcome.ret overlappedPuts "2" ∧
      overlappedPuts.Release "1" = Outcome.ret s3 none ∧
      s3.getKeyByLockID "2" = some "key0" ∧
      s3.getLockByKey "key0" = some keyLock ∧
      keyLock.locked = false ∧
      keyLock.Unlock = none ∧
      s3.Release "2" = Outcome.panic ∧
      s3.Update "2" "key0" "x" true = Outcome.panic := by
  refine ⟨rfl, _, _, { locked := false, lockId := "2" }, rfl, rfl, rfl, by decide, by decide,
    rfl, rfl, rfl, rfl⟩

/-- C19, the code after two overlapping calls `Put("key0", "value0")` and
`Put("key0", "value1")` on a new store: "key0" is held by the token "2"; the call
`Release("1")` does not present "2" and returns without waiting, yet it unlocks the
lock of "key0", after which `Put("key0", "other")` takes the key from the holder and
`Get("2", "key0")` no longer returns the value the holder wrote. -/
theorem holder_disturbed_after_overlapping_puts :
    (NewMemDB "TestDB" NewLockIDSeqGenerator).PutAcquire "key0" =
      some (NewMemDB "TestDB" NewLockIDSeqGenerator, false) ∧
    ∃ s1 s3 s4,
      (NewMemDB "TestDB" NewLockIDSeqGenerator).PutCommit "key0" "value0" false =
        Outcome.ret s1 "1" ∧
      s1.PutCommit "key0" "value1" false = Outcome.ret overlappedPuts "2" ∧
      HeldBy overlappedPuts "key0" "2" ∧
      overlappedPuts.Get "2" "key0" = Outcome.ret overlappedPuts ("value1", none) ∧
      ¬ Op.presents "2" (Op.release "1") ∧
      overlappedPuts.Release "1" = Outcome.ret s3 none ∧
      s3.key2Lock "key0" = some { locked := false, lockId := "2" } ∧
      ¬ HeldBy s3 "key0" "2" ∧
      s3.Put "key0" "other" = Outcome.ret s4 "3" ∧
      s4.Get "2" "key0" = Outcome.ret s4 ("other", none) := by
  refine ⟨rfl, _, _, _, rfl, rfl, ⟨by decide, by decide⟩, rfl, ?_, rfl, by decide, ?_, rfl, rfl⟩
  · intro h
    have h2 : ("1" : LockID) = "2" := h
    exact absurd h2 (by decide)
  · intro h
    exact absurd h.1 (by decide)

/-- C20, the code at the overlapping calls `Get("1", "held")` and `Put("k0", "x")` on
the store after `Put("held", "v")`, for the distinct keys "held" and "k0": "k0" has no
lock, and with no other call in between `Put` takes all its actions on the lock of the
store; but once `Get` on the other key holds the read lock and `Put` has announced
`mdb.Lock()`, `Put` on the new key waits, and so does `Get`: the wait does not depend
on the lock of "k0", and it does not end. -/
theorem put_on_new_key_waits_for_get :
    (storeAfter "TestDB" [Op.put "held" "v"]).key2Lock "held" =
      some { locked := true, lockId := "1" } ∧
    (storeAfter "TestDB" [Op.put "held" "v"]).key2Lock "k0" = none ∧
    RWMutex.acts { readers := 0, writer := false, waiting := 0 } PutActions =
      some { readers := 0, writer := false, waiting := 0 } ∧
    RWMutex.acts { readers := 0, writer := false, waiting := 0 } (GetActions.take 1) =
      some { readers := 1, writer := false, waiting := 0 } ∧
    RWMutex.acts { readers := 1, writer := false, waiting := 0 } (PutActions.take 3) =
      some { readers := 1, writer := false, waiting := 1 } ∧
    PutActions.drop 3 = [LockAction.LockAcquire, LockAction.Unlock] ∧
    GetActions.drop 1 = [LockAction.RLock, LockAction.RUnlock, LockAction.RUnlock] ∧
    RWMutex.advance { readers := 1, writer := false, waiting := 1 } (PutActions.drop 3) =
      none ∧
    RWMutex.advance { readers := 1, writer := false, waiting := 1 } (GetActions.drop 1) =
      none := by
  refine ⟨by decide, by decide, by decide, by decide, by decide, by decide, by decide,
    by decide, by decide⟩

end MemDB
